import Mathlib

/-!
# bloomdisk: a disk-resident Bloom filter

A shallow embedding of `bloomdisk.c` / `bloomdisk.h` and the properties of its public
operations `bloomdisk_init`, `bloomdisk_check`, `bloomdisk_add`, `bloomdisk_save` and
`bloomdisk_free`.

## The model

* The file system (`FS`) maps a path name to the bytes of the file of that name. A `FILE`
  stream remembers its path and whether it was opened with mode `"a+b"`: in append mode every
  `fwrite` goes to the end of the file, whatever `fseek` did before (C11 7.21.5.3); a stream
  opened with `"r+b"` writes at its position. Stream buffering is not modelled: a write is in
  the file at once. The `fwrite` calls whose result the code ignores succeed.
* Machine integers are natural numbers, reduced modulo `2^64`, `2^32` or `2^8` where the C
  code can wrap or truncate (`unsigned int` has 32 bits, `long` 64 bits, integers are stored
  little-endian).
* Undefined behaviour of the C code is a `Fault`: a modulo by zero, the use of a byte that
  `fread` did not deliver, a NULL stream.
* What the operating system decides (whether a file can be opened, `malloc`, the writes of the
  zero-fill loop) is an `Env`.
* The hash function XXH64 (`xxhash/xxhash.h`) and the floating-point expressions of
  `bloomdisk_init` (libm `log`, long double arithmetic) come from outside the repository and
  are parameters: `XXH64 buffer seed` and `FloatOps`.
* The mutex is not modelled: every operation runs alone.

## Bits of the data file

`bit_is_set data x` is the layout of the spec: bit `x` of a data file is bit `x mod 8` of the
byte at offset `x >> 3`. What `bloomdisk_test_bit_set_bit` tests for the bit index `x` is
`engine_bit data x`: the byte at the offset it computes, `(x >> 3) mod 2^32`. The two agree for
`x < 2^35` (`engine_bit_eq_bit_is_set`) and differ beyond (`test_bit_truncates_byte_offset`).
-/

namespace Bloomdisk

/-! ## Machine integers and byte encodings -/

/-- Number of values of a `uint64_t`. -/
def U64 : Nat := 2 ^ 64

/-- Number of values of an `unsigned int`. -/
def U32 : Nat := 2 ^ 32

/-- The constant `ONEMB`. -/
def ONEMB : Nat := 1048576

/-- The eight bytes of a `uint64_t` in memory order (little-endian), as `fwrite` emits them. -/
def u64_bytes (v : Nat) : List Nat :=
  [v % 256, v / 2 ^ 8 % 256, v / 2 ^ 16 % 256, v / 2 ^ 24 % 256,
   v / 2 ^ 32 % 256, v / 2 ^ 40 % 256, v / 2 ^ 48 % 256, v / 2 ^ 56 % 256]

/-- The value of an integer object whose bytes, in memory order, are the given ones. -/
def le_decode : List Nat → Nat
  | [] => 0
  | b :: bs => b + 256 * le_decode bs

/-! ## Long double values and the floating-point block of `bloomdisk_init` -/

/-- A value of type `long double`: a NaN, an infinity, or a finite value (a rational number). -/
inductive LongDouble where
  | nan
  | neg_inf
  | pos_inf
  | fin (q : ℚ)

/-- The C comparison `error <= 0`. -/
def LongDouble.le_zero : LongDouble → Bool
  | .nan => false
  | .neg_inf => true
  | .pos_inf => false
  | .fin q => decide (q ≤ 0)

/-- The C comparison `error >= 1`. -/
def LongDouble.ge_one : LongDouble → Bool
  | .nan => false
  | .neg_inf => false
  | .pos_inf => true
  | .fin q => decide (1 ≤ q)

/-- The floating-point expressions of `bloomdisk_init` (lines 122-127 and 133). They use libm
and long double rounding, which are outside this embedding, so they are parameters:
`bpe error` is `-log(error) / 0.480453013918201`, `to_bits entries bpe` is
`(uint64_t)((long double)entries * bpe)` and `to_hashes bpe` is
`(unsigned char)ceil(0.693147180559945 * bpe)`. -/
structure FloatOps where
  bpe : LongDouble → LongDouble
  to_bits : Nat → LongDouble → Nat
  to_hashes : LongDouble → Nat

/-! ## Files and streams -/

/-- The file system: the content of every existing file, by path name. -/
abbrev FS : Type := String → Option (List Nat)

/-- An open stdio stream: its path and whether it was opened with mode `"a+b"`. -/
structure FILE where
  path : String
  append : Bool
deriving DecidableEq

/-- The two `fopen` modes the library uses. -/
inductive Mode where
  | r_plus
  | a_plus
deriving DecidableEq

/-- What the environment decides: whether a path may be opened, whether `malloc` succeeds,
and whether the zero-fill `fwrite` issued when the given number of bytes remains succeeds. -/
structure Env where
  can_open : String → Bool
  malloc_ok : Bool
  fwrite_ok : Nat → Bool

/-- Undefined behaviour of the C code. -/
inductive Fault where
  | null_stream
  | missing_file
  | uninitialised_read
  | division_by_zero
deriving DecidableEq

/-- Replace a file's content. -/
def FS.put (fs : FS) (path : String) (data : List Nat) : FS :=
  fun p => if p = path then some data else fs p

/-- The call `fopen(path, mode)`: `"r+b"` needs an existing file, `"a+b"` creates a missing
one (empty) and keeps the content of an existing one. NULL is `none`. -/
def fopen (env : Env) (fs : FS) (path : String) : Mode → Option FILE × FS
  | .r_plus =>
    if env.can_open path = true ∧ (fs path).isSome = true then (some ⟨path, false⟩, fs)
    else (none, fs)
  | .a_plus =>
    if env.can_open path = true then
      (some ⟨path, true⟩, match fs path with
                          | some _ => fs
                          | none => fs.put path [])
    else (none, fs)

/-- Bytes of a file after `bs` is written at offset `pos` (a gap past the end reads as zeros). -/
def overwrite (data : List Nat) (pos : Nat) (bs : List Nat) : List Nat :=
  (data ++ List.replicate (pos - data.length) 0).take pos ++ bs ++ data.drop (pos + bs.length)

/-- The call `fwrite` of the bytes `bs` on a stream at position `pos`: an append-mode stream
writes at the end of the file, any other at `pos`. Returns the file system and the new position. -/
def fwrite (fs : FS) (f : FILE) (pos : Nat) (bs : List Nat) : FS × Nat :=
  match fs f.path with
  | none => (fs, pos)
  | some data =>
    if f.append = true then (fs.put f.path (data ++ bs), data.length + bs.length)
    else (fs.put f.path (overwrite data pos bs), pos + bs.length)

/-- The call `fread(&v, size, 1, f)` at position `pos` of a file with content `data`: the
value read (bytes that were not delivered count as zero, the state of the zeroed handle),
the number of items read (1 or 0) and the new position. -/
def fread (data : List Nat) (pos size : Nat) : Nat × Nat × Nat :=
  (le_decode ((data.drop pos).take size),
   if pos + size ≤ data.length then 1 else 0,
   if pos + size ≤ data.length then pos + size else max pos data.length)

/-! ## The filter handle -/

/-- The C `struct bloomdisk` (the mutex is not modelled). -/
structure bloomdisk where
  entries : Nat
  current_entries : Nat
  collisions : Nat
  bits : Nat
  bytes : Nat
  hashes : Nat
  error : LongDouble
  ready : Nat
  major : Nat
  minor : Nat
  bpe : LongDouble
  name : String
  filename_struct : String
  filename_data : String
  fd_data : Option FILE
  fd_struct : Option FILE

/-- The handle after `memset(bloom, 0, sizeof(struct bloomdisk))`. -/
def bloomdisk.zero : bloomdisk :=
  { entries := 0, current_entries := 0, collisions := 0, bits := 0, bytes := 0, hashes := 0,
    error := .fin 0, ready := 0, major := 0, minor := 0, bpe := .fin 0,
    name := "", filename_struct := "", filename_data := "",
    fd_data := none, fd_struct := none }

/-! ## The bit engine -/

/-- The variable `byte` of `bloomdisk_test_bit_set_bit`: `unsigned int byte = bit >> 3`. -/
def byte_of_bit (bit : Nat) : Nat := (bit >>> 3) % U32

/-- The variable `mask` of `bloomdisk_test_bit_set_bit`: `mask = 1 << (bit % 8)`. -/
def mask_of_bit (bit : Nat) : Nat := (1 <<< (bit % 8)) % 256

/-- The function `bloomdisk_test_bit_set_bit(fd, bit, set_bit)`: result and file system. -/
def bloomdisk_test_bit_set_bit (fs : FS) (fd : Option FILE) (bit : Nat) (set_bit : Int) :
    Except Fault (Int × FS) :=
  match fd with
  | none => .error .null_stream
  | some f =>
    let byte := byte_of_bit bit
    match fs f.path with
    | none => .error .missing_file
    | some data =>
      match data.get? byte with
      | none => .error .uninitialised_read
      | some c =>
        let mask := mask_of_bit bit
        if c &&& mask ≠ 0 then .ok (1, fs)
        else if set_bit ≠ 0 then .ok (0, (fwrite fs f byte [(c ||| mask) % 256]).1)
        else .ok (0, fs)

/-- The test `c & mask` of `bloomdisk_test_bit_set_bit` for the bit index `x` on a file with
content `data`: `c` is the byte at the offset `byte` the function computes for `x`. -/
def engine_bit (data : List Nat) (x : Nat) : Bool :=
  decide (data.getD (byte_of_bit x) 0 &&& mask_of_bit x ≠ 0)

/-- Whether `bloomdisk_test_bit_set_bit` computes the same `byte` and the same `mask` for the
bit indices `x` and `y`. -/
def engine_same_bit (x y : Nat) : Bool :=
  decide (byte_of_bit y = byte_of_bit x) && decide (y % 8 = x % 8)

/-! ## check and add -/

/-- The bit position of probe `i`: `x = (a + b*i) % bloom->bits` in `uint64_t` arithmetic
(`bits` is not zero here). -/
def probe (a b bits i : Nat) : Nat := ((a + (b * i) % U64) % U64) % bits

/-- The `for` loop of `bloomdisk_check_add` with `n` iterations left, loop counter `i` and
`hits` so far. `i` and `hits` never exceed `hashes`, an 8-bit value, so their `unsigned char`
arithmetic does not wrap. -/
def check_add_loop (bloom : bloomdisk) (a b : Nat) (add : Int) :
    Nat → Nat → Nat → FS → Except Fault (Int × FS)
  | 0, _, hits, fs => .ok (if hits = bloom.hashes then 1 else 0, fs)
  | n + 1, i, hits, fs =>
    if bloom.bits = 0 then .error .division_by_zero
    else
      match bloomdisk_test_bit_set_bit fs bloom.fd_data (probe a b bloom.bits i) add with
      | .error e => .error e
      | .ok (r, fs1) =>
        if r ≠ 0 then check_add_loop bloom a b add n (i + 1) (hits + 1) fs1
        else if add = 0 then .ok (0, fs1)
        else check_add_loop bloom a b add n (i + 1) hits fs1

/-- The function `bloomdisk_check_add(bloom, buffer, len, add)`; `XXH64 buffer seed` is the
64-bit hash of the buffer. -/
def bloomdisk_check_add (XXH64 : List Nat → Nat → Nat) (bloom : bloomdisk) (fs : FS)
    (buffer : List Nat) (add : Int) : Except Fault (Int × FS) :=
  if bloom.ready = 0 then .ok (-1, fs)
  else
    let a := XXH64 buffer 0x59f2815b16f81798 % U64
    let b := XXH64 buffer a % U64
    check_add_loop bloom a b add bloom.hashes 0 0 fs

/-- The function `bloomdisk_check(bloom, buffer, len)`: result, handle and file system. -/
def bloomdisk_check (XXH64 : List Nat → Nat → Nat) (bloom : bloomdisk) (fs : FS)
    (buffer : List Nat) : Except Fault (Int × bloomdisk × FS) :=
  match bloomdisk_check_add XXH64 bloom fs buffer 0 with
  | .error e => .error e
  | .ok (r, fs1) => .ok (r, bloom, fs1)

/-- The function `bloomdisk_add(bloom, buffer, len)`: result, handle and file system. -/
def bloomdisk_add (XXH64 : List Nat → Nat → Nat) (bloom : bloomdisk) (fs : FS)
    (buffer : List Nat) : Except Fault (Int × bloomdisk × FS) :=
  match bloomdisk_check_add XXH64 bloom fs buffer 1 with
  | .error e => .error e
  | .ok (r, fs1) =>
    .ok (r, { bloom with
              current_entries := (bloom.current_entries + 1) % U64,
              collisions := if r = 1 then (bloom.collisions + 1) % U64 else bloom.collisions },
         fs1)

/-! ## Initialisation, save and free -/

/-- The effect of `snprintf(dst, 69, ...)`: at most 68 characters are stored. -/
def snprintf69 (s : String) : String := ⟨s.data.take 68⟩

/-- The validation of `bloomdisk_init`: `entries < 1000 || error <= 0 || error >= 1`. -/
def params_rejected (entries : Nat) (error : LongDouble) : Bool :=
  decide (entries < 1000) || error.le_zero || error.ge_one

/-- The zero-fill loop of `bloomdisk_init`: `bytes` bytes remain, `rwed` is the result of the
last `fwrite`, `pos` the position of the stream. Returns the final `rwed` and file system. -/
def zero_fill (env : Env) (fd : FILE) (bytes rwed pos : Nat) (fs : FS) : Nat × FS :=
  if _h : bytes ≠ 0 ∧ rwed ≠ 0 then
    if ONEMB ≤ bytes then
      if env.fwrite_ok bytes = true then
        zero_fill env fd (bytes - ONEMB) 1 (fwrite fs fd pos (List.replicate ONEMB 0)).2
          (fwrite fs fd pos (List.replicate ONEMB 0)).1
      else zero_fill env fd (bytes - ONEMB) 0 pos fs
    else
      if env.fwrite_ok bytes = true then
        zero_fill env fd (bytes - bytes) 1 (fwrite fs fd pos (List.replicate bytes 0)).2
          (fwrite fs fd pos (List.replicate bytes 0)).1
      else zero_fill env fd (bytes - bytes) 0 pos fs
  else (rwed, fs)
termination_by bytes
decreasing_by
  all_goals simp_wf
  all_goals (simp only [ONEMB] at *; omega)

/-- The seven `fread` calls of the reopen path of `bloomdisk_init` on the metadata file
content: `rwed` and the values of `ready`, `entries_l`, `current_entries`, `collisions`,
`bits`, `bytes`, `hashes`. -/
def read_metadata (data : List Nat) : Nat × Nat × Nat × Nat × Nat × Nat × Nat × Nat :=
  let r0 := fread data 0 1
  let r1 := fread data r0.2.2 8
  let r2 := fread data r1.2.2 8
  let r3 := fread data r2.2.2 8
  let r4 := fread data r3.2.2 8
  let r5 := fread data r4.2.2 8
  let r6 := fread data r5.2.2 1
  (1 &&& r0.2.1 &&& r1.2.1 &&& r2.2.1 &&& r3.2.1 &&& r4.2.1 &&& r5.2.1 &&& r6.2.1,
   r0.1, r1.1, r2.1, r3.1, r4.1, r5.1, r6.1)

/-- The handle of `bloomdisk_init` after the sizing block (lines 114-135), before any file
is opened. -/
def init_sizing (fp : FloatOps) (entries : Nat) (error : LongDouble) (base_filename : String) :
    bloomdisk :=
  let bpe := fp.bpe error
  let bits := fp.to_bits entries bpe % U64
  { bloomdisk.zero with
    filename_struct := snprintf69 (base_filename ++ ".blm"),
    filename_data := snprintf69 (base_filename ++ ".dat"),
    name := snprintf69 base_filename,
    current_entries := 0,
    collisions := 0,
    entries := entries,
    error := error,
    bpe := bpe,
    bits := bits,
    bytes := if bits % 8 ≠ 0 then (bits / 8 + 1) % U64 else bits / 8,
    hashes := fp.to_hashes bpe % 256,
    major := 0,
    minor := 1 }

/-- The branch `New File` of `bloomdisk_init` (lines 140-175, then 229-230): both files
are opened with `"a+b"` and the data file is zero-filled. -/
def init_new_file (env : Env) (fs : FS) (bloom : bloomdisk) : Int × bloomdisk × FS :=
  let o1 := fopen env fs bloom.filename_struct .a_plus
  let o2 := fopen env o1.2 bloom.filename_data .a_plus
  let bloom1 := { bloom with fd_struct := o1.1, fd_data := o2.1 }
  match o1.1, o2.1 with
  | none, _ => (0, bloom1, o2.2)
  | some _, none => (0, bloom1, o2.2)
  | some _, some fd_data =>
    if env.malloc_ok = true then
      let z := zero_fill env fd_data bloom1.bytes 1 0 o2.2
      if z.1 ≠ 1 then (0, bloom1, z.2)
      else (1, { bloom1 with ready := 1 }, z.2)
    else (0, bloom1, o2.2)

/-- The branch `File Already exist` of `bloomdisk_init` (lines 178-227, then 229-230): the
data file is opened with `"r+b"` and the metadata record is read and compared. -/
def init_existing (env : Env) (fs : FS) (bloom : bloomdisk) (fd_struct : FILE) :
    Int × bloomdisk × FS :=
  let o2 := fopen env fs bloom.filename_data .r_plus
  let bloom1 := { bloom with fd_struct := some fd_struct, fd_data := o2.1 }
  match o2.1 with
  | none => (0, bloom1, fs)
  | some _ =>
    match read_metadata ((fs fd_struct.path).getD []) with
    | (rwed, _, entries_l, current_entries, collisions, bits_l, bytes_l, hashes_l) =>
      let bloom2 := { bloom1 with current_entries := current_entries, collisions := collisions }
      if rwed = 0 then (0, bloom2, fs)
      else if entries_l ≠ bloom2.entries ∨ bits_l ≠ bloom2.bits ∨ bytes_l ≠ bloom2.bytes
          ∨ hashes_l ≠ bloom2.hashes then (0, bloom2, fs)
      else (2, { bloom2 with ready := 1 }, fs)

/-- The function `bloomdisk_init(bloom, entries, error, base_filename)`: result, handle and
file system. -/
def bloomdisk_init (env : Env) (fp : FloatOps) (fs : FS) (entries : Nat) (error : LongDouble)
    (base_filename : String) : Int × bloomdisk × FS :=
  if params_rejected entries error = true then (0, bloomdisk.zero, fs)
  else
    let bloom := init_sizing fp entries error base_filename
    match (fopen env fs bloom.filename_struct .r_plus).1 with
    | none => init_new_file env fs bloom
    | some fd_struct => init_existing env fs bloom fd_struct

/-- The seven `fwrite` calls shared by `bloomdisk_save` and `bloomdisk_free`, after
`fseek(fd_struct, 0, SEEK_SET)`. -/
def write_metadata (bloom : bloomdisk) (fd : FILE) (fs : FS) : FS :=
  let w0 := fwrite fs fd 0 [bloom.ready % 256]
  let w1 := fwrite w0.1 fd w0.2 (u64_bytes bloom.entries)
  let w2 := fwrite w1.1 fd w1.2 (u64_bytes bloom.current_entries)
  let w3 := fwrite w2.1 fd w2.2 (u64_bytes bloom.collisions)
  let w4 := fwrite w3.1 fd w3.2 (u64_bytes bloom.bits)
  let w5 := fwrite w4.1 fd w4.2 (u64_bytes bloom.bytes)
  let w6 := fwrite w5.1 fd w5.2 [bloom.hashes % 256]
  w6.1

/-- The function `bloomdisk_save(bloom)`: handle and file system (the C function returns no
value). -/
def bloomdisk_save (bloom : bloomdisk) (fs : FS) : Except Fault (bloomdisk × FS) :=
  if bloom.ready ≠ 0 then
    match bloom.fd_struct with
    | none => .error .null_stream
    | some fd => .ok (bloom, write_metadata bloom fd fs)
  else .ok (bloom, fs)

/-- The function `bloomdisk_free(bloom)`: handle and file system. Closing the streams leaves
the files as they are. -/
def bloomdisk_free (bloom : bloomdisk) (fs : FS) : Except Fault (bloomdisk × FS) :=
  if bloom.ready ≠ 0 then
    match bloom.fd_struct, bloom.fd_data with
    | none, _ => .error .null_stream
    | some _, none => .error .null_stream
    | some fd, some _ => .ok (bloomdisk.zero, write_metadata bloom fd fs)
  else .ok (bloomdisk.zero, fs)

/-- A sequence of `bloomdisk_add` calls, one per buffer: the results in call order, the
final handle and file system. -/
def run_adds (XXH64 : List Nat → Nat → Nat) (bloom : bloomdisk) (fs : FS) :
    List (List Nat) → Except Fault (List Int × bloomdisk × FS)
  | [] => .ok ([], bloom, fs)
  | buffer :: rest =>
    match bloomdisk_add XXH64 bloom fs buffer with
    | .error e => .error e
    | .ok (r, bloom1, fs1) =>
      match run_adds XXH64 bloom1 fs1 rest with
      | .error e => .error e
      | .ok (rs, bloom2, fs2) => .ok (r :: rs, bloom2, fs2)

/-! ## Vocabulary of the properties -/

/-- Whether bit `x` is set in a data file with content `data`, in the layout of the spec:
bit `x` lives in byte `x >> 3` at mask `1 << (x mod 8)`. A byte beyond the end of the file
holds no set bit. -/
def bit_is_set (data : List Nat) (x : Nat) : Bool :=
  decide (data.getD (x >>> 3) 0 &&& (1 <<< (x % 8)) ≠ 0)

/-- The bit positions `x_0 .. x_{k-1}` that `bloomdisk_check_add` probes for a buffer. -/
def probes (XXH64 : List Nat → Nat → Nat) (bloom : bloomdisk) (buffer : List Nat) : List Nat :=
  (List.range bloom.hashes).map
    (probe (XXH64 buffer 0x59f2815b16f81798 % U64)
      (XXH64 buffer (XXH64 buffer 0x59f2815b16f81798 % U64) % U64) bloom.bits)

/-- The file system `fs1` comes from `fs` by writes through the stream `f` only: every other
file is as before, the file of `f` has not shrunk, and when `f` is an append-mode stream the
bytes that were already in its file are as before. -/
def Grows (f : FILE) (fs fs1 : FS) : Prop :=
  (∀ p, p ≠ f.path → fs1 p = fs p) ∧
  ∀ d, fs f.path = some d →
    ∃ d1, fs1 f.path = some d1 ∧ d.length ≤ d1.length ∧
      (f.append = true → ∀ k, k < d.length → d1[k]? = d[k]?)

/-! ## Concrete parameters for the worked examples -/

/-- An environment in which every `fopen`, `malloc` and `fwrite` succeeds. -/
def env_ok : Env := { can_open := fun _ => true, malloc_ok := true, fwrite_ok := fun _ => true }

/-- A directory without files. -/
def fs_empty : FS := fun _ => none

/-- The floating-point block computed with exact rational arithmetic from the values `log`
returns: the three C expressions with long double rounding left out. -/
def fp_exact (log : ℚ → ℚ) : FloatOps where
  bpe e :=
    match e with
    | .fin q => .fin (-(log q) / 0.480453013918201)
    | _ => .nan
  to_bits entries bpe :=
    match bpe with
    | .fin b => (⌊(entries : ℚ) * b⌋).toNat
    | _ => 0
  to_hashes bpe :=
    match bpe with
    | .fin b => (⌈0.693147180559945 * b⌉).toNat
    | _ => 0

/-- The natural logarithm at the arguments of the worked examples, to 15 decimals
(`log(0.000001)`, `log(0.00000100001)`, `log(0.0001)`); other arguments are not used. -/
def log_sample (x : ℚ) : ℚ :=
  if x = 1 / 1000000 then -13.815510557964274
  else if x = 100001 / 100000000000 then -13.815500558014273
  else if x = 1 / 10000 then -9.210340371976182
  else 0

/-- The floating-point block at the worked examples. -/
def fp_sample : FloatOps := fp_exact log_sample

/-- A stand-in for XXH64 in the worked examples: a 64-bit polynomial hash of the buffer. -/
def sample_hash (buffer : List Nat) (seed : Nat) : Nat :=
  buffer.foldl (fun h c => (h * 1099511628211 + c) % U64) seed

/-- A hash function for which every probe of every buffer is bit 0 (`a = b = 0`). -/
def zero_hash (_buffer : List Nat) (_seed : Nat) : Nat := 0

/-- The 42-byte metadata record of a handle, as `bloomdisk_save` and `bloomdisk_free` emit it. -/
def metadata_record (bloom : bloomdisk) : List Nat :=
  [bloom.ready % 256] ++ u64_bytes bloom.entries ++ u64_bytes bloom.current_entries
    ++ u64_bytes bloom.collisions ++ u64_bytes bloom.bits ++ u64_bytes bloom.bytes
    ++ [bloom.hashes % 256]

/-- The handle of the worked examples: the filter `t1` for 1000 entries and error `0.000001`,
reopened from its files (28755 bits, 3595 bytes, 20 hashes). -/
def sample_bloom : bloomdisk :=
  { bloomdisk.zero with
    entries := 1000, bits := 28755, bytes := 3595, hashes := 20,
    error := .fin (1 / 1000000), bpe := fp_sample.bpe (.fin (1 / 1000000)),
    ready := 1, minor := 1,
    name := "t1", filename_struct := "t1.blm", filename_data := "t1.dat",
    fd_struct := some ⟨"t1.blm", false⟩, fd_data := some ⟨"t1.dat", false⟩ }

/-- The files of the worked examples: the metadata record of `sample_bloom` and an all-zero
data file of 3595 bytes. -/
def sample_fs : FS :=
  (fs_empty.put "t1.blm" (metadata_record sample_bloom)).put "t1.dat" (List.replicate 3595 0)

/-- The first call of the worked examples: `bloomdisk_init(&bloom, 1000, 0.000001, "t1")` in
a directory without files. -/
def sample_init : Int × bloomdisk × FS :=
  bloomdisk_init env_ok fp_sample fs_empty 1000 (.fin (1 / 1000000)) "t1"

/-- The natural logarithm at two extreme accepted errors, to 15 decimals: `log(1e-100)` and
`log(0.9999999)`; other arguments are not used. -/
def log_edge (x : ℚ) : ℚ :=
  if x = 1 / 10 ^ 100 then -230.258509299404568
  else if x = 9999999 / 10000000 then -0.000000100000005
  else 0

/-- The floating-point block at the two extreme errors. -/
def fp_edge : FloatOps := fp_exact log_edge

/-- A call with a tiny accepted error: `bloomdisk_init(&bloom, 1000, 1e-100, "t1")` in a
directory without files. -/
def tiny_init : Int × bloomdisk × FS :=
  bloomdisk_init env_ok fp_edge fs_empty 1000 (.fin (1 / 10 ^ 100)) "t1"

/-- A call with an accepted error close to 1: `bloomdisk_init(&bloom, 1000, 0.9999999, "t1")`
in a directory without files. -/
def near_one_init : Int × bloomdisk × FS :=
  bloomdisk_init env_ok fp_edge fs_empty 1000 (.fin (9999999 / 10000000)) "t1"

/-- A base name of 67 characters. -/
def long_base : String := ⟨List.replicate 67 'a'⟩

/-- A ready handle of a filter of `2^35 + 8` bits (`2^32 + 1` bytes) with one hash, on the
files `big.blm` and `big.dat`, reopened from its files. -/
def big_bloom : bloomdisk :=
  { bloomdisk.zero with
    entries := 2 ^ 35, bits := 2 ^ 35 + 8, bytes := 2 ^ 32 + 1, hashes := 1,
    ready := 1, minor := 1,
    name := "big", filename_struct := "big.blm", filename_data := "big.dat",
    fd_struct := some ⟨"big.blm", false⟩, fd_data := some ⟨"big.dat", false⟩ }

/-- A data file of `2^32 + 1` bytes: byte 0 is 1 (bit 0 is set), every other byte is 0. -/
def big_data : List Nat := 1 :: List.replicate (2 ^ 32) 0

/-- The file system that holds `big_data` as `big.dat`. -/
def big_fs : FS := fs_empty.put "big.dat" big_data

/-- A hash function whose value is `2^35` for every buffer and seed, so that the one probe of
`big_bloom` is bit `2^35`. -/
def high_hash (_buffer : List Nat) (_seed : Nat) : Nat := 2 ^ 35

theorem shiftRight_three (x : Nat) : x >>> 3 = x / 8 := by
  simp [Nat.shiftRight_eq_div_pow]

theorem byte_of_bit_le (x : Nat) : byte_of_bit x ≤ x / 8 := by
  unfold byte_of_bit
  rw [shiftRight_three]
  exact Nat.mod_le _ _

theorem byte_of_bit_lt {x bits : Nat} (h : x < bits) : byte_of_bit x < (bits + 7) / 8 := by
  have h1 := byte_of_bit_le x
  omega

theorem probe_lt (a b i : Nat) {bits : Nat} (h : bits ≠ 0) : probe a b bits i < bits := by
  unfold probe
  exact Nat.mod_lt _ (Nat.pos_of_ne_zero h)

theorem overwrite_one_length (data : List Nat) (pos c : Nat) (h : pos < data.length) :
    (overwrite data pos [c]).length = data.length := by
  unfold overwrite
  simp
  omega

theorem Grows.refl (f : FILE) (fs : FS) : Grows f fs fs :=
  ⟨fun _ _ => rfl, fun d hd => ⟨d, hd, le_refl _, fun _ _ _ => rfl⟩⟩

theorem Grows.trans {f : FILE} {fs fs1 fs2 : FS} (h1 : Grows f fs fs1) (h2 : Grows f fs1 fs2) :
    Grows f fs fs2 := by
  refine ⟨fun p hp => by rw [h2.1 p hp, h1.1 p hp], fun d hd => ?_⟩
  obtain ⟨d1, hd1, hl1, hk1⟩ := h1.2 d hd
  obtain ⟨d2, hd2, hl2, hk2⟩ := h2.2 d1 hd1
  refine ⟨d2, hd2, le_trans hl1 hl2, fun happ k hk => ?_⟩
  rw [hk2 happ k (lt_of_lt_of_le hk hl1), hk1 happ k hk]

theorem Grows.put_append (f : FILE) (fs : FS) (data bs : List Nat) (hfile : fs f.path = some data) :
    Grows f fs (fs.put f.path (data ++ bs)) := by
  refine ⟨fun p hp => by simp [FS.put, hp], fun d hd => ?_⟩
  rw [hfile] at hd
  cases hd
  exact ⟨data ++ bs, by simp [FS.put], by simp, fun _ k hk => List.getElem?_append_left hk⟩

/-- One call of the bit engine on an existing byte: the result is 1 exactly when the engine
finds the bit set; the file system is untouched on a hit or without `set_bit`, and otherwise
changes by a write through the stream. -/
theorem test_bit_spec (fs : FS) (f : FILE) (data : List Nat) (x : Nat) (set_bit : Int)
    (hfile : fs f.path = some data) (hx : byte_of_bit x < data.length) :
    ∃ fs1, bloomdisk_test_bit_set_bit fs (some f) x set_bit
        = .ok (if engine_bit data x = true then 1 else 0, fs1)
      ∧ (engine_bit data x = true ∨ set_bit = 0 → fs1 = fs)
      ∧ Grows f fs fs1 := by
  obtain ⟨c, hc⟩ : ∃ c, data[byte_of_bit x]? = some c :=
    ⟨_, List.getElem?_eq_getElem hx⟩
  have hget : data.getD (byte_of_bit x) 0 = c := by
    simp [List.getD_eq_getElem?_getD, hc]
  by_cases hset : c &&& mask_of_bit x ≠ 0
  · refine ⟨fs, ?_, fun _ => rfl, Grows.refl f fs⟩
    simp [bloomdisk_test_bit_set_bit, hfile, hc, hset, engine_bit, hget]
  · by_cases hs : set_bit = 0
    · refine ⟨fs, ?_, fun _ => rfl, Grows.refl f fs⟩
      simp [bloomdisk_test_bit_set_bit, hfile, hc, hset, engine_bit, hget, hs]
    · have hbit : engine_bit data x = false := by
        simp only [engine_bit, hget]; simpa using hset
      have hno : engine_bit data x = true ∨ set_bit = 0 → False := by
        rintro (h | h)
        · simp [hbit] at h
        · exact hs h
      by_cases happ : f.append = true
      · refine ⟨fs.put f.path (data ++ [(c ||| mask_of_bit x) % 256]), ?_,
          fun h => (hno h).elim, Grows.put_append f fs data _ hfile⟩
        simp [bloomdisk_test_bit_set_bit, hfile, hc, hset, hbit, hs, fwrite, happ]
      · refine ⟨fs.put f.path (overwrite data (byte_of_bit x) [(c ||| mask_of_bit x) % 256]),
          ?_, fun h => (hno h).elim, ⟨fun p hp => by simp [FS.put, hp], fun d hd => ?_⟩⟩
        · simp [bloomdisk_test_bit_set_bit, hfile, hc, hset, hbit, hs, fwrite, happ]
        · rw [hfile] at hd
          cases hd
          exact ⟨overwrite data (byte_of_bit x) [(c ||| mask_of_bit x) % 256],
            by simp [FS.put], by rw [overwrite_one_length _ _ _ hx],
            fun h => absurd h happ⟩

/-! ## The probe loop -/

/-- The loop of a check (no writes): 1 when every remaining probe finds its bit set and the
hit count reaches `hashes`, 0 otherwise; the file system is unchanged. -/
theorem check_loop_spec (bloom : bloomdisk) (a b : Nat) (f : FILE) (fs : FS) (data : List Nat)
    (hbits : bloom.bits ≠ 0) (hfd : bloom.fd_data = some f) (hfile : fs f.path = some data)
    (hlen : (bloom.bits + 7) / 8 ≤ data.length) (n : Nat) :
    ∀ i hits, check_add_loop bloom a b 0 n i hits fs
      = .ok (if ∀ j, j < n → engine_bit data (probe a b bloom.bits (i + j)) = true
             then (if hits + n = bloom.hashes then 1 else 0) else 0, fs) := by
  induction n with
  | zero => intro i hits; simp [check_add_loop]
  | succ n ih =>
    intro i hits
    have hx : byte_of_bit (probe a b bloom.bits i) < data.length :=
      lt_of_lt_of_le (byte_of_bit_lt (probe_lt a b i hbits)) hlen
    obtain ⟨fs1, hres, hsame, -⟩ := test_bit_spec fs f data _ 0 hfile hx
    have hfs1 : fs1 = fs := hsame (Or.inr rfl)
    subst hfs1
    by_cases hb : engine_bit data (probe a b bloom.bits i) = true
    · have hall : (∀ j, j < n + 1 → engine_bit data (probe a b bloom.bits (i + j)) = true)
          ↔ ∀ j, j < n → engine_bit data (probe a b bloom.bits (i + 1 + j)) = true := by
        constructor
        · intro h j hj
          have := h (j + 1) (by omega)
          rwa [show i + (j + 1) = i + 1 + j by omega] at this
        · intro h j hj
          cases j with
          | zero => simpa using hb
          | succ j =>
            have := h j (by omega)
            rwa [show i + 1 + j = i + (j + 1) by omega] at this
      rw [check_add_loop]
      simp only [hbits, if_false, hfd, hres, hb, if_true]
      simp only [one_ne_zero, ne_eq, not_false_eq_true, if_true]
      rw [ih (i + 1) (hits + 1)]
      simp only [hall, show hits + 1 + n = hits + (n + 1) by omega]
    · have hall : ¬ ∀ j, j < n + 1 → engine_bit data (probe a b bloom.bits (i + j)) = true :=
        fun h => hb (by simpa using h 0 (by omega))
      rw [check_add_loop]
      simp only [hbits, if_false, hfd, hres, hb]
      simp [hall]

/-- The loop of an add after a miss: the hit count can no longer reach `hashes`, so the
result is 0. -/
theorem add_loop_miss (bloom : bloomdisk) (a b : Nat) (f : FILE)
    (hbits : bloom.bits ≠ 0) (hfd : bloom.fd_data = some f) (n : Nat) :
    ∀ i hits fs data, fs f.path = some data → (bloom.bits + 7) / 8 ≤ data.length →
      hits + n < bloom.hashes →
      ∃ fs1, check_add_loop bloom a b 1 n i hits fs = .ok (0, fs1) ∧ Grows f fs fs1 := by
  induction n with
  | zero =>
    intro i hits fs data _ _ hlt
    exact ⟨fs, by simp [check_add_loop]; omega, Grows.refl f fs⟩
  | succ n ih =>
    intro i hits fs data hfile hlen hlt
    have hx : byte_of_bit (probe a b bloom.bits i) < data.length :=
      lt_of_lt_of_le (byte_of_bit_lt (probe_lt a b i hbits)) hlen
    obtain ⟨fs1, hres, -, hgrow⟩ := test_bit_spec fs f data _ 1 hfile hx
    obtain ⟨d1, hd1, hl1, -⟩ := hgrow.2 data hfile
    by_cases hb : engine_bit data (probe a b bloom.bits i) = true
    · obtain ⟨fs2, h2, hg2⟩ := ih (i + 1) (hits + 1) fs1 d1 hd1 (le_trans hlen hl1) (by omega)
      refine ⟨fs2, ?_, hgrow.trans hg2⟩
      rw [check_add_loop]
      simp only [hbits, if_false, hfd, hres, hb, if_true]
      simpa using h2
    · obtain ⟨fs2, h2, hg2⟩ := ih (i + 1) hits fs1 d1 hd1 (le_trans hlen hl1) (by omega)
      refine ⟨fs2, ?_, hgrow.trans hg2⟩
      rw [check_add_loop]
      simp only [hbits, if_false, hfd, hres, hb]
      simpa using h2

/-- The loop of an add while every probe so far was a hit: 1 when every remaining probe finds
its bit set in the file as it is now, 0 otherwise; in the first case nothing is written. -/
theorem add_loop_spec (bloom : bloomdisk) (a b : Nat) (f : FILE)
    (hbits : bloom.bits ≠ 0) (hfd : bloom.fd_data = some f) (n : Nat) :
    ∀ i hits fs data, fs f.path = some data → (bloom.bits + 7) / 8 ≤ data.length →
      hits + n = bloom.hashes →
      ∃ fs1, check_add_loop bloom a b 1 n i hits fs
          = .ok (if ∀ j, j < n → engine_bit data (probe a b bloom.bits (i + j)) = true
                 then 1 else 0, fs1)
        ∧ Grows f fs fs1
        ∧ ((∀ j, j < n → engine_bit data (probe a b bloom.bits (i + j)) = true) → fs1 = fs) := by
  induction n with
  | zero =>
    intro i hits fs data _ _ heq
    exact ⟨fs, by simp [check_add_loop]; omega, Grows.refl f fs, fun _ => rfl⟩
  | succ n ih =>
    intro i hits fs data hfile hlen heq
    have hx : byte_of_bit (probe a b bloom.bits i) < data.length :=
      lt_of_lt_of_le (byte_of_bit_lt (probe_lt a b i hbits)) hlen
    obtain ⟨fs1, hres, hsame, hgrow⟩ := test_bit_spec fs f data _ 1 hfile hx
    by_cases hb : engine_bit data (probe a b bloom.bits i) = true
    · have hfs1 : fs1 = fs := hsame (Or.inl hb)
      subst hfs1
      have hall : (∀ j, j < n + 1 → engine_bit data (probe a b bloom.bits (i + j)) = true)
          ↔ ∀ j, j < n → engine_bit data (probe a b bloom.bits (i + 1 + j)) = true := by
        constructor
        · intro h j hj
          have := h (j + 1) (by omega)
          rwa [show i + (j + 1) = i + 1 + j by omega] at this
        · intro h j hj
          cases j with
          | zero => simpa using hb
          | succ j =>
            have := h j (by omega)
            rwa [show i + 1 + j = i + (j + 1) by omega] at this
      obtain ⟨fs2, h2, hg2, hs2⟩ := ih (i + 1) (hits + 1) fs1 data hfile hlen (by omega)
      refine ⟨fs2, ?_, hg2, fun h => hs2 (hall.mp h)⟩
      rw [check_add_loop]
      simp only [hbits, if_false, hfd, hres, hb, if_true]
      simp only [one_ne_zero, ne_eq, not_false_eq_true, if_true]
      rw [h2]
      simp only [hall]
    · have hall : ¬ ∀ j, j < n + 1 → engine_bit data (probe a b bloom.bits (i + j)) = true :=
        fun h => hb (by simpa using h 0 (by omega))
      obtain ⟨d1, hd1, hl1, -⟩ := hgrow.2 data hfile
      obtain ⟨fs2, h2, hg2⟩ :=
        add_loop_miss bloom a b f hbits hfd n (i + 1) hits fs1 d1 hd1 (le_trans hlen hl1)
          (by omega)
      refine ⟨fs2, ?_, hgrow.trans hg2, fun h => absurd h hall⟩
      rw [check_add_loop]
      simp only [hbits, if_false, hfd, hres, hb]
      simpa [hall] using h2

theorem mem_probes_iff (XXH64 : List Nat → Nat → Nat) (bloom : bloomdisk) (buffer : List Nat)
    (P : Nat → Prop) :
    (∀ x, x ∈ probes XXH64 bloom buffer → P x) ↔
      ∀ j, j < bloom.hashes →
        P (probe (XXH64 buffer 0x59f2815b16f81798 % U64)
            (XXH64 buffer (XXH64 buffer 0x59f2815b16f81798 % U64) % U64) bloom.bits (0 + j)) := by
  simp [probes]

/-! ## The zero-fill loop -/

theorem FS.put_same (fs : FS) (path : String) (data : List Nat) (h : fs path = some data) :
    fs.put path data = fs := by
  funext p
  by_cases hp : p = path
  · simp [FS.put, hp, h]
  · simp [FS.put, hp]

theorem FS.put_put (fs : FS) (path : String) (d1 d2 : List Nat) :
    (fs.put path d1).put path d2 = fs.put path d2 := by
  funext p
  by_cases hp : p = path <;> simp [FS.put, hp]

theorem zero_fill_failed (env : Env) (fd : FILE) (bytes pos : Nat) (fs : FS) :
    zero_fill env fd bytes 0 pos fs = (0, fs) := by
  rw [zero_fill]
  simp

theorem zero_fill_done (env : Env) (fd : FILE) (rwed pos : Nat) (fs : FS) :
    zero_fill env fd 0 rwed pos fs = (rwed, fs) := by
  rw [zero_fill]
  simp

/-- The zero-fill loop on an append-mode stream: when it ends with `rwed = 1` it has added
exactly `bytes` zero bytes to the file. -/
theorem zero_fill_spec (env : Env) (fd : FILE) (happ : fd.append = true) (bytes : Nat) :
    ∀ pos fs data, fs fd.path = some data → (zero_fill env fd bytes 1 pos fs).1 = 1 →
      (zero_fill env fd bytes 1 pos fs).2 = fs.put fd.path (data ++ List.replicate bytes 0) := by
  induction bytes using Nat.strong_induction_on with
  | _ bytes ih =>
    intro pos fs data hfile hok
    by_cases h0 : bytes = 0
    · subst h0
      rw [zero_fill_done]
      simp [FS.put_same fs fd.path data hfile]
    · rw [zero_fill] at hok ⊢
      have hcond : bytes ≠ 0 ∧ (1 : Nat) ≠ 0 := ⟨h0, one_ne_zero⟩
      simp only [hcond, and_self, dite_true, ne_eq, not_false_eq_true] at hok ⊢
      by_cases hbig : ONEMB ≤ bytes
      · simp only [hbig, if_true] at hok ⊢
        by_cases hw : env.fwrite_ok bytes = true
        · simp only [hw, if_true] at hok ⊢
          have hfw : (fwrite fs fd pos (List.replicate ONEMB 0)).1
              = fs.put fd.path (data ++ List.replicate ONEMB 0) := by
            simp [fwrite, hfile, happ]
          rw [hfw] at hok ⊢
          have hlt : bytes - ONEMB < bytes := by simp only [ONEMB] at *; omega
          rw [ih (bytes - ONEMB) hlt _ _ (data ++ List.replicate ONEMB 0)
            (by simp [FS.put]) hok]
          rw [FS.put_put, List.append_assoc, ← List.replicate_add, Nat.add_sub_cancel' hbig]
        · simp only [hw] at hok
          rw [zero_fill_failed] at hok
          simp at hok
      · simp only [hbig, if_false] at hok ⊢
        by_cases hw : env.fwrite_ok bytes = true
        · simp only [hw, if_true, Nat.sub_self] at hok ⊢
          rw [zero_fill_done]
          simp [fwrite, hfile, happ]
        · simp only [hw] at hok
          rw [zero_fill_failed] at hok
          simp at hok

/-- The zero-fill loop ends with `rwed = 1` when every `fwrite` succeeds. -/
theorem zero_fill_ok (env : Env) (fd : FILE) (hw : ∀ n, env.fwrite_ok n = true) (bytes : Nat) :
    ∀ pos fs, (zero_fill env fd bytes 1 pos fs).1 = 1 := by
  induction bytes using Nat.strong_induction_on with
  | _ bytes ih =>
    intro pos fs
    by_cases h0 : bytes = 0
    · subst h0
      rw [zero_fill_done]
    · rw [zero_fill]
      have hcond : bytes ≠ 0 ∧ (1 : Nat) ≠ 0 := ⟨h0, one_ne_zero⟩
      simp only [hcond, and_self, dite_true, ne_eq, not_false_eq_true, hw, if_true]
      by_cases hbig : ONEMB ≤ bytes
      · simp only [hbig, if_true]
        exact ih _ (by simp only [ONEMB] at *; omega) _ _
      · simp only [hbig, if_false, Nat.sub_self]
        rw [zero_fill_done]

/-! ## A fresh initialisation -/

theorem fopen_a_plus_ok (env : Env) (fs : FS) (path : String) (h : env.can_open path = true) :
    fopen env fs path .a_plus
      = (some ⟨path, true⟩, fs.put path ((fs path).getD [])) := by
  unfold fopen
  simp only [h, if_true]
  cases hp : fs path with
  | none => simp
  | some d => simp [FS.put_same fs path d hp]

theorem fopen_a_plus_fail (env : Env) (fs : FS) (path : String) (h : env.can_open path = false) :
    fopen env fs path .a_plus = (none, fs) := by
  simp [fopen, h]

/-- The branch `New File` returns 1 only when both opens succeed; the handle then holds two
append-mode streams and the data file has gained `bytes` zero bytes. -/
theorem init_new_file_spec (env : Env) (fs : FS) (bloom h : bloomdisk) (fs1 : FS)
    (hnew : init_new_file env fs bloom = (1, h, fs1)) :
    env.can_open bloom.filename_struct = true ∧ env.can_open bloom.filename_data = true
    ∧ h = { bloom with fd_struct := some ⟨bloom.filename_struct, true⟩,
                       fd_data := some ⟨bloom.filename_data, true⟩, ready := 1 }
    ∧ fs1 = (fs.put bloom.filename_struct ((fs bloom.filename_struct).getD [])).put
        bloom.filename_data
        (((fs.put bloom.filename_struct ((fs bloom.filename_struct).getD []))
            bloom.filename_data).getD [] ++ List.replicate bloom.bytes 0) := by
  unfold init_new_file at hnew
  cases h1 : env.can_open bloom.filename_struct with
  | false =>
    rw [fopen_a_plus_fail env fs _ h1] at hnew
    simp at hnew
  | true =>
    rw [fopen_a_plus_ok env fs _ h1] at hnew
    cases h2 : env.can_open bloom.filename_data with
    | false =>
      simp only [fopen_a_plus_fail env _ _ h2] at hnew
      simp at hnew
    | true =>
      simp only [fopen_a_plus_ok env _ _ h2] at hnew
      cases h3 : env.malloc_ok with
      | false => simp [h3] at hnew
      | true =>
        simp only [h3, if_true] at hnew
        split at hnew
        · simp at hnew
        · rename_i hz
          simp only [ne_eq, not_not] at hz
          have hspec := zero_fill_spec env ⟨bloom.filename_data, true⟩ rfl bloom.bytes 0 _
            ((fs.put bloom.filename_struct ((fs bloom.filename_struct).getD [])
              bloom.filename_data).getD [])
            (by simp only [FS.put, if_true]) hz
          simp only [Prod.mk.injEq, true_and] at hnew
          obtain ⟨hh, hfs⟩ := hnew
          rw [hspec, FS.put_put] at hfs
          exact ⟨rfl, rfl, hh.symm, hfs.symm⟩

theorem init_existing_ne_one (env : Env) (fs : FS) (bloom : bloomdisk) (fd : FILE) :
    (init_existing env fs bloom fd).1 ≠ 1 := by
  unfold init_existing
  simp only
  split
  · simp
  · split_ifs <;> simp

theorem init_sizing_bytes (fp : FloatOps) (entries : Nat) (error : LongDouble) (base : String) :
    (init_sizing fp entries error base).bytes
      = ((init_sizing fp entries error base).bits + 7) / 8 := by
  simp only [init_sizing]
  have hlt : fp.to_bits entries (fp.bpe error) % U64 < U64 :=
    Nat.mod_lt _ (by simp [U64])
  generalize fp.to_bits entries (fp.bpe error) % U64 = bits at hlt
  simp only [U64] at *
  split <;> omega

/-- A call of `bloomdisk_init` that returns 1: the parameters passed the validation, there was
no metadata file, the handle is the sized handle with two append-mode streams and `ready = 1`,
the metadata file is created and the data file has gained `bytes` zero bytes. -/
theorem init_fresh_spec (env : Env) (fp : FloatOps) (fs : FS) (entries : Nat)
    (error : LongDouble) (base : String) (h : bloomdisk) (fs1 : FS)
    (hinit : bloomdisk_init env fp fs entries error base = (1, h, fs1)) :
    params_rejected entries error = false
    ∧ fs (snprintf69 (base ++ ".blm")) = none
    ∧ env.can_open (snprintf69 (base ++ ".blm")) = true
    ∧ env.can_open (snprintf69 (base ++ ".dat")) = true
    ∧ h = { init_sizing fp entries error base with
            fd_struct := some ⟨snprintf69 (base ++ ".blm"), true⟩,
            fd_data := some ⟨snprintf69 (base ++ ".dat"), true⟩, ready := 1 }
    ∧ fs1 = (fs.put (snprintf69 (base ++ ".blm")) []).put (snprintf69 (base ++ ".dat"))
        ((fs (snprintf69 (base ++ ".dat"))).getD [] ++ List.replicate h.bytes 0) := by
  unfold bloomdisk_init at hinit
  cases hrej : params_rejected entries error with
  | true => simp [hrej] at hinit
  | false =>
    simp only [hrej, Bool.false_eq_true, if_false] at hinit
    have hs : (init_sizing fp entries error base).filename_struct = snprintf69 (base ++ ".blm") :=
      rfl
    have hd : (init_sizing fp entries error base).filename_data = snprintf69 (base ++ ".dat") :=
      rfl
    cases ho : (fopen env fs (init_sizing fp entries error base).filename_struct .r_plus).1 with
    | some fd =>
      rw [ho] at hinit
      simp only at hinit
      have := init_existing_ne_one env fs (init_sizing fp entries error base) fd
      rw [hinit] at this
      exact absurd rfl this
    | none =>
      rw [ho] at hinit
      simp only at hinit
      obtain ⟨hc1, hc2, hh, hfs⟩ := init_new_file_spec env fs _ h fs1 hinit
      rw [hs] at hc1 ho
      rw [hd] at hc2
      have hnone : fs (snprintf69 (base ++ ".blm")) = none := by
        simp only [fopen, hc1, true_and] at ho
        split at ho
        · simp at ho
        · rename_i hsome
          simpa using hsome
      have hbytes : h.bytes = (init_sizing fp entries error base).bytes := by rw [hh]
      refine ⟨rfl, hnone, hc1, hc2, ?_, ?_⟩
      · rw [hh]
        rfl
      · rw [hfs, hs, hd, hnone, hbytes]
        by_cases hpq : snprintf69 (base ++ ".dat") = snprintf69 (base ++ ".blm")
        · simp [FS.put, hpq, hnone]
        · simp [FS.put, hpq]

/-! ## check and add on a ready handle -/

theorem check_add_ready (XXH64 : List Nat → Nat → Nat) (bloom : bloomdisk) (fs : FS)
    (buffer : List Nat) (add : Int) (hready : bloom.ready ≠ 0) :
    bloomdisk_check_add XXH64 bloom fs buffer add
      = check_add_loop bloom (XXH64 buffer 0x59f2815b16f81798 % U64)
          (XXH64 buffer (XXH64 buffer 0x59f2815b16f81798 % U64) % U64) add bloom.hashes 0 0 fs := by
  simp [bloomdisk_check_add, hready]

/-- The result of `bloomdisk_check` on a ready handle, in terms of the probed positions. -/
theorem check_spec (XXH64 : List Nat → Nat → Nat) (bloom : bloomdisk) (fs : FS) (f : FILE)
    (data buffer : List Nat) (hready : bloom.ready ≠ 0) (hbits : bloom.bits ≠ 0)
    (hfd : bloom.fd_data = some f) (hfile : fs f.path = some data)
    (hlen : (bloom.bits + 7) / 8 ≤ data.length) :
    bloomdisk_check XXH64 bloom fs buffer
      = .ok (if ∀ x, x ∈ probes XXH64 bloom buffer → engine_bit data x = true then 1 else 0,
             bloom, fs) := by
  unfold bloomdisk_check
  rw [check_add_ready XXH64 bloom fs buffer 0 hready,
    check_loop_spec bloom _ _ f fs data hbits hfd hfile hlen]
  simp only [mem_probes_iff XXH64 bloom buffer (fun x => engine_bit data x = true)]
  simp

/-- The result of the probing part of `bloomdisk_add` on a ready handle. -/
theorem check_add_one_spec (XXH64 : List Nat → Nat → Nat) (bloom : bloomdisk) (fs : FS)
    (f : FILE) (data buffer : List Nat) (hready : bloom.ready ≠ 0) (hbits : bloom.bits ≠ 0)
    (hfd : bloom.fd_data = some f) (hfile : fs f.path = some data)
    (hlen : (bloom.bits + 7) / 8 ≤ data.length) :
    ∃ fs1, bloomdisk_check_add XXH64 bloom fs buffer 1
        = .ok (if ∀ x, x ∈ probes XXH64 bloom buffer → engine_bit data x = true then 1 else 0,
               fs1)
      ∧ Grows f fs fs1 := by
  obtain ⟨fs1, hres, hg, -⟩ :=
    add_loop_spec bloom (XXH64 buffer 0x59f2815b16f81798 % U64)
      (XXH64 buffer (XXH64 buffer 0x59f2815b16f81798 % U64) % U64) f hbits hfd bloom.hashes
      0 0 fs data hfile hlen (by omega)
  refine ⟨fs1, ?_, hg⟩
  rw [check_add_ready XXH64 bloom fs buffer 1 hready, hres]
  simp only [mem_probes_iff XXH64 bloom buffer (fun x => engine_bit data x = true)]

theorem add_of_check_add (XXH64 : List Nat → Nat → Nat) (bloom : bloomdisk) (fs fs1 : FS)
    (buffer : List Nat) (r : Int)
    (h : bloomdisk_check_add XXH64 bloom fs buffer 1 = .ok (r, fs1)) :
    bloomdisk_add XXH64 bloom fs buffer
      = .ok (r, { bloom with
                  current_entries := (bloom.current_entries + 1) % U64,
                  collisions := if r = 1 then (bloom.collisions + 1) % U64
                                else bloom.collisions }, fs1) := by
  simp only [bloomdisk_add, h]

/-- C5: on a handle whose `ready` flag is 0, `bloomdisk_check` returns -1 and `bloomdisk_add`
returns -1, for every buffer. -/
theorem not_ready_check_and_add_return_minus_one (XXH64 : List Nat → Nat → Nat)
    (bloom : bloomdisk) (fs : FS) (buffer : List Nat) (hready : bloom.ready = 0) :
    bloomdisk_check XXH64 bloom fs buffer = .ok (-1, bloom, fs)
    ∧ ∃ bloom1, bloomdisk_add XXH64 bloom fs buffer = .ok (-1, bloom1, fs) := by
  constructor
  · simp [bloomdisk_check, bloomdisk_check_add, hready]
  · exact ⟨_, add_of_check_add XXH64 bloom fs fs buffer (-1)
      (by simp only [bloomdisk_check_add, hready, if_true])⟩

theorem sample_fs_data : sample_fs "t1.dat" = some (List.replicate 3595 0) := by
  unfold sample_fs FS.put
  exact if_pos rfl

theorem sample_bloom_covered : (sample_bloom.bits + 7) / 8 ≤ (List.replicate 3595 0).length := by
  rw [List.length_replicate]
  decide

/-- Witness of C5: the zeroed handle. -/
theorem not_ready_check_and_add_return_minus_one_witness :
    bloomdisk.zero.ready = 0
    ∧ bloomdisk_check sample_hash bloomdisk.zero fs_empty [1, 2, 3]
        = .ok (-1, bloomdisk.zero, fs_empty)
    ∧ ∃ bloom1, bloomdisk_add sample_hash bloomdisk.zero fs_empty [1, 2, 3]
        = .ok (-1, bloom1, fs_empty) :=
  ⟨rfl, not_ready_check_and_add_return_minus_one sample_hash bloomdisk.zero fs_empty [1, 2, 3]
    rfl⟩

/-! ## Parameter validation -/

theorem init_rejected (env : Env) (fp : FloatOps) (fs : FS) (entries : Nat)
    (error : LongDouble) (base : String) (h : params_rejected entries error = true) :
    bloomdisk_init env fp fs entries error base = (0, bloomdisk.zero, fs) := by
  simp [bloomdisk_init, h]

theorem init_new_file_entries (env : Env) (fs : FS) (bloom : bloomdisk) :
    (init_new_file env fs bloom).2.1.entries = bloom.entries := by
  unfold init_new_file
  simp only
  split
  · rfl
  · rfl
  · split_ifs <;> rfl

theorem init_existing_entries (env : Env) (fs : FS) (bloom : bloomdisk) (fd : FILE) :
    (init_existing env fs bloom fd).2.1.entries = bloom.entries := by
  unfold init_existing
  simp only
  split
  · rfl
  · split_ifs <;> rfl

theorem init_accepted_entries (env : Env) (fp : FloatOps) (fs : FS) (entries : Nat)
    (error : LongDouble) (base : String) (h : params_rejected entries error = false) :
    (bloomdisk_init env fp fs entries error base).2.1.entries = entries := by
  unfold bloomdisk_init
  simp only [h, Bool.false_eq_true, if_false]
  split
  · rw [init_new_file_entries]; rfl
  · rw [init_existing_entries]; rfl

/-- C8: a call of `bloomdisk_init` with `entries < 1000`, `error <= 0` or `error >= 1` returns
0, leaves every file as it was and the handle all-zero (no stream, `ready = 0`); a call with
`entries >= 1000` and `0 < error < 1` passes the validation and goes on to size the handle. -/
theorem init_rejects_exactly_invalid_parameters (env : Env) (fp : FloatOps) (fs : FS)
    (entries : Nat) (error : LongDouble) (base : String) :
    ((entries < 1000 ∨ error.le_zero = true ∨ error.ge_one = true) →
      bloomdisk_init env fp fs entries error base = (0, bloomdisk.zero, fs)
      ∧ bloomdisk.zero.ready = 0 ∧ bloomdisk.zero.fd_struct = none
      ∧ bloomdisk.zero.fd_data = none)
    ∧ (∀ q : ℚ, error = .fin q → 1000 ≤ entries → 0 < q → q < 1 →
        params_rejected entries error = false
        ∧ (bloomdisk_init env fp fs entries error base).2.1.entries = entries) := by
  constructor
  · intro h
    refine ⟨init_rejected env fp fs entries error base ?_, rfl, rfl, rfl⟩
    rcases h with h | h | h <;> simp [params_rejected, h]
  · intro q hq hn h0 h1
    have hacc : params_rejected entries error = false := by
      subst hq
      simp [params_rejected, LongDouble.le_zero, LongDouble.ge_one, h0, h1]
      omega
    exact ⟨hacc, init_accepted_entries env fp fs entries error base hacc⟩

/-- Witness of C8: 999 entries are rejected, 1000 entries with error `0.000001` are not. -/
theorem init_rejects_exactly_invalid_parameters_witness :
    (bloomdisk_init env_ok fp_sample fs_empty 999 (.fin (1 / 1000000)) "t1"
        = (0, bloomdisk.zero, fs_empty)
      ∧ bloomdisk.zero.ready = 0 ∧ bloomdisk.zero.fd_struct = none
      ∧ bloomdisk.zero.fd_data = none)
    ∧ (params_rejected 1000 (.fin (1 / 1000000)) = false
      ∧ (bloomdisk_init env_ok fp_sample fs_empty 1000 (.fin (1 / 1000000)) "t1").2.1.entries
          = 1000) :=
  ⟨(init_rejects_exactly_invalid_parameters env_ok fp_sample fs_empty 999
      (.fin (1 / 1000000)) "t1").1 (Or.inl (by decide)),
   (init_rejects_exactly_invalid_parameters env_ok fp_sample fs_empty 1000
      (.fin (1 / 1000000)) "t1").2 (1 / 1000000) rfl (by decide) (by norm_num) (by norm_num)⟩

/-! ## Bit addressing -/

/-- The bit engine addresses the byte `(x >> 3) mod 2^32` with mask `1 << (x mod 8)`. -/
theorem test_bit_addressing (fs : FS) (f : FILE) (data : List Nat) (x c : Nat) (set_bit : Int)
    (hfile : fs f.path = some data) (hc : data[(x / 8) % 2 ^ 32]? = some c) :
    bloomdisk_test_bit_set_bit fs (some f) x set_bit
      = if c &&& 2 ^ (x % 8) ≠ 0 then .ok (1, fs)
        else if set_bit ≠ 0 then
          .ok (0, (fwrite fs f ((x / 8) % 2 ^ 32) [(c ||| 2 ^ (x % 8)) % 256]).1)
        else .ok (0, fs) := by
  have hb : byte_of_bit x = (x / 8) % 2 ^ 32 := by
    simp [byte_of_bit, shiftRight_three, U32]
  have hm : mask_of_bit x = 2 ^ (x % 8) := by
    unfold mask_of_bit
    rw [Nat.one_shiftLeft]
    apply Nat.mod_eq_of_lt
    calc 2 ^ (x % 8) ≤ 2 ^ 7 := Nat.pow_le_pow_right (by norm_num) (by omega)
      _ < 256 := by norm_num
  simp only [bloomdisk_test_bit_set_bit, hfile, hb, hm, List.get?_eq_getElem?, hc]

/-- C10 (evaluation at the failing input): for the bit index `2^35` the engine computes the
byte offset 0, not `2^35 >> 3 = 2^32`; on a file whose byte 0 is 1 and whose byte `2^32` is 0
it reports bit `2^35` as set. -/
theorem test_bit_truncates_byte_offset :
    byte_of_bit (2 ^ 35) = 0 ∧ 2 ^ 35 >>> 3 = 2 ^ 32
    ∧ (1 :: List.replicate (2 ^ 32) 0)[2 ^ 35 >>> 3]? = some 0
    ∧ bloomdisk_test_bit_set_bit (fs_empty.put "big.dat" (1 :: List.replicate (2 ^ 32) 0))
        (some ⟨"big.dat", false⟩) (2 ^ 35) 0
      = .ok (1, fs_empty.put "big.dat" (1 :: List.replicate (2 ^ 32) 0)) := by
  refine ⟨by decide, by decide, ?_, ?_⟩
  · rw [show (2 : Nat) ^ 35 >>> 3 = (2 ^ 32 - 1) + 1 by decide, List.getElem?_cons_succ,
      List.getElem?_replicate]
    decide
  · rw [test_bit_addressing _ _ (1 :: List.replicate (2 ^ 32) 0) _ 1 0 (if_pos rfl)
      (by rw [show (2 : Nat) ^ 35 / 8 % 2 ^ 32 = 0 by decide, List.getElem?_cons_zero]),
      if_pos (by decide)]

/-! ## Size of a fresh data file -/

theorem ceil_div_eight (bits : Nat) : ⌈(bits : ℚ) / 8⌉₊ = (bits + 7) / 8 := by
  by_cases h0 : bits = 0
  · subst h0
    simp
  · have hn : (bits + 7) / 8 ≠ 0 := by omega
    rw [Nat.ceil_eq_iff hn]
    have h1 : bits ≤ 8 * ((bits + 7) / 8) := by omega
    have h2 : 8 * ((bits + 7) / 8 - 1) < bits := by omega
    constructor
    · rw [lt_div_iff₀ (by norm_num)]
      have : (((8 * ((bits + 7) / 8 - 1) : Nat)) : ℚ) < (bits : ℚ) := by exact_mod_cast h2
      push_cast at this ⊢
      linarith
    · rw [div_le_iff₀ (by norm_num)]
      have : ((bits : Nat) : ℚ) ≤ ((8 * ((bits + 7) / 8) : Nat) : ℚ) := by exact_mod_cast h1
      push_cast at this ⊢
      linarith

/-- A call of `bloomdisk_init` with accepted parameters returns 1 when no metadata file
exists and the environment lets every open, allocation and write succeed. -/
theorem init_fresh_returns_one (env : Env) (fp : FloatOps) (fs : FS) (entries : Nat)
    (error : LongDouble) (base : String)
    (hacc : params_rejected entries error = false)
    (hnone : fs (snprintf69 (base ++ ".blm")) = none)
    (hopen : ∀ p, env.can_open p = true) (hmalloc : env.malloc_ok = true)
    (hwrite : ∀ n, env.fwrite_ok n = true) :
    (bloomdisk_init env fp fs entries error base).1 = 1 := by
  have hs : (init_sizing fp entries error base).filename_struct = snprintf69 (base ++ ".blm") :=
    rfl
  unfold bloomdisk_init
  simp only [hacc, Bool.false_eq_true, if_false, hs]
  have ho : (fopen env fs (snprintf69 (base ++ ".blm")) .r_plus).1 = none := by
    simp [fopen, hnone]
  rw [ho]
  simp only
  unfold init_new_file
  rw [fopen_a_plus_ok env fs _ (hopen _)]
  simp only [fopen_a_plus_ok env _ _ (hopen _), hmalloc, if_true]
  rw [if_neg (by simp [zero_fill_ok env _ hwrite])]

/-- C9: when `bloomdisk_init` returns 1, `bytes = ceil(bits / 8)` and the zero-fill loop
has ended having written exactly `bytes` bytes, all zero, to the data file: the file is what
it was before the call (nothing, if it did not exist) followed by `bytes` zero bytes. This
holds for every value of `bits`. -/
theorem fresh_init_zero_fills_data_file (env : Env) (fp : FloatOps) (fs : FS) (entries : Nat)
    (error : LongDouble) (base : String) (h : bloomdisk) (fs1 : FS)
    (hinit : bloomdisk_init env fp fs entries error base = (1, h, fs1)) :
    h.bytes = ⌈(h.bits : ℚ) / 8⌉₊
    ∧ fs1 h.filename_data
        = some ((fs h.filename_data).getD [] ++ List.replicate h.bytes 0) := by
  obtain ⟨-, -, -, -, hh, hfs⟩ := init_fresh_spec env fp fs entries error base h fs1 hinit
  have hbytes : h.bytes = (h.bits + 7) / 8 := by
    rw [hh]
    exact init_sizing_bytes fp entries error base
  have hname : h.filename_data = snprintf69 (base ++ ".dat") := by rw [hh]; rfl
  refine ⟨by rw [ceil_div_eight]; exact hbytes, ?_⟩
  rw [hname, hfs]
  simp only [FS.put, if_true]

theorem sample_sizing :
    fp_sample.to_bits 1000 (fp_sample.bpe (.fin (1 / 1000000))) = 28755
    ∧ fp_sample.to_hashes (fp_sample.bpe (.fin (1 / 1000000))) = 20 := by
  constructor
  · simp only [fp_sample, fp_exact, log_sample, if_true]
    norm_num
    rfl
  · have hc : ⌈(0.693147180559945 : ℚ) * (-(-13.815510557964274) / 0.480453013918201)⌉ = 20 := by
      rw [Int.ceil_eq_iff]
      constructor <;> norm_num
    simp only [fp_sample, fp_exact, log_sample, if_true]
    rw [hc]
    rfl

theorem sample_accepted : params_rejected 1000 (.fin (1 / 1000000)) = false := by
  simp only [params_rejected, LongDouble.le_zero, LongDouble.ge_one]
  norm_num

theorem sample_init_eq : sample_init = (1, sample_init.2.1, sample_init.2.2) := by
  have h1 : sample_init.1 = 1 :=
    init_fresh_returns_one env_ok fp_sample fs_empty 1000 (.fin (1 / 1000000)) "t1"
      sample_accepted rfl (fun _ => rfl) rfl (fun _ => rfl)
  exact Prod.ext h1 rfl

/-- Witness of C9: the filter `t1` created in an empty directory. -/
theorem fresh_init_zero_fills_data_file_witness :
    bloomdisk_init env_ok fp_sample fs_empty 1000 (.fin (1 / 1000000)) "t1"
      = (1, sample_init.2.1, sample_init.2.2)
    ∧ sample_init.2.1.bytes = ⌈(sample_init.2.1.bits : ℚ) / 8⌉₊
    ∧ sample_init.2.2 sample_init.2.1.filename_data
        = some ((fs_empty sample_init.2.1.filename_data).getD []
            ++ List.replicate sample_init.2.1.bytes 0) :=
  ⟨sample_init_eq,
   fresh_init_zero_fills_data_file env_ok fp_sample fs_empty 1000 (.fin (1 / 1000000)) "t1"
     sample_init.2.1 sample_init.2.2 sample_init_eq⟩

/-! ## Counters -/

theorem bloomdisk_eta (bloom : bloomdisk) :
    { bloom with current_entries := bloom.current_entries, collisions := bloom.collisions }
      = bloom := by
  cases bloom
  rfl

/-- A sequence of adds on a ready handle runs to completion (no fault) and only changes the
two counters: `current_entries` grows by the number of calls and `collisions` by the number of
calls that returned 1, modulo `2^64`. -/
theorem run_adds_spec (XXH64 : List Nat → Nat → Nat) (f : FILE) (bufs : List (List Nat)) :
    ∀ (bloom : bloomdisk) (fs : FS) (data : List Nat),
      bloom.ready ≠ 0 → bloom.bits ≠ 0 → bloom.fd_data = some f → fs f.path = some data →
      (bloom.bits + 7) / 8 ≤ data.length →
      bloom.current_entries < U64 → bloom.collisions < U64 →
      ∃ rs fs1, run_adds XXH64 bloom fs bufs
          = .ok (rs, { bloom with
                       current_entries := (bloom.current_entries + bufs.length) % U64,
                       collisions := (bloom.collisions + rs.count 1) % U64 }, fs1)
        ∧ rs.length = bufs.length ∧ Grows f fs fs1 := by
  induction bufs with
  | nil =>
    intro bloom fs data _ _ _ _ _ hce hco
    refine ⟨[], fs, ?_, rfl, Grows.refl f fs⟩
    simp only [run_adds, List.length_nil, List.count_nil, Nat.add_zero, Nat.mod_eq_of_lt hce,
      Nat.mod_eq_of_lt hco, bloomdisk_eta]
  | cons buffer rest ih =>
    intro bloom fs data hready hbits hfd hfile hlen hce hco
    obtain ⟨fs1, hres, hg⟩ :=
      check_add_one_spec XXH64 bloom fs f data buffer hready hbits hfd hfile hlen
    generalize (if ∀ x, x ∈ probes XXH64 bloom buffer → engine_bit data x = true
      then (1 : Int) else 0) = r at hres
    have hadd := add_of_check_add XXH64 bloom fs fs1 buffer r hres
    obtain ⟨d1, hd1, hl1, -⟩ := hg.2 data hfile
    have hU : 0 < U64 := by simp [U64]
    have hco1 : (if r = 1 then (bloom.collisions + 1) % U64 else bloom.collisions) < U64 := by
      split
      · exact Nat.mod_lt _ hU
      · exact hco
    obtain ⟨rs, fs2, hrun, hrl, hg2⟩ :=
      ih { bloom with
           current_entries := (bloom.current_entries + 1) % U64,
           collisions := if r = 1 then (bloom.collisions + 1) % U64 else bloom.collisions }
        fs1 d1 hready hbits hfd hd1 (le_trans hlen hl1) (Nat.mod_lt _ hU) hco1
    refine ⟨r :: rs, fs2, ?_, by simp [hrl], hg.trans hg2⟩
    rw [run_adds, hadd]
    simp only [hrun]
    have e1 : ((bloom.current_entries + 1) % U64 + rest.length) % U64
        = (bloom.current_entries + (buffer :: rest).length) % U64 := by
      simp only [List.length_cons, U64]; omega
    have e2 : ((if r = 1 then (bloom.collisions + 1) % U64 else bloom.collisions)
          + List.count 1 rs) % U64
        = (bloom.collisions + List.count 1 (r :: rs)) % U64 := by
      by_cases hr1 : r = 1
      · subst hr1
        simp only [if_true, List.count_cons_self, U64]; omega
      · simp only [hr1, if_false]
        rw [List.count_cons_of_ne (fun h => hr1 h.symm)]
    rw [e1, e2]

theorem check_keeps_handle (XXH64 : List Nat → Nat → Nat) (bloom bloom1 : bloomdisk)
    (fs fs1 : FS) (buffer : List Nat) (r : Int)
    (h : bloomdisk_check XXH64 bloom fs buffer = .ok (r, bloom1, fs1)) : bloom1 = bloom := by
  unfold bloomdisk_check at h
  split at h
  · simp at h
  · simp only [Except.ok.injEq, Prod.mk.injEq] at h
    exact h.2.1.symm

theorem save_keeps_handle (bloom bloom1 : bloomdisk) (fs fs1 : FS)
    (h : bloomdisk_save bloom fs = .ok (bloom1, fs1)) : bloom1 = bloom := by
  unfold bloomdisk_save at h
  split at h
  · split at h
    · simp at h
    · simp only [Except.ok.injEq, Prod.mk.injEq] at h
      exact h.1.symm
  · simp only [Except.ok.injEq, Prod.mk.injEq] at h
    exact h.1.symm

/-- The state after a fresh init is ready for probing: the data stream is open and its file
covers the bit range. -/
theorem init_fresh_probeable (env : Env) (fp : FloatOps) (fs : FS) (entries : Nat)
    (error : LongDouble) (base : String) (h : bloomdisk) (fs1 : FS)
    (hinit : bloomdisk_init env fp fs entries error base = (1, h, fs1)) :
    h.ready = 1 ∧ h.current_entries = 0 ∧ h.collisions = 0
    ∧ h.fd_data = some ⟨snprintf69 (base ++ ".dat"), true⟩
    ∧ fs1 (snprintf69 (base ++ ".dat"))
        = some ((fs (snprintf69 (base ++ ".dat"))).getD [] ++ List.replicate h.bytes 0)
    ∧ h.bytes = (h.bits + 7) / 8 := by
  obtain ⟨-, -, -, -, hh, hfs⟩ := init_fresh_spec env fp fs entries error base h fs1 hinit
  have hbytes : h.bytes = (h.bits + 7) / 8 := by
    rw [hh]
    exact init_sizing_bytes fp entries error base
  refine ⟨by rw [hh], by rw [hh]; rfl, by rw [hh]; rfl, by rw [hh], ?_, hbytes⟩
  rw [hfs]
  simp only [FS.put, if_true]

/-- C4: starting from a freshly created filter, after any sequence of `bloomdisk_add` calls
(fewer than `2^64`, the range of the counters) `current_entries` equals the number of calls
made and `collisions` the number of those calls that returned 1; `bloomdisk_check` and
`bloomdisk_save` change neither counter. -/
theorem counters_count_adds_and_collisions (env : Env) (fp : FloatOps) (fs : FS)
    (entries : Nat) (error : LongDouble) (base : String) (h : bloomdisk) (fs1 : FS)
    (XXH64 : List Nat → Nat → Nat) (bufs : List (List Nat))
    (hinit : bloomdisk_init env fp fs entries error base = (1, h, fs1))
    (hbits : h.bits ≠ 0) (hcalls : bufs.length < 2 ^ 64) :
    ∃ rs h2 fs2, run_adds XXH64 h fs1 bufs = .ok (rs, h2, fs2)
      ∧ rs.length = bufs.length
      ∧ h2.current_entries = bufs.length
      ∧ h2.collisions = rs.count 1
      ∧ (∀ buffer r h3 fs3, bloomdisk_check XXH64 h2 fs2 buffer = .ok (r, h3, fs3) →
          h3.current_entries = h2.current_entries ∧ h3.collisions = h2.collisions)
      ∧ (∀ h3 fs3, bloomdisk_save h2 fs2 = .ok (h3, fs3) →
          h3.current_entries = h2.current_entries ∧ h3.collisions = h2.collisions) := by
  obtain ⟨hready, hce, hco, hfd, hfile, hbytes⟩ :=
    init_fresh_probeable env fp fs entries error base h fs1 hinit
  obtain ⟨rs, fs2, hrun, hrl, -⟩ :=
    run_adds_spec XXH64 ⟨snprintf69 (base ++ ".dat"), true⟩ bufs h fs1 _
      (by rw [hready]; decide) hbits hfd hfile
      (by rw [List.length_append, List.length_replicate, hbytes]; omega)
      (by rw [hce]; simp [U64]) (by rw [hco]; simp [U64])
  have hcount : rs.count 1 ≤ bufs.length := hrl ▸ List.count_le_length 1 rs
  refine ⟨rs, _, fs2, hrun, hrl, ?_, ?_, ?_, ?_⟩
  · show (h.current_entries + bufs.length) % U64 = bufs.length
    rw [hce, Nat.zero_add]
    exact Nat.mod_eq_of_lt hcalls
  · show (h.collisions + rs.count 1) % U64 = rs.count 1
    rw [hco, Nat.zero_add]
    exact Nat.mod_eq_of_lt (lt_of_le_of_lt hcount hcalls)
  · intro buffer r h3 fs3 hc
    rw [check_keeps_handle XXH64 _ h3 fs2 fs3 buffer r hc]
    exact ⟨rfl, rfl⟩
  · intro h3 fs3 hs
    rw [save_keeps_handle _ h3 fs2 fs3 hs]
    exact ⟨rfl, rfl⟩

theorem sample_init_handle :
    sample_init.2.1.bits = 28755 ∧ sample_init.2.1.hashes = 20
    ∧ sample_init.2.1.bytes = 3595 := by
  obtain ⟨-, -, -, -, hh, -⟩ :=
    init_fresh_spec env_ok fp_sample fs_empty 1000 (.fin (1 / 1000000)) "t1" _ _ sample_init_eq
  have hb : sample_init.2.1.bits = 28755 := by
    rw [hh]
    show fp_sample.to_bits 1000 (fp_sample.bpe (.fin (1 / 1000000))) % U64 = 28755
    rw [sample_sizing.1]
    decide
  have hk : sample_init.2.1.hashes = 20 := by
    rw [hh]
    show fp_sample.to_hashes (fp_sample.bpe (.fin (1 / 1000000))) % 256 = 20
    rw [sample_sizing.2]
  refine ⟨hb, hk, ?_⟩
  have := init_sizing_bytes fp_sample 1000 (.fin (1 / 1000000)) "t1"
  have hbytes : sample_init.2.1.bytes = (sample_init.2.1.bits + 7) / 8 := by
    rw [hh]
    exact this
  rw [hbytes, hb]

/-- Witness of C4: three adds (two of the same buffer) on the fresh filter `t1`. -/
theorem counters_count_adds_and_collisions_witness :
    bloomdisk_init env_ok fp_sample fs_empty 1000 (.fin (1 / 1000000)) "t1"
      = (1, sample_init.2.1, sample_init.2.2)
    ∧ sample_init.2.1.bits ≠ 0
    ∧ [List.replicate 32 0, List.replicate 32 1, List.replicate 32 0].length < 2 ^ 64
    ∧ ∃ rs h2 fs2,
        run_adds sample_hash sample_init.2.1 sample_init.2.2
          [List.replicate 32 0, List.replicate 32 1, List.replicate 32 0] = .ok (rs, h2, fs2)
      ∧ rs.length = [List.replicate 32 0, List.replicate 32 1, List.replicate 32 0].length
      ∧ h2.current_entries
          = [List.replicate 32 0, List.replicate 32 1, List.replicate 32 0].length
      ∧ h2.collisions = rs.count 1
      ∧ (∀ buffer r h3 fs3, bloomdisk_check sample_hash h2 fs2 buffer = .ok (r, h3, fs3) →
          h3.current_entries = h2.current_entries ∧ h3.collisions = h2.collisions)
      ∧ (∀ h3 fs3, bloomdisk_save h2 fs2 = .ok (h3, fs3) →
          h3.current_entries = h2.current_entries ∧ h3.collisions = h2.collisions) :=
  ⟨sample_init_eq, by rw [sample_init_handle.1]; decide, by decide,
   counters_count_adds_and_collisions env_ok fp_sample fs_empty 1000 (.fin (1 / 1000000))
     "t1" sample_init.2.1 sample_init.2.2 sample_hash
     [List.replicate 32 0, List.replicate 32 1, List.replicate 32 0] sample_init_eq
     (by rw [sample_init_handle.1]; decide) (by decide)⟩

/-! ## Adds in the session that created the files -/

theorem zero_byte_clear (data : List Nat) (x : Nat) (h : data[byte_of_bit x]? = some 0) :
    engine_bit data x = false := by
  simp [engine_bit, List.getD_eq_getElem?_getD, h]

/-- On an append-mode data stream whose file starts with `ceil(bits / 8)` zero bytes, an add
returns 0 and leaves those bytes zero, so a check of the same buffer right after it returns
0 as well. -/
theorem appended_add_then_check (XXH64 : List Nat → Nat → Nat) (bloom : bloomdisk) (fs : FS)
    (f : FILE) (data buffer : List Nat) (hready : bloom.ready ≠ 0) (hbits : bloom.bits ≠ 0)
    (hhashes : bloom.hashes ≠ 0) (hfd : bloom.fd_data = some f) (happ : f.append = true)
    (hfile : fs f.path = some data) (hlen : (bloom.bits + 7) / 8 ≤ data.length)
    (hzero : ∀ k, k < (bloom.bits + 7) / 8 → data[k]? = some 0) :
    ∃ bloom1 fs1, bloomdisk_add XXH64 bloom fs buffer = .ok (0, bloom1, fs1)
      ∧ bloomdisk_check XXH64 bloom1 fs1 buffer = .ok (0, bloom1, fs1) := by
  obtain ⟨fs1, hres, hg⟩ :=
    check_add_one_spec XXH64 bloom fs f data buffer hready hbits hfd hfile hlen
  obtain ⟨d1, hd1, hl1, hk1⟩ := hg.2 data hfile
  have hmem : probe (XXH64 buffer 0x59f2815b16f81798 % U64)
      (XXH64 buffer (XXH64 buffer 0x59f2815b16f81798 % U64) % U64) bloom.bits 0
      ∈ probes XXH64 bloom buffer := by
    simp only [probes, List.mem_map, List.mem_range]
    exact ⟨0, Nat.pos_of_ne_zero hhashes, rfl⟩
  have hin := byte_of_bit_lt (probe_lt (XXH64 buffer 0x59f2815b16f81798 % U64)
      (XXH64 buffer (XXH64 buffer 0x59f2815b16f81798 % U64) % U64) 0 hbits)
  have hclear : ¬ ∀ x, x ∈ probes XXH64 bloom buffer → engine_bit data x = true := by
    intro hall
    have h1 := hall _ hmem
    rw [zero_byte_clear data _ (hzero _ hin)] at h1
    exact absurd h1 (by decide)
  have hclear1 : ¬ ∀ x, x ∈ probes XXH64 bloom buffer → engine_bit d1 x = true := by
    intro hall
    have h1 := hall _ hmem
    rw [zero_byte_clear d1 _ (by rw [hk1 happ _ (lt_of_lt_of_le hin hlen)]; exact hzero _ hin)]
      at h1
    exact absurd h1 (by decide)
  rw [if_neg hclear] at hres
  refine ⟨{ bloom with
            current_entries := (bloom.current_entries + 1) % U64,
            collisions := if (0 : Int) = 1 then (bloom.collisions + 1) % U64
                          else bloom.collisions },
    fs1, add_of_check_add XXH64 bloom fs fs1 buffer 0 hres, ?_⟩
  have hc := check_spec XXH64
    { bloom with
      current_entries := (bloom.current_entries + 1) % U64,
      collisions := if (0 : Int) = 1 then (bloom.collisions + 1) % U64
                    else bloom.collisions }
    fs1 f d1 buffer hready hbits hfd hd1 (le_trans hlen hl1)
  rw [hc]
  exact congrArg (fun r => Except.ok (r, _, fs1)) (if_neg hclear1)

/-- On an append-mode data stream whose file starts with `ceil(bits / 8)` zero bytes, every
add of a sequence is written behind those bytes: the sequence completes and afterwards a check
of any buffer returns 0. -/
theorem appended_adds_then_check (XXH64 : List Nat → Nat → Nat) (bloom : bloomdisk) (fs : FS)
    (f : FILE) (data : List Nat) (bufs : List (List Nat))
    (hready : bloom.ready ≠ 0) (hbits : bloom.bits ≠ 0)
    (hhashes : bloom.hashes ≠ 0) (hfd : bloom.fd_data = some f) (happ : f.append = true)
    (hfile : fs f.path = some data) (hlen : (bloom.bits + 7) / 8 ≤ data.length)
    (hzero : ∀ k, k < (bloom.bits + 7) / 8 → data[k]? = some 0)
    (hce : bloom.current_entries < U64) (hco : bloom.collisions < U64) :
    ∃ rs bloom2 fs2, run_adds XXH64 bloom fs bufs = .ok (rs, bloom2, fs2)
      ∧ ∀ buffer, bloomdisk_check XXH64 bloom2 fs2 buffer = .ok (0, bloom2, fs2) := by
  obtain ⟨rs, fs2, hrun, -, hg⟩ :=
    run_adds_spec XXH64 f bufs bloom fs data hready hbits hfd hfile hlen hce hco
  obtain ⟨d2, hd2, hl2, hk2⟩ := hg.2 data hfile
  refine ⟨rs, _, fs2, hrun, fun buffer => ?_⟩
  have hc := check_spec XXH64
    { bloom with
      current_entries := (bloom.current_entries + bufs.length) % U64,
      collisions := (bloom.collisions + rs.count 1) % U64 }
    fs2 f d2 buffer hready hbits hfd hd2 (le_trans hlen hl2)
  rw [hc]
  have hmem : probe (XXH64 buffer 0x59f2815b16f81798 % U64)
      (XXH64 buffer (XXH64 buffer 0x59f2815b16f81798 % U64) % U64) bloom.bits 0
      ∈ probes XXH64 bloom buffer := by
    simp only [probes, List.mem_map, List.mem_range]
    exact ⟨0, Nat.pos_of_ne_zero hhashes, rfl⟩
  have hin := byte_of_bit_lt (probe_lt (XXH64 buffer 0x59f2815b16f81798 % U64)
      (XXH64 buffer (XXH64 buffer 0x59f2815b16f81798 % U64) % U64) 0 hbits)
  have hclear : ¬ ∀ x, x ∈ probes XXH64 bloom buffer → engine_bit d2 x = true := by
    intro hall
    have h1 := hall _ hmem
    rw [zero_byte_clear d2 _ (by rw [hk2 happ _ (lt_of_lt_of_le hin hlen)]; exact hzero _ hin)]
      at h1
    exact absurd h1 (by decide)
  exact congrArg (fun r => Except.ok (r, _, fs2)) (if_neg hclear)

/-- C1 (evaluation at the failing input): `bloomdisk_init(&bloom, 1000, 0.000001, "t1")` in a
directory without files returns 1 and leaves an all-zero data file of 3595 bytes; then, for
every hash function and every sequence of buffers passed to `bloomdisk_add`, the adds
complete and a `bloomdisk_check` of any buffer of the sequence returns 0, not 1. -/
theorem fresh_filter_forgets_added_buffers (XXH64 : List Nat → Nat → Nat)
    (bufs : List (List Nat)) :
    bloomdisk_init env_ok fp_sample fs_empty 1000 (.fin (1 / 1000000)) "t1"
      = (1, sample_init.2.1, sample_init.2.2)
    ∧ sample_init.2.2 "t1.dat" = some (List.replicate 3595 0)
    ∧ ∃ rs bloom2 fs2,
        run_adds XXH64 sample_init.2.1 sample_init.2.2 bufs = .ok (rs, bloom2, fs2)
      ∧ ∀ buffer, buffer ∈ bufs →
          bloomdisk_check XXH64 bloom2 fs2 buffer = .ok (0, bloom2, fs2) := by
  obtain ⟨hready, hce, hco, hfd, hfile, hbytes⟩ :=
    init_fresh_probeable env_ok fp_sample fs_empty 1000 (.fin (1 / 1000000)) "t1" _ _
      sample_init_eq
  obtain ⟨hb, hk, hby⟩ := sample_init_handle
  have hname : snprintf69 ("t1" ++ ".dat") = "t1.dat" := by decide
  rw [hname] at hfd hfile
  rw [hby] at hfile
  have hfile1 : sample_init.2.2 "t1.dat" = some (List.replicate 3595 0) := by
    rw [hfile]
    exact congrArg some (List.nil_append _)
  refine ⟨sample_init_eq, hfile1, ?_⟩
  obtain ⟨rs, bloom2, fs2, hrun, hcheck⟩ :=
    appended_adds_then_check XXH64 sample_init.2.1 sample_init.2.2 ⟨"t1.dat", true⟩
      (List.replicate 3595 0) bufs (by rw [hready]; decide) (by rw [hb]; decide)
      (by rw [hk]; decide) hfd rfl hfile1
      (by rw [hb, List.length_replicate])
      (by
        intro k hk1
        rw [hb] at hk1
        rw [List.getElem?_replicate, if_pos (by omega)])
      (by rw [hce]; decide) (by rw [hco]; decide)
  exact ⟨rs, bloom2, fs2, hrun, fun buffer _ => hcheck buffer⟩

/-! ## The metadata record -/

theorem le_decode_u64_bytes (v : Nat) (h : v < U64) : le_decode (u64_bytes v) = v := by
  simp only [u64_bytes, le_decode, U64] at *
  omega

theorem metadata_record_length (bloom : bloomdisk) : (metadata_record bloom).length = 42 := by
  simp [metadata_record, u64_bytes]

/-- Reading back a metadata record: all seven `fread` calls succeed and deliver the fields
that were written. -/
theorem read_metadata_record (bloom : bloomdisk) (rest : List Nat)
    (he : bloom.entries < U64) (hc : bloom.current_entries < U64)
    (hk : bloom.collisions < U64) (hb : bloom.bits < U64) (hy : bloom.bytes < U64) :
    read_metadata (metadata_record bloom ++ rest)
      = (1, bloom.ready % 256, bloom.entries, bloom.current_entries, bloom.collisions,
         bloom.bits, bloom.bytes, bloom.hashes % 256) := by
  have e1 := le_decode_u64_bytes _ he
  have e2 := le_decode_u64_bytes _ hc
  have e3 := le_decode_u64_bytes _ hk
  have e4 := le_decode_u64_bytes _ hb
  have e5 := le_decode_u64_bytes _ hy
  have hl : (metadata_record bloom ++ rest).length = 42 + rest.length := by
    rw [List.length_append, metadata_record_length]
  simp only [read_metadata, fread, hl]
  simp only [show 0 + 1 ≤ 42 + rest.length by omega, show 1 + 8 ≤ 42 + rest.length by omega,
    show 1 + 8 + 8 ≤ 42 + rest.length by omega, show 1 + 8 + 8 + 8 ≤ 42 + rest.length by omega,
    show 1 + 8 + 8 + 8 + 8 ≤ 42 + rest.length by omega,
    show 1 + 8 + 8 + 8 + 8 + 8 ≤ 42 + rest.length by omega,
    show 1 + 8 + 8 + 8 + 8 + 8 + 1 ≤ 42 + rest.length by omega, if_true, Nat.zero_add]
  have d0 : ((metadata_record bloom ++ rest).drop 0).take 1 = [bloom.ready % 256] := rfl
  have d1 : ((metadata_record bloom ++ rest).drop 1).take 8 = u64_bytes bloom.entries := rfl
  have d2 : ((metadata_record bloom ++ rest).drop (1 + 8)).take 8
      = u64_bytes bloom.current_entries := rfl
  have d3 : ((metadata_record bloom ++ rest).drop (1 + 8 + 8)).take 8
      = u64_bytes bloom.collisions := rfl
  have d4 : ((metadata_record bloom ++ rest).drop (1 + 8 + 8 + 8)).take 8
      = u64_bytes bloom.bits := rfl
  have d5 : ((metadata_record bloom ++ rest).drop (1 + 8 + 8 + 8 + 8)).take 8
      = u64_bytes bloom.bytes := rfl
  have d6 : ((metadata_record bloom ++ rest).drop (1 + 8 + 8 + 8 + 8 + 8)).take 1
      = [bloom.hashes % 256] := rfl
  rw [d0, d1, d2, d3, d4, d5, d6, e1, e2, e3, e4, e5]
  simp [le_decode]

theorem FS.put_get (fs : FS) (path : String) (data : List Nat) :
    (fs.put path data) path = some data := by
  simp [FS.put]

theorem FS.put_get_ne (fs : FS) (path p : String) (data : List Nat) (h : p ≠ path) :
    (fs.put path data) p = fs p := by
  simp [FS.put, h]

theorem fwrite_append_pair (fs : FS) (f : FILE) (pos : Nat) (data bs : List Nat)
    (happ : f.append = true) (hfile : fs f.path = some data) :
    fwrite fs f pos bs = (fs.put f.path (data ++ bs), data.length + bs.length) := by
  simp [fwrite, hfile, happ]

/-- On an append-mode stream the seven writes of a save add one metadata record at the end of
the metadata file. -/
theorem write_metadata_append (bloom : bloomdisk) (fd : FILE) (fs : FS) (data : List Nat)
    (happ : fd.append = true) (hfile : fs fd.path = some data) :
    write_metadata bloom fd fs = fs.put fd.path (data ++ metadata_record bloom) := by
  unfold write_metadata
  simp only
  rw [fwrite_append_pair fs fd _ data _ happ hfile]
  rw [fwrite_append_pair _ fd _ _ _ happ (FS.put_get _ _ _)]
  rw [fwrite_append_pair _ fd _ _ _ happ (FS.put_get _ _ _)]
  rw [fwrite_append_pair _ fd _ _ _ happ (FS.put_get _ _ _)]
  rw [fwrite_append_pair _ fd _ _ _ happ (FS.put_get _ _ _)]
  rw [fwrite_append_pair _ fd _ _ _ happ (FS.put_get _ _ _)]
  rw [fwrite_append_pair _ fd _ _ _ happ (FS.put_get _ _ _)]
  simp only [FS.put_put, metadata_record, List.append_assoc]

/-- The two file names of a base name of at most 64 characters are different. -/
theorem filenames_differ (base : String) (h : base.length ≤ 64) :
    snprintf69 (base ++ ".dat") ≠ snprintf69 (base ++ ".blm") := by
  intro heq
  have h1 : (base ++ ".dat").data.take 68 = (base ++ ".blm").data.take 68 :=
    congrArg String.data heq
  have hl : base.data.length ≤ 64 := h
  rw [String.data_append, String.data_append, List.take_of_length_le (by simp; omega),
    List.take_of_length_le (by simp; omega)] at h1
  have h2 := List.append_cancel_left h1
  exact absurd h2 (by decide)

/-! ## Reopening an existing filter -/

theorem fopen_r_plus_ok (env : Env) (fs : FS) (path : String) (data : List Nat)
    (h : env.can_open path = true) (hfile : fs path = some data) :
    fopen env fs path .r_plus = (some ⟨path, false⟩, fs) := by
  simp [fopen, h, hfile]

/-- A call of `bloomdisk_init` with accepted parameters on an existing metadata file that
starts with a well-formed record, with the data file present: the result is 2 when the stored
`entries`, `bits`, `bytes` and `hashes` equal the values sized from the arguments and 0
otherwise; in both cases the handle holds the stored counters, and no file changes. -/
theorem init_reopen_spec (env : Env) (fp : FloatOps) (fs : FS) (entries : Nat)
    (error : LongDouble) (base : String) (stored : bloomdisk) (rest data : List Nat)
    (hacc : params_rejected entries error = false)
    (hopen1 : env.can_open (snprintf69 (base ++ ".blm")) = true)
    (hopen2 : env.can_open (snprintf69 (base ++ ".dat")) = true)
    (hblm : fs (snprintf69 (base ++ ".blm")) = some (metadata_record stored ++ rest))
    (hdat : fs (snprintf69 (base ++ ".dat")) = some data)
    (he : stored.entries < U64) (hc : stored.current_entries < U64)
    (hk : stored.collisions < U64) (hb : stored.bits < U64) (hy : stored.bytes < U64) :
    bloomdisk_init env fp fs entries error base
      = if stored.entries ≠ (init_sizing fp entries error base).entries
            ∨ stored.bits ≠ (init_sizing fp entries error base).bits
            ∨ stored.bytes ≠ (init_sizing fp entries error base).bytes
            ∨ stored.hashes % 256 ≠ (init_sizing fp entries error base).hashes
        then (0, { init_sizing fp entries error base with
                   fd_struct := some ⟨snprintf69 (base ++ ".blm"), false⟩,
                   fd_data := some ⟨snprintf69 (base ++ ".dat"), false⟩,
                   current_entries := stored.current_entries,
                   collisions := stored.collisions }, fs)
        else (2, { init_sizing fp entries error base with
                   fd_struct := some ⟨snprintf69 (base ++ ".blm"), false⟩,
                   fd_data := some ⟨snprintf69 (base ++ ".dat"), false⟩,
                   current_entries := stored.current_entries,
                   collisions := stored.collisions,
                   ready := 1 }, fs) := by
  have hs : (init_sizing fp entries error base).filename_struct = snprintf69 (base ++ ".blm") :=
    rfl
  have hd : (init_sizing fp entries error base).filename_data = snprintf69 (base ++ ".dat") :=
    rfl
  unfold bloomdisk_init
  simp only [hacc, Bool.false_eq_true, if_false, hs]
  rw [fopen_r_plus_ok env fs _ _ hopen1 hblm]
  simp only
  unfold init_existing
  simp only [hd]
  rw [fopen_r_plus_ok env fs _ _ hopen2 hdat]
  simp only [hblm, Option.getD_some, read_metadata_record stored rest he hc hk hb hy]
  simp only [one_ne_zero, if_false]
  split <;> rfl

/-! ## Save, free and reopen -/

/-- The session that created a filter, after any sequence of adds: the adds complete, the
handle differs from the fresh one in the two counters only, the metadata file is still empty
and the data file is still there. -/
theorem fresh_session_state (env : Env) (fp : FloatOps) (fs : FS) (entries : Nat)
    (error : LongDouble) (base : String) (h1 : bloomdisk) (fs1 : FS)
    (XXH64 : List Nat → Nat → Nat) (bufs : List (List Nat))
    (hinit : bloomdisk_init env fp fs entries error base = (1, h1, fs1))
    (hbits : h1.bits ≠ 0) (hbase : base.length ≤ 64) :
    ∃ rs fs2 d c k, run_adds XXH64 h1 fs1 bufs
        = .ok (rs, { init_sizing fp entries error base with
                     fd_struct := some ⟨snprintf69 (base ++ ".blm"), true⟩,
                     fd_data := some ⟨snprintf69 (base ++ ".dat"), true⟩,
                     ready := 1, current_entries := c, collisions := k }, fs2)
      ∧ c < U64 ∧ k < U64
      ∧ fs2 (snprintf69 (base ++ ".blm")) = some []
      ∧ fs2 (snprintf69 (base ++ ".dat")) = some d := by
  obtain ⟨hready, hce, hco, hfd, hfile, hbytes⟩ :=
    init_fresh_probeable env fp fs entries error base h1 fs1 hinit
  obtain ⟨-, -, -, -, hh, hfs⟩ := init_fresh_spec env fp fs entries error base h1 fs1 hinit
  have hU : 0 < U64 := by simp [U64]
  obtain ⟨rs, fs2, hrun, -, hg⟩ :=
    run_adds_spec XXH64 ⟨snprintf69 (base ++ ".dat"), true⟩ bufs h1 fs1 _
      (by rw [hready]; decide) hbits hfd hfile
      (by rw [List.length_append, List.length_replicate, hbytes]; omega)
      (by rw [hce]; exact hU) (by rw [hco]; exact hU)
  obtain ⟨d, hd, -, -⟩ := hg.2 _ hfile
  have hne := filenames_differ base hbase
  refine ⟨rs, fs2, d, (h1.current_entries + bufs.length) % U64,
    (h1.collisions + rs.count 1) % U64, ?_, Nat.mod_lt _ hU, Nat.mod_lt _ hU, ?_, hd⟩
  · rw [hrun, hh]
  · rw [hg.1 _ (Ne.symm hne), hfs, FS.put_get_ne _ _ _ _ (Ne.symm hne), FS.put_get]

theorem init_sizing_ranges (fp : FloatOps) (entries : Nat) (error : LongDouble) (base : String) :
    (init_sizing fp entries error base).bits < U64
    ∧ (init_sizing fp entries error base).bytes < U64
    ∧ (init_sizing fp entries error base).hashes % 256
        = (init_sizing fp entries error base).hashes := by
  have hlt : fp.to_bits entries (fp.bpe error) % U64 < U64 := Nat.mod_lt _ (by simp [U64])
  have hby := init_sizing_bytes fp entries error base
  refine ⟨hlt, ?_, ?_⟩
  · rw [hby]
    have : (init_sizing fp entries error base).bits < U64 := hlt
    simp only [U64] at *
    omega
  · exact Nat.mod_mod _ _

/-- C6: for a filter created fresh with `(n, p)` (base name of at most 64 characters, so that
the two file names fit and differ), after any number of adds followed by `bloomdisk_save` and
`bloomdisk_free`, a new `bloomdisk_init` with the same `(n, p)` and base name returns 2, sets
`ready`, and gives `current_entries` and `collisions` the values the handle held at the save. -/
theorem metadata_round_trip (env env2 : Env) (fp : FloatOps) (fs : FS) (entries : Nat)
    (error : LongDouble) (base : String) (h1 : bloomdisk) (fs1 : FS)
    (XXH64 : List Nat → Nat → Nat) (bufs : List (List Nat))
    (hinit : bloomdisk_init env fp fs entries error base = (1, h1, fs1))
    (hentries : entries < 2 ^ 64) (hbits : h1.bits ≠ 0) (hbase : base.length ≤ 64)
    (hopen : ∀ p, env2.can_open p = true) :
    ∃ rs h2 fs2 fs3 fs4 h5,
      run_adds XXH64 h1 fs1 bufs = .ok (rs, h2, fs2)
      ∧ bloomdisk_save h2 fs2 = .ok (h2, fs3)
      ∧ bloomdisk_free h2 fs3 = .ok (bloomdisk.zero, fs4)
      ∧ bloomdisk_init env2 fp fs4 entries error base = (2, h5, fs4)
      ∧ h5.ready = 1
      ∧ h5.current_entries = h2.current_entries
      ∧ h5.collisions = h2.collisions := by
  obtain ⟨rs, fs2, d, c, k, hrun, hc, hk, hblm, hdat⟩ :=
    fresh_session_state env fp fs entries error base h1 fs1 XXH64 bufs hinit hbits hbase
  obtain ⟨hacc, -⟩ := init_fresh_spec env fp fs entries error base h1 fs1 hinit
  have hne := filenames_differ base hbase
  obtain ⟨hb, hy, hh⟩ := init_sizing_ranges fp entries error base
  generalize hh2 : ({ init_sizing fp entries error base with
      fd_struct := some ⟨snprintf69 (base ++ ".blm"), true⟩,
      fd_data := some ⟨snprintf69 (base ++ ".dat"), true⟩,
      ready := 1, current_entries := c, collisions := k } : bloomdisk) = h2 at hrun
  have hsave : bloomdisk_save h2 fs2
      = .ok (h2, fs2.put (snprintf69 (base ++ ".blm")) ([] ++ metadata_record h2)) := by
    subst hh2
    simp only [bloomdisk_save, ne_eq, one_ne_zero, not_false_eq_true, if_true]
    rw [write_metadata_append _ ⟨snprintf69 (base ++ ".blm"), true⟩ fs2 [] rfl hblm]
  have hfree : bloomdisk_free h2 (fs2.put (snprintf69 (base ++ ".blm")) ([] ++ metadata_record h2))
      = .ok (bloomdisk.zero, fs2.put (snprintf69 (base ++ ".blm"))
          (metadata_record h2 ++ metadata_record h2)) := by
    subst hh2
    simp only [bloomdisk_free, ne_eq, one_ne_zero, not_false_eq_true, if_true]
    rw [write_metadata_append _ ⟨snprintf69 (base ++ ".blm"), true⟩ _ _ rfl (FS.put_get _ _ _),
      FS.put_put, List.nil_append]
  have hre := init_reopen_spec env2 fp
    (fs2.put (snprintf69 (base ++ ".blm")) (metadata_record h2 ++ metadata_record h2))
    entries error base h2 (metadata_record h2) d hacc (hopen _) (hopen _) (FS.put_get _ _ _)
    (by rw [FS.put_get_ne _ _ _ _ hne]; exact hdat)
    (by subst hh2; exact hentries) (by subst hh2; exact hc) (by subst hh2; exact hk)
    (by subst hh2; exact hb) (by subst hh2; exact hy)
  have hsame : ¬ (h2.entries ≠ (init_sizing fp entries error base).entries
      ∨ h2.bits ≠ (init_sizing fp entries error base).bits
      ∨ h2.bytes ≠ (init_sizing fp entries error base).bytes
      ∨ h2.hashes % 256 ≠ (init_sizing fp entries error base).hashes) := by
    subst hh2
    simp only [ne_eq, not_true_eq_false, false_or, hh]
    simp
  rw [if_neg hsame] at hre
  exact ⟨rs, h2, fs2, _, _, _, hrun, hsave, hfree, hre, rfl, rfl, rfl⟩

/-- Witness of C6: two adds on the fresh filter `t1`, then save, free and init again. -/
theorem metadata_round_trip_witness :
    bloomdisk_init env_ok fp_sample fs_empty 1000 (.fin (1 / 1000000)) "t1"
      = (1, sample_init.2.1, sample_init.2.2)
    ∧ 1000 < 2 ^ 64 ∧ sample_init.2.1.bits ≠ 0 ∧ "t1".length ≤ 64
    ∧ (∀ p, env_ok.can_open p = true)
    ∧ ∃ rs h2 fs2 fs3 fs4 h5,
        run_adds sample_hash sample_init.2.1 sample_init.2.2
          [List.replicate 32 0, List.replicate 32 1] = .ok (rs, h2, fs2)
      ∧ bloomdisk_save h2 fs2 = .ok (h2, fs3)
      ∧ bloomdisk_free h2 fs3 = .ok (bloomdisk.zero, fs4)
      ∧ bloomdisk_init env_ok fp_sample fs4 1000 (.fin (1 / 1000000)) "t1" = (2, h5, fs4)
      ∧ h5.ready = 1
      ∧ h5.current_entries = h2.current_entries
      ∧ h5.collisions = h2.collisions :=
  ⟨sample_init_eq, by decide, by rw [sample_init_handle.1]; decide, by decide, fun _ => rfl,
   metadata_round_trip env_ok env_ok fp_sample fs_empty 1000 (.fin (1 / 1000000)) "t1"
     sample_init.2.1 sample_init.2.2 sample_hash [List.replicate 32 0, List.replicate 32 1]
     sample_init_eq (by decide) (by rw [sample_init_handle.1]; decide) (by decide)
     (fun _ => rfl)⟩

/-- C7 (as amended): for a filter created fresh with `(n, p)` and closed by `bloomdisk_free`
after any number of adds, a new `bloomdisk_init` with accepted `(n2, p2)` and the same base
name returns 0 and leaves `ready = 0` when the `entries`, `bits`, `bytes` or `hashes` sized
from `(n2, p2)` differ from those of the filter, and returns 2 with `ready = 1` when all four
are equal. -/
theorem reinit_compares_sized_parameters (env env2 : Env) (fp : FloatOps) (fs : FS)
    (entries entries2 : Nat) (error error2 : LongDouble) (base : String) (h1 : bloomdisk)
    (fs1 : FS) (XXH64 : List Nat → Nat → Nat) (bufs : List (List Nat))
    (hinit : bloomdisk_init env fp fs entries error base = (1, h1, fs1))
    (hentries : entries < 2 ^ 64) (hbits : h1.bits ≠ 0) (hbase : base.length ≤ 64)
    (hopen : ∀ p, env2.can_open p = true)
    (hacc2 : params_rejected entries2 error2 = false) :
    ∃ rs h2 fs2 fs4,
      run_adds XXH64 h1 fs1 bufs = .ok (rs, h2, fs2)
      ∧ bloomdisk_free h2 fs2 = .ok (bloomdisk.zero, fs4)
      ∧ (bloomdisk_init env2 fp fs4 entries2 error2 base).2.2 = fs4
      ∧ ((h1.entries ≠ entries2
            ∨ h1.bits ≠ (init_sizing fp entries2 error2 base).bits
            ∨ h1.bytes ≠ (init_sizing fp entries2 error2 base).bytes
            ∨ h1.hashes ≠ (init_sizing fp entries2 error2 base).hashes) →
          (bloomdisk_init env2 fp fs4 entries2 error2 base).1 = 0
          ∧ (bloomdisk_init env2 fp fs4 entries2 error2 base).2.1.ready = 0)
      ∧ (¬ (h1.entries ≠ entries2
            ∨ h1.bits ≠ (init_sizing fp entries2 error2 base).bits
            ∨ h1.bytes ≠ (init_sizing fp entries2 error2 base).bytes
            ∨ h1.hashes ≠ (init_sizing fp entries2 error2 base).hashes) →
          (bloomdisk_init env2 fp fs4 entries2 error2 base).1 = 2
          ∧ (bloomdisk_init env2 fp fs4 entries2 error2 base).2.1.ready = 1) := by
  obtain ⟨rs, fs2, d, c, k, hrun, hc, hk, hblm, hdat⟩ :=
    fresh_session_state env fp fs entries error base h1 fs1 XXH64 bufs hinit hbits hbase
  obtain ⟨-, -, -, -, hh1, -⟩ := init_fresh_spec env fp fs entries error base h1 fs1 hinit
  have hne := filenames_differ base hbase
  obtain ⟨hb, hy, hh⟩ := init_sizing_ranges fp entries error base
  generalize hh2 : ({ init_sizing fp entries error base with
      fd_struct := some ⟨snprintf69 (base ++ ".blm"), true⟩,
      fd_data := some ⟨snprintf69 (base ++ ".dat"), true⟩,
      ready := 1, current_entries := c, collisions := k } : bloomdisk) = h2 at hrun
  have hfree : bloomdisk_free h2 fs2
      = .ok (bloomdisk.zero, fs2.put (snprintf69 (base ++ ".blm")) (metadata_record h2 ++ [])) := by
    subst hh2
    simp only [bloomdisk_free, ne_eq, one_ne_zero, not_false_eq_true, if_true]
    rw [write_metadata_append _ ⟨snprintf69 (base ++ ".blm"), true⟩ _ _ rfl hblm,
      List.nil_append, List.append_nil]
  have hre := init_reopen_spec env2 fp
    (fs2.put (snprintf69 (base ++ ".blm")) (metadata_record h2 ++ []))
    entries2 error2 base h2 [] d hacc2 (hopen _) (hopen _) (FS.put_get _ _ _)
    (by rw [FS.put_get_ne _ _ _ _ hne]; exact hdat)
    (by subst hh2; exact hentries) (by subst hh2; exact hc) (by subst hh2; exact hk)
    (by subst hh2; exact hb) (by subst hh2; exact hy)
  have hcond : (h2.entries ≠ (init_sizing fp entries2 error2 base).entries
        ∨ h2.bits ≠ (init_sizing fp entries2 error2 base).bits
        ∨ h2.bytes ≠ (init_sizing fp entries2 error2 base).bytes
        ∨ h2.hashes % 256 ≠ (init_sizing fp entries2 error2 base).hashes)
      ↔ (h1.entries ≠ entries2
        ∨ h1.bits ≠ (init_sizing fp entries2 error2 base).bits
        ∨ h1.bytes ≠ (init_sizing fp entries2 error2 base).bytes
        ∨ h1.hashes ≠ (init_sizing fp entries2 error2 base).hashes) := by
    subst hh2
    rw [hh1]
    simp only [hh]
    rfl
  refine ⟨rs, h2, fs2, _, hrun, hfree, ?_, ?_, ?_⟩
  · rw [hre]
    split <;> rfl
  · intro hdiff
    rw [hre, if_pos (hcond.mpr hdiff)]
    exact ⟨rfl, rfl⟩
  · intro hsame
    rw [hre, if_neg (fun h => hsame (hcond.mp h))]
    exact ⟨rfl, rfl⟩

theorem sample_sizing_other :
    fp_sample.to_bits 1000 (fp_sample.bpe (.fin (100001 / 100000000000))) = 28755
    ∧ fp_sample.to_hashes (fp_sample.bpe (.fin (100001 / 100000000000))) = 20 := by
  have hx : ((100001 : ℚ) / 100000000000 = 1 / 1000000) = False := by norm_num
  constructor
  · simp only [fp_sample, fp_exact, log_sample, hx, if_false, if_true]
    norm_num
    rfl
  · have hc : ⌈(0.693147180559945 : ℚ) * (-(-13.815500558014273) / 0.480453013918201)⌉ = 20 := by
      rw [Int.ceil_eq_iff]
      constructor <;> norm_num
    simp only [fp_sample, fp_exact, log_sample, hx, if_false, if_true]
    rw [hc]
    rfl

theorem sample_other_accepted :
    params_rejected 1000 (.fin (100001 / 100000000000)) = false := by
  simp only [params_rejected, LongDouble.le_zero, LongDouble.ge_one]
  norm_num

theorem sample_record : metadata_record sample_init.2.1 = metadata_record sample_bloom := by
  obtain ⟨hready, hce, hco, -, -, -⟩ :=
    init_fresh_probeable env_ok fp_sample fs_empty 1000 (.fin (1 / 1000000)) "t1" _ _
      sample_init_eq
  obtain ⟨hb, hk, hby⟩ := sample_init_handle
  have he : sample_init.2.1.entries = 1000 :=
    init_accepted_entries env_ok fp_sample fs_empty 1000 (.fin (1 / 1000000)) "t1"
      sample_accepted
  simp only [metadata_record, hready, hce, hco, hb, hk, hby, he]
  rfl

/-- Closing the fresh filter `t1` with `bloomdisk_free` leaves the files `sample_fs`. -/
theorem sample_free : bloomdisk_free sample_init.2.1 sample_init.2.2
    = .ok (bloomdisk.zero, sample_fs) := by
  obtain ⟨-, -, -, -, hh, hfs⟩ :=
    init_fresh_spec env_ok fp_sample fs_empty 1000 (.fin (1 / 1000000)) "t1" _ _ sample_init_eq
  have hby := sample_init_handle.2.2
  have hn1 : snprintf69 ("t1" ++ ".blm") = "t1.blm" := by decide
  have hn2 : snprintf69 ("t1" ++ ".dat") = "t1.dat" := by decide
  rw [hn1, hn2] at hh hfs
  rw [hby] at hfs
  have hblm : sample_init.2.2 "t1.blm" = some [] := by
    rw [hfs, FS.put_get_ne _ _ _ _ (by decide), FS.put_get]
  have hstruct : sample_init.2.1.fd_struct = some ⟨"t1.blm", true⟩ := by rw [hh]
  have hdata : sample_init.2.1.fd_data = some ⟨"t1.dat", true⟩ := by rw [hh]
  have hready : sample_init.2.1.ready = 1 := by rw [hh]
  unfold bloomdisk_free
  rw [hready, hstruct, hdata]
  simp only [ne_eq, one_ne_zero, not_false_eq_true, if_true]
  rw [write_metadata_append _ ⟨"t1.blm", true⟩ _ [] rfl hblm, sample_record, List.nil_append]
  congr 2
  funext p
  rw [hfs]
  unfold sample_fs
  by_cases h1 : p = "t1.blm"
  · subst h1
    rw [FS.put_get, FS.put_get_ne _ _ _ _ (by decide), FS.put_get]
  · rw [FS.put_get_ne _ _ _ _ h1]
    by_cases h2 : p = "t1.dat"
    · subst h2
      rw [FS.put_get, FS.put_get]
      rfl
    · rw [FS.put_get_ne _ _ _ _ h2, FS.put_get_ne _ _ _ _ h1, FS.put_get_ne _ _ _ _ h2,
        FS.put_get_ne _ _ _ _ h1]

theorem sample_fs_blm : sample_fs "t1.blm" = some (metadata_record sample_bloom ++ []) := by
  unfold sample_fs
  rw [FS.put_get_ne _ _ _ _ (by decide), FS.put_get, List.append_nil]

/-- C7 (counterexample): the filter `t1` is created with `(1000, 0.000001)` and closed; a new
`bloomdisk_init` with the different pair `(1000, 0.00000100001)` and the same base name
returns 2 and sets `ready`, because both pairs size to 28755 bits and 20 hashes. -/
theorem reinit_with_other_error_returns_two :
    (1 / 1000000 : ℚ) ≠ 100001 / 100000000000
    ∧ bloomdisk_init env_ok fp_sample fs_empty 1000 (.fin (1 / 1000000)) "t1"
        = (1, sample_init.2.1, sample_init.2.2)
    ∧ bloomdisk_free sample_init.2.1 sample_init.2.2 = .ok (bloomdisk.zero, sample_fs)
    ∧ params_rejected 1000 (.fin (100001 / 100000000000)) = false
    ∧ (bloomdisk_init env_ok fp_sample sample_fs 1000 (.fin (100001 / 100000000000)) "t1").1
        = 2
    ∧ (bloomdisk_init env_ok fp_sample sample_fs 1000
        (.fin (100001 / 100000000000)) "t1").2.1.ready = 1 := by
  have hre := init_reopen_spec env_ok fp_sample sample_fs 1000 (.fin (100001 / 100000000000))
    "t1" sample_bloom [] (List.replicate 3595 0) sample_other_accepted rfl rfl sample_fs_blm
    sample_fs_data (by decide) (by decide) (by decide) (by decide) (by decide)
  have hsame : ¬ (sample_bloom.entries
        ≠ (init_sizing fp_sample 1000 (.fin (100001 / 100000000000)) "t1").entries
      ∨ sample_bloom.bits
        ≠ (init_sizing fp_sample 1000 (.fin (100001 / 100000000000)) "t1").bits
      ∨ sample_bloom.bytes
        ≠ (init_sizing fp_sample 1000 (.fin (100001 / 100000000000)) "t1").bytes
      ∨ sample_bloom.hashes % 256
        ≠ (init_sizing fp_sample 1000 (.fin (100001 / 100000000000)) "t1").hashes) := by
    simp only [init_sizing, sample_sizing_other.1, sample_sizing_other.2]
    decide
  rw [if_neg hsame] at hre
  refine ⟨by norm_num, sample_init_eq, sample_free, sample_other_accepted, ?_, ?_⟩
  · rw [hre]
  · rw [hre]

/-- Witness of C7 (as amended): the fresh filter `t1`, closed without adds, then opened with
`(1000, 0.0001)`. -/
theorem reinit_compares_sized_parameters_witness :
    bloomdisk_init env_ok fp_sample fs_empty 1000 (.fin (1 / 1000000)) "t1"
      = (1, sample_init.2.1, sample_init.2.2)
    ∧ 1000 < 2 ^ 64 ∧ sample_init.2.1.bits ≠ 0 ∧ "t1".length ≤ 64
    ∧ (∀ p, env_ok.can_open p = true)
    ∧ params_rejected 1000 (.fin (1 / 10000)) = false
    ∧ ∃ rs h2 fs2 fs4,
        run_adds sample_hash sample_init.2.1 sample_init.2.2 [] = .ok (rs, h2, fs2)
      ∧ bloomdisk_free h2 fs2 = .ok (bloomdisk.zero, fs4)
      ∧ (bloomdisk_init env_ok fp_sample fs4 1000 (.fin (1 / 10000)) "t1").2.2 = fs4
      ∧ ((sample_init.2.1.entries ≠ 1000
            ∨ sample_init.2.1.bits ≠ (init_sizing fp_sample 1000 (.fin (1 / 10000)) "t1").bits
            ∨ sample_init.2.1.bytes ≠ (init_sizing fp_sample 1000 (.fin (1 / 10000)) "t1").bytes
            ∨ sample_init.2.1.hashes
                ≠ (init_sizing fp_sample 1000 (.fin (1 / 10000)) "t1").hashes) →
          (bloomdisk_init env_ok fp_sample fs4 1000 (.fin (1 / 10000)) "t1").1 = 0
          ∧ (bloomdisk_init env_ok fp_sample fs4 1000 (.fin (1 / 10000)) "t1").2.1.ready = 0)
      ∧ (¬ (sample_init.2.1.entries ≠ 1000
            ∨ sample_init.2.1.bits ≠ (init_sizing fp_sample 1000 (.fin (1 / 10000)) "t1").bits
            ∨ sample_init.2.1.bytes ≠ (init_sizing fp_sample 1000 (.fin (1 / 10000)) "t1").bytes
            ∨ sample_init.2.1.hashes
                ≠ (init_sizing fp_sample 1000 (.fin (1 / 10000)) "t1").hashes) →
          (bloomdisk_init env_ok fp_sample fs4 1000 (.fin (1 / 10000)) "t1").1 = 2
          ∧ (bloomdisk_init env_ok fp_sample fs4 1000 (.fin (1 / 10000)) "t1").2.1.ready = 1) :=
  ⟨sample_init_eq, by decide, by rw [sample_init_handle.1]; decide, by decide, fun _ => rfl,
   by simp only [params_rejected, LongDouble.le_zero, LongDouble.ge_one]; norm_num,
   reinit_compares_sized_parameters env_ok env_ok fp_sample fs_empty 1000 1000
     (.fin (1 / 1000000)) (.fin (1 / 10000)) "t1" sample_init.2.1 sample_init.2.2 sample_hash []
     sample_init_eq (by decide) (by rw [sample_init_handle.1]; decide) (by decide)
     (fun _ => rfl)
     (by simp only [params_rejected, LongDouble.le_zero, LongDouble.ge_one]; norm_num)⟩

/-! ## Bits written in place -/

theorem and_two_pow_ne_zero (c j : Nat) : c &&& 2 ^ j ≠ 0 ↔ c.testBit j = true := by
  constructor
  · intro h
    by_contra hb
    apply h
    apply Nat.eq_of_testBit_eq
    intro i
    simp only [Nat.testBit_and, Nat.testBit_two_pow, Nat.zero_testBit]
    by_cases hji : j = i
    · subst hji
      simp [Bool.not_eq_true _ |>.mp hb]
    · simp [hji]
  · intro hb h
    have := congrArg (fun n => n.testBit j) h
    simp [Nat.testBit_and, Nat.testBit_two_pow_self, hb] at this

theorem mask_of_bit_eq (x : Nat) : mask_of_bit x = 2 ^ (x % 8) := by
  unfold mask_of_bit
  rw [Nat.one_shiftLeft]
  apply Nat.mod_eq_of_lt
  calc 2 ^ (x % 8) ≤ 2 ^ 7 := Nat.pow_le_pow_right (by norm_num) (by omega)
    _ < 256 := by norm_num

/-- The engine finds bit `x` set exactly when bit `x mod 8` of the byte it addresses is 1. -/
theorem engine_bit_eq (data : List Nat) (x : Nat) :
    engine_bit data x = (data.getD (byte_of_bit x) 0).testBit (x % 8) := by
  unfold engine_bit
  rw [mask_of_bit_eq]
  by_cases h : (data.getD (byte_of_bit x) 0).testBit (x % 8) = true
  · rw [h, decide_eq_true ((and_two_pow_ne_zero _ _).mpr h)]
  · rw [Bool.not_eq_true _ |>.mp h]
    exact decide_eq_false (fun hn => h ((and_two_pow_ne_zero _ _).mp hn))

theorem overwrite_one_getD (data : List Nat) (pos c k : Nat) (h : pos < data.length) :
    (overwrite data pos [c]).getD k 0 = if k = pos then c else data.getD k 0 := by
  unfold overwrite
  have h0 : pos - data.length = 0 := by omega
  simp only [h0, List.replicate_zero, List.append_nil, List.length_singleton,
    List.getD_eq_getElem?_getD, List.append_assoc, List.singleton_append]
  rw [List.getElem?_append]
  have hl : (List.take pos data).length = pos := by simp; omega
  rw [hl]
  by_cases hk : k < pos
  · simp only [hk, if_true, show k ≠ pos by omega, if_false]
    rw [List.getElem?_take_of_lt hk]
  · simp only [hk, if_false]
    by_cases hkp : k = pos
    · subst hkp
      simp
    · simp only [hkp, if_false]
      obtain ⟨m, hm⟩ : ∃ m, k - pos = m + 1 := ⟨k - pos - 1, by omega⟩
      rw [hm, List.getElem?_cons_succ, List.getElem?_drop]
      congr 2
      omega

/-- Bit `y` of the byte `(c | mask) mod 256` the engine writes for bit index `x`. -/
theorem written_byte_testBit (c x i : Nat) (hi : i < 8) :
    (((c ||| mask_of_bit x) % 256).testBit i) = (c.testBit i || decide (x % 8 = i)) := by
  rw [mask_of_bit_eq, show (256 : Nat) = 2 ^ 8 by norm_num, Nat.testBit_mod_two_pow,
    Nat.testBit_or, Nat.testBit_two_pow]
  simp [hi]

theorem engine_same_bit_self (x : Nat) : engine_same_bit x x = true := by
  simp [engine_same_bit]

theorem engine_bit_of_same_bit (data : List Nat) (x y : Nat) (h : engine_same_bit x y = true) :
    engine_bit data y = engine_bit data x := by
  simp only [engine_same_bit, Bool.and_eq_true, decide_eq_true_eq] at h
  rw [engine_bit_eq, engine_bit_eq, h.1, h.2]

/-- One test-and-set through a stream that is not in append mode: the byte is updated in
place, so afterwards the engine finds set exactly the bits it found set before and the bit
it addresses for `x`. -/
theorem test_bit_set_in_place (fs : FS) (f : FILE) (data : List Nat) (x : Nat)
    (hmode : f.append = false) (hfile : fs f.path = some data)
    (hx : byte_of_bit x < data.length) :
    ∃ fs1 d1, bloomdisk_test_bit_set_bit fs (some f) x 1
        = .ok (if engine_bit data x = true then 1 else 0, fs1)
      ∧ fs1 f.path = some d1 ∧ d1.length = data.length
      ∧ (∀ p, p ≠ f.path → fs1 p = fs p)
      ∧ ∀ y, engine_bit d1 y = (engine_bit data y || engine_same_bit x y) := by
  obtain ⟨c, hc⟩ : ∃ c, data[byte_of_bit x]? = some c :=
    ⟨_, List.getElem?_eq_getElem hx⟩
  have hget : data.getD (byte_of_bit x) 0 = c := by
    simp [List.getD_eq_getElem?_getD, hc]
  by_cases hb : engine_bit data x = true
  · obtain ⟨fs1, hres, hsame, -⟩ := test_bit_spec fs f data x 1 hfile hx
    have hfs1 := hsame (Or.inl hb)
    subst hfs1
    refine ⟨fs1, data, hres, hfile, rfl, fun _ _ => rfl, fun y => ?_⟩
    by_cases hs : engine_same_bit x y = true
    · rw [hs, Bool.or_true, engine_bit_of_same_bit data x y hs, hb]
    · rw [Bool.not_eq_true _ |>.mp hs, Bool.or_false]
  · have hset : ¬ (c &&& mask_of_bit x ≠ 0) := by
      intro h
      apply hb
      simp only [engine_bit, hget]
      exact decide_eq_true h
    have hbf : engine_bit data x = false := Bool.not_eq_true _ |>.mp hb
    refine ⟨fs.put f.path (overwrite data (byte_of_bit x) [(c ||| mask_of_bit x) % 256]),
      overwrite data (byte_of_bit x) [(c ||| mask_of_bit x) % 256], ?_, FS.put_get _ _ _,
      overwrite_one_length _ _ _ hx, fun p hp => FS.put_get_ne _ _ _ _ hp, fun y => ?_⟩
    · simp [bloomdisk_test_bit_set_bit, hfile, hc, hset, hbf, fwrite, hmode]
    · rw [engine_bit_eq, engine_bit_eq, overwrite_one_getD _ _ _ _ hx]
      by_cases hby : byte_of_bit y = byte_of_bit x
      · rw [if_pos hby, written_byte_testBit c x (y % 8) (by omega), hby, hget]
        simp only [engine_same_bit, hby, decide_True, Bool.true_and]
        congr 1
        by_cases h8 : x % 8 = y % 8
        · simp [h8]
        · have h8s : ¬ y % 8 = x % 8 := fun h => h8 h.symm
          simp [h8, h8s]
      · rw [if_neg hby]
        simp [engine_same_bit, hby]

/-- The loop of an add through a stream that is not in append mode runs to completion and
afterwards the engine finds set exactly the bits it found set before and the bits of the
probed positions. -/
theorem add_loop_in_place (bloom : bloomdisk) (a b : Nat) (f : FILE)
    (hbits : bloom.bits ≠ 0) (hfd : bloom.fd_data = some f) (hmode : f.append = false)
    (n : Nat) :
    ∀ i hits fs data, fs f.path = some data → (bloom.bits + 7) / 8 ≤ data.length →
      ∃ r fs1 d1, check_add_loop bloom a b 1 n i hits fs = .ok (r, fs1)
        ∧ fs1 f.path = some d1 ∧ d1.length = data.length
        ∧ (∀ p, p ≠ f.path → fs1 p = fs p)
        ∧ ∀ y, engine_bit d1 y = true ↔
            engine_bit data y = true
              ∨ ∃ j, j < n ∧ engine_same_bit (probe a b bloom.bits (i + j)) y = true := by
  induction n with
  | zero =>
    intro i hits fs data hfile _
    exact ⟨if hits = bloom.hashes then 1 else 0, fs, data, by simp only [check_add_loop],
      hfile, rfl, fun _ _ => rfl, fun y => by simp⟩
  | succ n ih =>
    intro i hits fs data hfile hlen
    have hx : byte_of_bit (probe a b bloom.bits i) < data.length :=
      lt_of_lt_of_le (byte_of_bit_lt (probe_lt a b i hbits)) hlen
    obtain ⟨fs1, d1, hres, hd1, hl1, hfr1, hbits1⟩ :=
      test_bit_set_in_place fs f data _ hmode hfile hx
    have key : ∀ hits2, ∃ r fs2 d2,
        check_add_loop bloom a b 1 n (i + 1) hits2 fs1 = .ok (r, fs2)
        ∧ fs2 f.path = some d2 ∧ d2.length = data.length
        ∧ (∀ p, p ≠ f.path → fs2 p = fs p)
        ∧ ∀ y, engine_bit d2 y = true ↔
            engine_bit data y = true
              ∨ ∃ j, j < n + 1 ∧ engine_same_bit (probe a b bloom.bits (i + j)) y = true := by
      intro hits2
      obtain ⟨r, fs2, d2, hloop, hd2, hl2, hfr2, hbits2⟩ :=
        ih (i + 1) hits2 fs1 d1 hd1 (by rw [hl1]; exact hlen)
      refine ⟨r, fs2, d2, hloop, hd2, by rw [hl2, hl1],
        fun p hp => by rw [hfr2 p hp, hfr1 p hp], fun y => ?_⟩
      rw [hbits2 y, hbits1 y, Bool.or_eq_true]
      constructor
      · rintro ((h | h) | ⟨j, hj, h⟩)
        · exact Or.inl h
        · exact Or.inr ⟨0, by omega, by simpa using h⟩
        · exact Or.inr ⟨j + 1, by omega, by rwa [show i + (j + 1) = i + 1 + j by omega]⟩
      · rintro (h | ⟨j, hj, h⟩)
        · exact Or.inl (Or.inl h)
        · cases j with
          | zero => exact Or.inl (Or.inr (by simpa using h))
          | succ j =>
            exact Or.inr ⟨j, by omega, by rwa [show i + 1 + j = i + (j + 1) by omega]⟩
    by_cases hb : engine_bit data (probe a b bloom.bits i) = true
    · obtain ⟨r, fs2, d2, hloop, rest⟩ := key (hits + 1)
      refine ⟨r, fs2, d2, ?_, rest⟩
      rw [check_add_loop]
      simp only [hbits, if_false, hfd, hres, hb, if_true]
      simpa using hloop
    · obtain ⟨r, fs2, d2, hloop, rest⟩ := key hits
      refine ⟨r, fs2, d2, ?_, rest⟩
      rw [check_add_loop]
      simp only [hbits, if_false, hfd, hres, hb]
      simpa using hloop

theorem probes_congr (XXH64 : List Nat → Nat → Nat) (bloom bloom1 : bloomdisk)
    (buffer : List Nat) (hk : bloom1.hashes = bloom.hashes) (hb : bloom1.bits = bloom.bits) :
    probes XXH64 bloom1 buffer = probes XXH64 bloom buffer := by
  simp only [probes, hk, hb]

/-- One add through a data stream that is not in append mode: it completes, and afterwards
the engine finds set exactly the bits it found set before and the bits of the positions
probed for the buffer. -/
theorem add_in_place (XXH64 : List Nat → Nat → Nat) (bloom : bloomdisk) (fs : FS) (f : FILE)
    (data buffer : List Nat) (hready : bloom.ready ≠ 0) (hbits : bloom.bits ≠ 0)
    (hfd : bloom.fd_data = some f) (hmode : f.append = false)
    (hfile : fs f.path = some data) (hlen : (bloom.bits + 7) / 8 ≤ data.length) :
    ∃ r fs1 d1, bloomdisk_add XXH64 bloom fs buffer
        = .ok (r, { bloom with
                    current_entries := (bloom.current_entries + 1) % U64,
                    collisions := if r = 1 then (bloom.collisions + 1) % U64
                                  else bloom.collisions }, fs1)
      ∧ fs1 f.path = some d1 ∧ d1.length = data.length
      ∧ (∀ p, p ≠ f.path → fs1 p = fs p)
      ∧ ∀ y, engine_bit d1 y = true ↔
          engine_bit data y = true
            ∨ ∃ x, x ∈ probes XXH64 bloom buffer ∧ engine_same_bit x y = true := by
  obtain ⟨r, fs1, d1, hloop, hd1, hl1, hfr, hset⟩ :=
    add_loop_in_place bloom (XXH64 buffer 0x59f2815b16f81798 % U64)
      (XXH64 buffer (XXH64 buffer 0x59f2815b16f81798 % U64) % U64) f hbits hfd hmode
      bloom.hashes 0 0 fs data hfile hlen
  refine ⟨r, fs1, d1, add_of_check_add XXH64 bloom fs fs1 buffer r ?_, hd1, hl1, hfr,
    fun y => ?_⟩
  · rw [check_add_ready XXH64 bloom fs buffer 1 hready, hloop]
  · rw [hset y]
    simp only [probes, List.mem_map, List.mem_range, Nat.zero_add]
    constructor
    · rintro (h | ⟨j, hj, h⟩)
      · exact Or.inl h
      · exact Or.inr ⟨_, ⟨j, hj, rfl⟩, h⟩
    · rintro (h | ⟨x, ⟨j, hj, rfl⟩, h⟩)
      · exact Or.inl h
      · exact Or.inr ⟨j, hj, h⟩

/-- A sequence of adds through a data stream that is not in append mode: it completes, and
afterwards the engine finds set exactly the bits it found set before and the bits of the
positions probed for the buffers. -/
theorem run_adds_in_place (XXH64 : List Nat → Nat → Nat) (f : FILE) (hmode : f.append = false)
    (bufs : List (List Nat)) :
    ∀ (bloom : bloomdisk) (fs : FS) (data : List Nat),
      bloom.ready ≠ 0 → bloom.bits ≠ 0 → bloom.fd_data = some f → fs f.path = some data →
      (bloom.bits + 7) / 8 ≤ data.length →
      ∃ rs bloom2 fs2 d2, run_adds XXH64 bloom fs bufs = .ok (rs, bloom2, fs2)
        ∧ bloom2.ready = bloom.ready ∧ bloom2.bits = bloom.bits
        ∧ bloom2.hashes = bloom.hashes ∧ bloom2.fd_data = bloom.fd_data
        ∧ fs2 f.path = some d2 ∧ d2.length = data.length
        ∧ (∀ p, p ≠ f.path → fs2 p = fs p)
        ∧ ∀ y, engine_bit d2 y = true ↔
            engine_bit data y = true
              ∨ ∃ buffer, buffer ∈ bufs
                  ∧ ∃ x, x ∈ probes XXH64 bloom buffer ∧ engine_same_bit x y = true := by
  induction bufs with
  | nil =>
    intro bloom fs data _ _ _ hfile _
    exact ⟨[], bloom, fs, data, rfl, rfl, rfl, rfl, rfl, hfile, rfl, fun _ _ => rfl,
      fun y => by simp⟩
  | cons buffer rest ih =>
    intro bloom fs data hready hbits hfd hfile hlen
    obtain ⟨r, fs1, d1, hadd, hd1, hl1, hfr1, hset1⟩ :=
      add_in_place XXH64 bloom fs f data buffer hready hbits hfd hmode hfile hlen
    obtain ⟨rs, bloom2, fs2, d2, hrun, h2r, h2b, h2k, h2f, hd2, hl2, hfr2, hset2⟩ :=
      ih { bloom with
           current_entries := (bloom.current_entries + 1) % U64,
           collisions := if r = 1 then (bloom.collisions + 1) % U64 else bloom.collisions }
        fs1 d1 hready hbits hfd hd1 (by rw [hl1]; exact hlen)
    refine ⟨r :: rs, bloom2, fs2, d2, ?_, h2r, h2b, h2k, h2f, hd2, by rw [hl2, hl1],
      fun p hp => by rw [hfr2 p hp, hfr1 p hp], fun y => ?_⟩
    · rw [run_adds, hadd]
      simp only [hrun]
    · rw [hset2 y, hset1 y]
      constructor
      · rintro ((h | ⟨x, hx, h⟩) | ⟨b1, hb1, x, hx, h⟩)
        · exact Or.inl h
        · exact Or.inr ⟨buffer, List.mem_cons_self _ _, x, hx, h⟩
        · exact Or.inr ⟨b1, List.mem_cons_of_mem _ hb1, x, hx, h⟩
      · rintro (h | ⟨b1, hb1, x, hx, h⟩)
        · exact Or.inl (Or.inl h)
        · rcases List.mem_cons.mp hb1 with rfl | hb1
          · exact Or.inl (Or.inr ⟨x, hx, h⟩)
          · exact Or.inr ⟨b1, hb1, x, hx, h⟩

/-- No false negatives when the data stream is not in append mode (a filter reopened from
its files): after any sequence of adds on a ready handle, a check of any buffer of the
sequence returns 1. -/
theorem in_place_filter_has_no_false_negatives (XXH64 : List Nat → Nat → Nat)
    (bloom : bloomdisk) (fs : FS) (f : FILE) (data : List Nat) (bufs : List (List Nat))
    (hready : bloom.ready ≠ 0) (hbits : bloom.bits ≠ 0) (hfd : bloom.fd_data = some f)
    (hmode : f.append = false) (hfile : fs f.path = some data)
    (hlen : (bloom.bits + 7) / 8 ≤ data.length) :
    ∃ rs bloom2 fs2, run_adds XXH64 bloom fs bufs = .ok (rs, bloom2, fs2)
      ∧ ∀ buffer, buffer ∈ bufs → bloomdisk_check XXH64 bloom2 fs2 buffer
          = .ok (1, bloom2, fs2) := by
  obtain ⟨rs, bloom2, fs2, d2, hrun, h2r, h2b, h2k, h2f, hd2, hl2, -, hset2⟩ :=
    run_adds_in_place XXH64 f hmode bufs bloom fs data hready hbits hfd hfile hlen
  refine ⟨rs, bloom2, fs2, hrun, fun buffer hmem => ?_⟩
  rw [check_spec XXH64 bloom2 fs2 f d2 buffer (by rw [h2r]; exact hready)
    (by rw [h2b]; exact hbits) (by rw [h2f]; exact hfd) hd2 (by rw [h2b, hl2]; exact hlen)]
  rw [if_pos]
  intro x hx
  rw [probes_congr XXH64 bloom bloom2 buffer h2k h2b] at hx
  exact (hset2 x).mpr (Or.inr ⟨buffer, hmem, x, hx, engine_same_bit_self x⟩)

/-! ## Coinciding probes and small bit indices -/

/-- When all 20 probes of a buffer land on bit 0 and that bit is clear, the add returns 0:
the bit set by the first probe does not make the call a collision. -/
theorem add_with_coinciding_probes :
    probes zero_hash sample_bloom [1, 2, 3] = List.replicate 20 0
    ∧ ∃ fs1, bloomdisk_check_add zero_hash sample_bloom sample_fs [1, 2, 3] 1 = .ok (0, fs1) := by
  have hp : probes zero_hash sample_bloom [1, 2, 3] = List.replicate 20 0 := by decide
  refine ⟨hp, ?_⟩
  obtain ⟨fs1, hres, -⟩ :=
    check_add_one_spec zero_hash sample_bloom sample_fs ⟨"t1.dat", false⟩
      (List.replicate 3595 0) [1, 2, 3] (by decide) (by decide) rfl sample_fs_data
      sample_bloom_covered
  refine ⟨fs1, ?_⟩
  rw [hres, if_neg]
  intro hall
  have h0 := hall 0 (by rw [hp]; decide)
  rw [zero_byte_clear _ 0 (by
    rw [show byte_of_bit 0 = 0 by decide, List.getElem?_replicate, if_pos (by decide)])] at h0
  exact absurd h0 (by decide)

/-- For a bit index below `2^35` the byte offset of the engine is `x >> 3`. -/
theorem byte_of_bit_small (x : Nat) (h : x < 2 ^ 35) : byte_of_bit x = x >>> 3 := by
  unfold byte_of_bit U32
  apply Nat.mod_eq_of_lt
  rw [shiftRight_three]
  omega

/-! ## The metadata file after a save -/

theorem save_append (bloom : bloomdisk) (fs : FS) (fd : FILE) (data : List Nat)
    (hready : bloom.ready ≠ 0) (hfd : bloom.fd_struct = some fd) (happ : fd.append = true)
    (hfile : fs fd.path = some data) :
    bloomdisk_save bloom fs = .ok (bloom, fs.put fd.path (data ++ metadata_record bloom)) := by
  simp only [bloomdisk_save, hready, ne_eq, not_false_eq_true, if_true, hfd]
  rw [write_metadata_append bloom fd fs data happ hfile]

theorem overwrite_after_prefix (pre rest bs : List Nat) :
    overwrite (pre ++ rest) pre.length bs = pre ++ bs ++ rest.drop bs.length := by
  unfold overwrite
  have h0 : pre.length - (pre ++ rest).length = 0 := by simp
  rw [h0, List.replicate_zero, List.append_nil, List.take_left', List.drop_append]
  rfl

theorem fwrite_in_place_pair (fs : FS) (f : FILE) (pre rest bs : List Nat)
    (hmode : f.append = false) (hfile : fs f.path = some (pre ++ rest)) :
    fwrite fs f pre.length bs
      = (fs.put f.path (pre ++ bs ++ rest.drop bs.length), pre.length + bs.length) := by
  simp only [fwrite, hfile, hmode, Bool.false_eq_true, if_false, overwrite_after_prefix]

theorem fwrite_in_place_at (fs : FS) (f : FILE) (pre rest bs : List Nat) (pos : Nat)
    (hpos : pos = pre.length) (hmode : f.append = false)
    (hfile : fs f.path = some (pre ++ rest)) :
    fwrite fs f pos bs
      = (fs.put f.path (pre ++ bs ++ rest.drop bs.length), pre.length + bs.length) := by
  subst hpos
  exact fwrite_in_place_pair fs f pre rest bs hmode hfile

/-- On a stream that is not in append mode the seven writes of a save replace the first 42
bytes of the metadata file by the record of the handle. -/
theorem write_metadata_in_place (bloom : bloomdisk) (fd : FILE) (fs : FS) (data : List Nat)
    (hmode : fd.append = false) (hfile : fs fd.path = some data) :
    write_metadata bloom fd fs = fs.put fd.path (metadata_record bloom ++ data.drop 42) := by
  unfold write_metadata
  simp only
  rw [fwrite_in_place_at fs fd [] data _ 0 rfl hmode hfile]
  rw [fwrite_in_place_at _ fd _ _ _ _ (by simp) hmode (FS.put_get _ _ _)]
  rw [fwrite_in_place_at _ fd _ _ _ _ (by simp [u64_bytes]) hmode (FS.put_get _ _ _)]
  rw [fwrite_in_place_at _ fd _ _ _ _ (by simp [u64_bytes]) hmode (FS.put_get _ _ _)]
  rw [fwrite_in_place_at _ fd _ _ _ _ (by simp [u64_bytes]) hmode (FS.put_get _ _ _)]
  rw [fwrite_in_place_at _ fd _ _ _ _ (by simp [u64_bytes]) hmode (FS.put_get _ _ _)]
  rw [fwrite_in_place_at _ fd _ _ _ _ (by simp [u64_bytes]) hmode (FS.put_get _ _ _)]
  simp only [FS.put_put, metadata_record, List.nil_append, List.drop_drop, u64_bytes,
    List.length_cons, List.length_nil]

/-- The sibling path of a save: through a stream opened with `"r+b"` on a metadata file of
one record, the file is exactly the record of the handle after every save. -/
theorem save_in_place (bloom : bloomdisk) (fs : FS) (fd : FILE) (data : List Nat)
    (hready : bloom.ready ≠ 0) (hfd : bloom.fd_struct = some fd) (hmode : fd.append = false)
    (hfile : fs fd.path = some data) (hlen : data.length ≤ 42) :
    bloomdisk_save bloom fs = .ok (bloom, fs.put fd.path (metadata_record bloom)) := by
  simp only [bloomdisk_save, hready, ne_eq, not_false_eq_true, if_true, hfd]
  rw [write_metadata_in_place bloom fd fs data hmode hfile, List.drop_eq_nil_of_le hlen,
    List.append_nil]

theorem free_append (bloom : bloomdisk) (fs : FS) (fd g : FILE) (data : List Nat)
    (hready : bloom.ready ≠ 0) (hfd : bloom.fd_struct = some fd) (hg : bloom.fd_data = some g)
    (happ : fd.append = true) (hfile : fs fd.path = some data) :
    bloomdisk_free bloom fs
      = .ok (bloomdisk.zero, fs.put fd.path (data ++ metadata_record bloom)) := by
  simp only [bloomdisk_free, hready, ne_eq, not_false_eq_true, if_true, hfd, hg]
  rw [write_metadata_append bloom fd fs data happ hfile]

/-- The state after the first call of the worked examples: both streams are in append mode,
the metadata file is empty and the data file holds 3595 zero bytes. -/
theorem sample_init_state :
    sample_init.2.1.ready = 1
    ∧ sample_init.2.1.fd_struct = some ⟨"t1.blm", true⟩
    ∧ sample_init.2.1.fd_data = some ⟨"t1.dat", true⟩
    ∧ sample_init.2.2 "t1.blm" = some []
    ∧ sample_init.2.2 "t1.dat" = some (List.replicate 3595 0) := by
  obtain ⟨-, -, -, -, hh, hfs⟩ :=
    init_fresh_spec env_ok fp_sample fs_empty 1000 (.fin (1 / 1000000)) "t1" _ _ sample_init_eq
  have hby := sample_init_handle.2.2
  have hn1 : snprintf69 ("t1" ++ ".blm") = "t1.blm" := by decide
  have hn2 : snprintf69 ("t1" ++ ".dat") = "t1.dat" := by decide
  rw [hn1, hn2] at hh hfs
  rw [hby] at hfs
  refine ⟨by rw [hh], by rw [hh], by rw [hh], ?_, ?_⟩
  · rw [hfs, FS.put_get_ne _ _ _ _ (by decide), FS.put_get]
  · rw [hfs, FS.put_get]
    exact congrArg some (List.nil_append _)

/-- C11 (evaluation at the failing input): on the filter `t1` created by
`bloomdisk_init(&bloom, 1000, 0.000001, "t1")` the first `bloomdisk_save` leaves a metadata
file of exactly one record, but a second `bloomdisk_save`, or a `bloomdisk_free`, on the same
handle leaves a file of two records (84 bytes): the record is appended, not rewritten. -/
theorem second_save_appends_a_second_record :
    bloomdisk_init env_ok fp_sample fs_empty 1000 (.fin (1 / 1000000)) "t1"
      = (1, sample_init.2.1, sample_init.2.2)
    ∧ ∃ fs3 fs4 fs5,
        bloomdisk_save sample_init.2.1 sample_init.2.2 = .ok (sample_init.2.1, fs3)
      ∧ fs3 "t1.blm" = some (metadata_record sample_init.2.1)
      ∧ bloomdisk_save sample_init.2.1 fs3 = .ok (sample_init.2.1, fs4)
      ∧ fs4 "t1.blm"
          = some (metadata_record sample_init.2.1 ++ metadata_record sample_init.2.1)
      ∧ bloomdisk_free sample_init.2.1 fs3 = .ok (bloomdisk.zero, fs5)
      ∧ fs5 "t1.blm"
          = some (metadata_record sample_init.2.1 ++ metadata_record sample_init.2.1)
      ∧ (metadata_record sample_init.2.1 ++ metadata_record sample_init.2.1).length = 84 := by
  obtain ⟨hready, hfd, hg, hblm, -⟩ := sample_init_state
  have hr : sample_init.2.1.ready ≠ 0 := by rw [hready]; decide
  have h1 := save_append sample_init.2.1 sample_init.2.2 ⟨"t1.blm", true⟩ [] hr hfd rfl hblm
  rw [List.nil_append] at h1
  have h2 := save_append sample_init.2.1 _ ⟨"t1.blm", true⟩ _ hr hfd rfl
    (FS.put_get sample_init.2.2 "t1.blm" (metadata_record sample_init.2.1))
  have h3 := free_append sample_init.2.1 _ ⟨"t1.blm", true⟩ ⟨"t1.dat", true⟩ _ hr hfd hg rfl
    (FS.put_get sample_init.2.2 "t1.blm" (metadata_record sample_init.2.1))
  exact ⟨sample_init_eq, _, _, _, h1, FS.put_get _ _ _, h2, FS.put_get _ _ _, h3,
    FS.put_get _ _ _, by rw [List.length_append, metadata_record_length]⟩

/-! ## Sizing at extreme errors -/

theorem init_new_file_sizing (env : Env) (fs : FS) (bloom : bloomdisk) :
    (init_new_file env fs bloom).2.1.bits = bloom.bits
    ∧ (init_new_file env fs bloom).2.1.bytes = bloom.bytes
    ∧ (init_new_file env fs bloom).2.1.hashes = bloom.hashes
    ∧ (init_new_file env fs bloom).2.1.name = bloom.name
    ∧ (init_new_file env fs bloom).2.1.filename_struct = bloom.filename_struct
    ∧ (init_new_file env fs bloom).2.1.filename_data = bloom.filename_data := by
  unfold init_new_file
  simp only
  split
  · exact ⟨rfl, rfl, rfl, rfl, rfl, rfl⟩
  · exact ⟨rfl, rfl, rfl, rfl, rfl, rfl⟩
  · split_ifs <;> exact ⟨rfl, rfl, rfl, rfl, rfl, rfl⟩

theorem init_existing_sizing (env : Env) (fs : FS) (bloom : bloomdisk) (fd : FILE) :
    (init_existing env fs bloom fd).2.1.bits = bloom.bits
    ∧ (init_existing env fs bloom fd).2.1.bytes = bloom.bytes
    ∧ (init_existing env fs bloom fd).2.1.hashes = bloom.hashes
    ∧ (init_existing env fs bloom fd).2.1.name = bloom.name
    ∧ (init_existing env fs bloom fd).2.1.filename_struct = bloom.filename_struct
    ∧ (init_existing env fs bloom fd).2.1.filename_data = bloom.filename_data := by
  unfold init_existing
  simp only
  split
  · exact ⟨rfl, rfl, rfl, rfl, rfl, rfl⟩
  · split_ifs <;> exact ⟨rfl, rfl, rfl, rfl, rfl, rfl⟩

/-- Every call of `bloomdisk_init` that passes the validation leaves the sized fields and the
three names of the sizing block in the handle, whatever it returns. -/
theorem init_accepted_sizing (env : Env) (fp : FloatOps) (fs : FS) (entries : Nat)
    (error : LongDouble) (base : String) (h : params_rejected entries error = false) :
    (bloomdisk_init env fp fs entries error base).2.1.bits
        = (init_sizing fp entries error base).bits
    ∧ (bloomdisk_init env fp fs entries error base).2.1.bytes
        = (init_sizing fp entries error base).bytes
    ∧ (bloomdisk_init env fp fs entries error base).2.1.hashes
        = (init_sizing fp entries error base).hashes
    ∧ (bloomdisk_init env fp fs entries error base).2.1.name = snprintf69 base
    ∧ (bloomdisk_init env fp fs entries error base).2.1.filename_struct
        = snprintf69 (base ++ ".blm")
    ∧ (bloomdisk_init env fp fs entries error base).2.1.filename_data
        = snprintf69 (base ++ ".dat") := by
  unfold bloomdisk_init
  simp only [h, Bool.false_eq_true, if_false]
  split
  · exact init_new_file_sizing env fs _
  · exact init_existing_sizing env fs _ _

theorem tiny_sizing :
    fp_edge.to_bits 1000 (fp_edge.bpe (.fin (1 / 10 ^ 100))) = 479252
    ∧ fp_edge.to_hashes (fp_edge.bpe (.fin (1 / 10 ^ 100))) = 333 := by
  constructor
  · simp only [fp_edge, fp_exact, log_edge, if_true]
    norm_num
    rfl
  · have hc : ⌈(0.693147180559945 : ℚ) * (-(-230.258509299404568) / 0.480453013918201)⌉
        = 333 := by
      rw [Int.ceil_eq_iff]
      constructor <;> norm_num
    simp only [fp_edge, fp_exact, log_edge, if_true]
    rw [hc]
    rfl

theorem tiny_accepted : params_rejected 1000 (.fin (1 / 10 ^ 100)) = false := by
  simp only [params_rejected, LongDouble.le_zero, LongDouble.ge_one]
  norm_num

/-- C12 (evaluation at the failing input): `bloomdisk_init(&bloom, 1000, 1e-100, "t1")` is
accepted and returns 1; the number of hashes `k = ceil(bpe * ln 2)` is 333, which does not fit
in the 8-bit field, and the handle holds `hashes = 77`. -/
theorem tiny_error_truncates_hash_count :
    params_rejected 1000 (.fin (1 / 10 ^ 100)) = false
    ∧ fp_edge.to_hashes (fp_edge.bpe (.fin (1 / 10 ^ 100))) = 333
    ∧ tiny_init.1 = 1
    ∧ tiny_init.2.1.ready = 1
    ∧ tiny_init.2.1.hashes = 77 := by
  have h1 : tiny_init.1 = 1 :=
    init_fresh_returns_one env_ok fp_edge fs_empty 1000 (.fin (1 / 10 ^ 100)) "t1"
      tiny_accepted rfl (fun _ => rfl) rfl (fun _ => rfl)
  have heq : tiny_init = (1, tiny_init.2.1, tiny_init.2.2) := Prod.ext h1 rfl
  obtain ⟨hready, -⟩ :=
    init_fresh_probeable env_ok fp_edge fs_empty 1000 (.fin (1 / 10 ^ 100)) "t1" _ _ heq
  refine ⟨tiny_accepted, tiny_sizing.2, h1, hready, ?_⟩
  have hs := (init_accepted_sizing env_ok fp_edge fs_empty 1000 (.fin (1 / 10 ^ 100)) "t1"
    tiny_accepted).2.2.1
  show (bloomdisk_init env_ok fp_edge fs_empty 1000 (.fin (1 / 10 ^ 100)) "t1").2.1.hashes = 77
  rw [hs]
  show fp_edge.to_hashes (fp_edge.bpe (.fin (1 / 10 ^ 100))) % 256 = 77
  rw [tiny_sizing.2]

/-- In exact arithmetic the hash count of an error with `-176 <= log error < 0` is between 1
and 255, so the 8-bit field holds it unchanged. -/
theorem hash_count_in_range (log : ℚ → ℚ) (q : ℚ) (hneg : log q < 0) (hlow : -176 ≤ log q) :
    1 ≤ (fp_exact log).to_hashes ((fp_exact log).bpe (.fin q))
    ∧ (fp_exact log).to_hashes ((fp_exact log).bpe (.fin q)) ≤ 255
    ∧ (fp_exact log).to_hashes ((fp_exact log).bpe (.fin q)) % 256
        = (fp_exact log).to_hashes ((fp_exact log).bpe (.fin q)) := by
  simp only [fp_exact]
  have h1 : (1 : Int) ≤ ⌈(0.693147180559945 : ℚ) * (-(log q) / 0.480453013918201)⌉ := by
    rw [Int.one_le_ceil_iff]
    have : 0 < -(log q) / 0.480453013918201 := div_pos (by linarith) (by norm_num)
    exact mul_pos (by norm_num) this
  have h2 : ⌈(0.693147180559945 : ℚ) * (-(log q) / 0.480453013918201)⌉ ≤ 255 := by
    rw [Int.ceil_le]
    have hb : -(log q) / 0.480453013918201 ≤ 176 / 0.480453013918201 :=
      div_le_div_of_nonneg_right (by linarith) (by norm_num)
    calc (0.693147180559945 : ℚ) * (-(log q) / 0.480453013918201)
        ≤ 0.693147180559945 * (176 / 0.480453013918201) :=
          mul_le_mul_of_nonneg_left hb (by norm_num)
      _ ≤ ((255 : Int) : ℚ) := by norm_num
  omega

theorem near_one_sizing :
    fp_edge.to_bits 1000 (fp_edge.bpe (.fin (9999999 / 10000000))) = 0
    ∧ fp_edge.to_hashes (fp_edge.bpe (.fin (9999999 / 10000000))) = 1 := by
  have hx : ((9999999 : ℚ) / 10000000 = 1 / 10 ^ 100) = False := by norm_num
  constructor
  · simp only [fp_edge, fp_exact, log_edge, hx, if_false, if_true]
    norm_num
  · have hc : ⌈(0.693147180559945 : ℚ) * (-(-0.000000100000005) / 0.480453013918201)⌉
        = 1 := by
      rw [Int.ceil_eq_iff]
      constructor <;> norm_num
    simp only [fp_edge, fp_exact, log_edge, hx, if_false, if_true]
    rw [hc]
    rfl

theorem near_one_accepted : params_rejected 1000 (.fin (9999999 / 10000000)) = false := by
  simp only [params_rejected, LongDouble.le_zero, LongDouble.ge_one]
  norm_num

/-- C20 (evaluation at the failing input): `bloomdisk_init(&bloom, 1000, 0.9999999, "t1")` is
accepted and returns 1 with `bits = 0`, `bytes = 0` and `hashes = 1`; on that ready handle
`bloomdisk_check` and `bloomdisk_add` compute `(a + b*i) % bloom->bits` with `bits = 0`, for
every hash function and every buffer. -/
theorem error_near_one_gives_zero_bits (XXH64 : List Nat → Nat → Nat) (buffer : List Nat) :
    params_rejected 1000 (.fin (9999999 / 10000000)) = false
    ∧ near_one_init.1 = 1
    ∧ near_one_init.2.1.ready = 1
    ∧ near_one_init.2.1.bits = 0
    ∧ near_one_init.2.1.bytes = 0
    ∧ near_one_init.2.1.hashes = 1
    ∧ bloomdisk_check XXH64 near_one_init.2.1 near_one_init.2.2 buffer
        = .error .division_by_zero
    ∧ bloomdisk_add XXH64 near_one_init.2.1 near_one_init.2.2 buffer
        = .error .division_by_zero := by
  have h1 : near_one_init.1 = 1 :=
    init_fresh_returns_one env_ok fp_edge fs_empty 1000 (.fin (9999999 / 10000000)) "t1"
      near_one_accepted rfl (fun _ => rfl) rfl (fun _ => rfl)
  have heq : near_one_init = (1, near_one_init.2.1, near_one_init.2.2) := Prod.ext h1 rfl
  obtain ⟨hready, -, -, -, -, hbytes⟩ :=
    init_fresh_probeable env_ok fp_edge fs_empty 1000 (.fin (9999999 / 10000000)) "t1" _ _ heq
  obtain ⟨hb, -, hk, -⟩ := init_accepted_sizing env_ok fp_edge fs_empty 1000
    (.fin (9999999 / 10000000)) "t1" near_one_accepted
  have hbits : near_one_init.2.1.bits = 0 := by
    show (bloomdisk_init env_ok fp_edge fs_empty 1000
      (.fin (9999999 / 10000000)) "t1").2.1.bits = 0
    rw [hb]
    show fp_edge.to_bits 1000 (fp_edge.bpe (.fin (9999999 / 10000000))) % U64 = 0
    rw [near_one_sizing.1]
    rfl
  have hhashes : near_one_init.2.1.hashes = 1 := by
    show (bloomdisk_init env_ok fp_edge fs_empty 1000
      (.fin (9999999 / 10000000)) "t1").2.1.hashes = 1
    rw [hk]
    show fp_edge.to_hashes (fp_edge.bpe (.fin (9999999 / 10000000))) % 256 = 1
    rw [near_one_sizing.2]
  have hloop : ∀ add, bloomdisk_check_add XXH64 near_one_init.2.1 near_one_init.2.2 buffer add
      = .error .division_by_zero := by
    intro add
    rw [check_add_ready XXH64 _ _ buffer add (by rw [hready]; decide), hhashes,
      check_add_loop]
    simp only [hbits, if_true]
  refine ⟨near_one_accepted, h1, hready, hbits, by rw [hbytes, hbits], hhashes, ?_, ?_⟩
  · simp only [bloomdisk_check, hloop]
  · simp only [bloomdisk_add, hloop]

/-! ## The handle after a failed initialisation -/

theorem init_new_file_ready (env : Env) (fs : FS) (bloom : bloomdisk)
    (h : (init_new_file env fs bloom).1 = 0) :
    (init_new_file env fs bloom).2.1.ready = bloom.ready := by
  unfold init_new_file at h ⊢
  simp only at h ⊢
  split
  · rfl
  · rfl
  · rename_i h1 h2
    simp only [h1, h2] at h
    split_ifs at h ⊢ with hm hz
    · rfl
    · simp at h
    · rfl

theorem init_existing_ready (env : Env) (fs : FS) (bloom : bloomdisk) (fd : FILE)
    (h : (init_existing env fs bloom fd).1 = 0) :
    (init_existing env fs bloom fd).2.1.ready = bloom.ready := by
  unfold init_existing at h ⊢
  simp only at h ⊢
  split
  · rfl
  · rename_i h1
    simp only [h1] at h
    split_ifs at h ⊢
    · rfl
    · rfl
    · simp at h

/-- After a call of `bloomdisk_init` that returns 0 the handle is not ready. -/
theorem init_failed_ready (env : Env) (fp : FloatOps) (fs : FS) (entries : Nat)
    (error : LongDouble) (base : String)
    (h : (bloomdisk_init env fp fs entries error base).1 = 0) :
    (bloomdisk_init env fp fs entries error base).2.1.ready = 0 := by
  unfold bloomdisk_init at h ⊢
  split_ifs at h ⊢ with hrej
  · rfl
  · simp only at h ⊢
    cases ho : (fopen env fs (init_sizing fp entries error base).filename_struct .r_plus).1 with
    | none =>
      rw [ho] at h
      simp only at h ⊢
      rw [init_new_file_ready env fs _ h]
      rfl
    | some fd =>
      rw [ho] at h
      simp only at h ⊢
      rw [init_existing_ready env fs _ fd h]
      rfl

theorem sample_sizing_wider :
    fp_sample.to_bits 1000 (fp_sample.bpe (.fin (1 / 10000))) = 19170
    ∧ fp_sample.to_hashes (fp_sample.bpe (.fin (1 / 10000))) = 14 := by
  have hx : ((1 : ℚ) / 10000 = 1 / 1000000) = False := by norm_num
  have hy : ((1 : ℚ) / 10000 = 100001 / 100000000000) = False := by norm_num
  constructor
  · simp only [fp_sample, fp_exact, log_sample, hx, hy, if_false, if_true]
    norm_num
    rfl
  · have hc : ⌈(0.693147180559945 : ℚ) * (-(-9.210340371976182) / 0.480453013918201)⌉ = 14 := by
      rw [Int.ceil_eq_iff]
      constructor <;> norm_num
    simp only [fp_sample, fp_exact, log_sample, hx, hy, if_false, if_true]
    rw [hc]
    rfl

theorem sample_wider_accepted : params_rejected 1000 (.fin (1 / 10000)) = false := by
  simp only [params_rejected, LongDouble.le_zero, LongDouble.ge_one]
  norm_num

/-- Opening the existing filter `t1` (created for error `0.000001`) with error `0.0001`: the
call returns 0 and the handle holds the new sizing, the stored counters and both streams. -/
theorem sample_mismatch :
    bloomdisk_init env_ok fp_sample sample_fs 1000 (.fin (1 / 10000)) "t1"
      = (0, { init_sizing fp_sample 1000 (.fin (1 / 10000)) "t1" with
              fd_struct := some ⟨snprintf69 ("t1" ++ ".blm"), false⟩,
              fd_data := some ⟨snprintf69 ("t1" ++ ".dat"), false⟩,
              current_entries := sample_bloom.current_entries,
              collisions := sample_bloom.collisions }, sample_fs) := by
  have hre := init_reopen_spec env_ok fp_sample sample_fs 1000 (.fin (1 / 10000))
    "t1" sample_bloom [] (List.replicate 3595 0) sample_wider_accepted rfl rfl sample_fs_blm
    sample_fs_data (by decide) (by decide) (by decide) (by decide) (by decide)
  have hdiff : sample_bloom.entries
        ≠ (init_sizing fp_sample 1000 (.fin (1 / 10000)) "t1").entries
      ∨ sample_bloom.bits
        ≠ (init_sizing fp_sample 1000 (.fin (1 / 10000)) "t1").bits
      ∨ sample_bloom.bytes
        ≠ (init_sizing fp_sample 1000 (.fin (1 / 10000)) "t1").bytes
      ∨ sample_bloom.hashes % 256
        ≠ (init_sizing fp_sample 1000 (.fin (1 / 10000)) "t1").hashes := by
    refine Or.inr (Or.inl ?_)
    simp only [init_sizing, sample_sizing_wider.1]
    decide
  rw [if_pos hdiff] at hre
  exact hre

/-- C13 (counterexample): `bloomdisk_init(&bloom, 1000, 0.0001, "t1")` on the existing filter
`t1`, created for error `0.000001`, returns 0 and leaves `ready = 0`, but the handle is not
all-zero: `entries` is 1000, `bits` is 19170 and both streams are open. -/
theorem failed_reinit_leaves_sized_handle :
    (bloomdisk_init env_ok fp_sample sample_fs 1000 (.fin (1 / 10000)) "t1").1 = 0
    ∧ (bloomdisk_init env_ok fp_sample sample_fs 1000 (.fin (1 / 10000)) "t1").2.1.ready = 0
    ∧ (bloomdisk_init env_ok fp_sample sample_fs 1000 (.fin (1 / 10000)) "t1").2.1.entries
        = 1000
    ∧ (bloomdisk_init env_ok fp_sample sample_fs 1000 (.fin (1 / 10000)) "t1").2.1.bits
        = 19170
    ∧ (bloomdisk_init env_ok fp_sample sample_fs 1000 (.fin (1 / 10000)) "t1").2.1.fd_struct
        = some ⟨"t1.blm", false⟩
    ∧ (bloomdisk_init env_ok fp_sample sample_fs 1000 (.fin (1 / 10000)) "t1").2.1.fd_data
        = some ⟨"t1.dat", false⟩ := by
  rw [sample_mismatch]
  refine ⟨rfl, rfl, rfl, ?_, by decide, by decide⟩
  show fp_sample.to_bits 1000 (fp_sample.bpe (.fin (1 / 10000))) % U64 = 19170
  rw [sample_sizing_wider.1]
  decide

theorem init_new_file_failed (env : Env) (fs : FS) (bloom : bloomdisk)
    (h : (init_new_file env fs bloom).1 = 0) :
    (init_new_file env fs bloom).2.1
      = { bloom with
          fd_struct := (fopen env fs bloom.filename_struct .a_plus).1,
          fd_data := (fopen env (fopen env fs bloom.filename_struct .a_plus).2
            bloom.filename_data .a_plus).1 } := by
  unfold init_new_file at h ⊢
  simp only at h ⊢
  split
  · rfl
  · rfl
  · rename_i h1 h2
    simp only [h1, h2] at h
    split_ifs at h ⊢ with hm hz
    · rfl
    · simp at h
    · rfl

theorem init_existing_failed (env : Env) (fs : FS) (bloom : bloomdisk) (fd : FILE)
    (h : (init_existing env fs bloom fd).1 = 0) :
    (init_existing env fs bloom fd).2.2 = fs
    ∧ ((fopen env fs bloom.filename_data .r_plus).1 = none →
        (init_existing env fs bloom fd).2.1
          = { bloom with fd_struct := some fd, fd_data := none })
    ∧ ((fopen env fs bloom.filename_data .r_plus).1 ≠ none →
        (init_existing env fs bloom fd).2.1
          = { bloom with
              fd_struct := some fd,
              fd_data := (fopen env fs bloom.filename_data .r_plus).1,
              current_entries := (read_metadata ((fs fd.path).getD [])).2.2.2.1,
              collisions := (read_metadata ((fs fd.path).getD [])).2.2.2.2.1 }) := by
  unfold init_existing at h ⊢
  simp only at h ⊢
  split
  · rename_i h1
    exact ⟨rfl, fun _ => by rw [h1], fun hne => absurd h1 hne⟩
  · rename_i g h1
    simp only [h1] at h
    split_ifs at h ⊢
    · exact ⟨rfl, fun hn => absurd (h1.symm.trans hn) (by simp), fun _ => by rw [h1]⟩
    · exact ⟨rfl, fun hn => absurd (h1.symm.trans hn) (by simp), fun _ => by rw [h1]⟩
    · simp at h

/-- C13 (as amended): after every call of `bloomdisk_init` that returns 0 the handle has
`ready = 0`. After a parameter rejection every field of the handle is clear and no file has
changed. After any other failure the handle holds the values of the sizing block (`entries`,
`error`, `bpe`, `bits`, `bytes`, `hashes`, the three names, the version), `fd_struct` and
`fd_data` hold what the `fopen` calls returned (a stream that was opened is not closed), and
`current_entries` and `collisions` are 0, or, when the metadata file was read, the values
read from it; on the path of an existing metadata file no file has changed. -/
theorem failed_init_keeps_sizing_and_streams (env : Env) (fp : FloatOps) (fs : FS)
    (entries : Nat) (error : LongDouble) (base : String)
    (hfail : (bloomdisk_init env fp fs entries error base).1 = 0) :
    (bloomdisk_init env fp fs entries error base).2.1.ready = 0
    ∧ (params_rejected entries error = true →
        (bloomdisk_init env fp fs entries error base).2.1 = bloomdisk.zero
        ∧ (bloomdisk_init env fp fs entries error base).2.2 = fs)
    ∧ (params_rejected entries error = false →
        ∃ s d ce co,
          (bloomdisk_init env fp fs entries error base).2.1
            = { init_sizing fp entries error base with
                fd_struct := s, fd_data := d, current_entries := ce, collisions := co }
          ∧ ((fopen env fs (snprintf69 (base ++ ".blm")) .r_plus).1 = none →
              s = (fopen env fs (snprintf69 (base ++ ".blm")) .a_plus).1
              ∧ d = (fopen env (fopen env fs (snprintf69 (base ++ ".blm")) .a_plus).2
                  (snprintf69 (base ++ ".dat")) .a_plus).1
              ∧ ce = 0 ∧ co = 0)
          ∧ (∀ g, (fopen env fs (snprintf69 (base ++ ".blm")) .r_plus).1 = some g →
              s = some g
              ∧ d = (fopen env fs (snprintf69 (base ++ ".dat")) .r_plus).1
              ∧ (bloomdisk_init env fp fs entries error base).2.2 = fs
              ∧ (d = none → ce = 0 ∧ co = 0)
              ∧ (d ≠ none →
                  ce = (read_metadata ((fs g.path).getD [])).2.2.2.1
                  ∧ co = (read_metadata ((fs g.path).getD [])).2.2.2.2.1))) := by
  refine ⟨init_failed_ready env fp fs entries error base hfail, fun hrej => ?_, fun hacc => ?_⟩
  · rw [init_rejected env fp fs entries error base hrej]
    exact ⟨rfl, rfl⟩
  · have hs : (init_sizing fp entries error base).filename_struct
        = snprintf69 (base ++ ".blm") := rfl
    have hd : (init_sizing fp entries error base).filename_data
        = snprintf69 (base ++ ".dat") := rfl
    unfold bloomdisk_init at hfail ⊢
    simp only [hacc, Bool.false_eq_true, if_false, hs] at hfail ⊢
    cases ho : (fopen env fs (snprintf69 (base ++ ".blm")) .r_plus).1 with
    | none =>
      rw [ho] at hfail
      simp only at hfail ⊢
      have hn := init_new_file_failed env fs _ hfail
      rw [hs, hd] at hn
      exact ⟨_, _, 0, 0, hn, fun _ => ⟨rfl, rfl, rfl, rfl⟩, fun g hg => by cases hg⟩
    | some g =>
      rw [ho] at hfail
      simp only at hfail ⊢
      obtain ⟨hfs, hnone, hsome⟩ := init_existing_failed env fs _ g hfail
      rw [hd] at hnone hsome
      by_cases hdat : (fopen env fs (snprintf69 (base ++ ".dat")) .r_plus).1 = none
      · refine ⟨some g, (fopen env fs (snprintf69 (base ++ ".dat")) .r_plus).1, 0, 0, ?_,
          fun hn => absurd hn (by simp), fun g1 hg1 => ?_⟩
        · rw [hnone hdat, hdat]
          rfl
        · cases hg1
          exact ⟨rfl, rfl, hfs, fun _ => ⟨rfl, rfl⟩, fun hne => absurd hdat hne⟩
      · refine ⟨some g, (fopen env fs (snprintf69 (base ++ ".dat")) .r_plus).1, _, _,
          hsome hdat, fun hn => absurd hn (by simp), fun g1 hg1 => ?_⟩
        cases hg1
        exact ⟨rfl, rfl, hfs, fun hn => absurd hn hdat, fun _ => ⟨rfl, rfl⟩⟩

/-- Witness of C13 (as amended): the mismatching call on the existing filter `t1`. -/
theorem failed_init_keeps_sizing_and_streams_witness :
    (bloomdisk_init env_ok fp_sample sample_fs 1000 (.fin (1 / 10000)) "t1").1 = 0
    ∧ params_rejected 1000 (.fin (1 / 10000)) = false
    ∧ (bloomdisk_init env_ok fp_sample sample_fs 1000 (.fin (1 / 10000)) "t1").2.1.ready = 0
    ∧ ∃ s d ce co,
        (bloomdisk_init env_ok fp_sample sample_fs 1000 (.fin (1 / 10000)) "t1").2.1
          = { init_sizing fp_sample 1000 (.fin (1 / 10000)) "t1" with
              fd_struct := s, fd_data := d, current_entries := ce, collisions := co } :=
  ⟨by rw [sample_mismatch], sample_wider_accepted,
   (failed_init_keeps_sizing_and_streams env_ok fp_sample sample_fs 1000 (.fin (1 / 10000))
     "t1" (by rw [sample_mismatch])).1,
   ((failed_init_keeps_sizing_and_streams env_ok fp_sample sample_fs 1000 (.fin (1 / 10000))
     "t1" (by rw [sample_mismatch])).2.2 sample_wider_accepted).imp
     (fun _ hs => hs.imp (fun _ hd => hd.imp (fun _ hce => hce.imp (fun _ h => h.1))))⟩

/-! ## The counter of add calls -/

theorem add_result_handle (XXH64 : List Nat → Nat → Nat) (bloom b1 : bloomdisk) (fs fs1 : FS)
    (buffer : List Nat) (r : Int)
    (h : bloomdisk_add XXH64 bloom fs buffer = .ok (r, b1, fs1)) :
    b1 = { bloom with
           current_entries := (bloom.current_entries + 1) % U64,
           collisions := if r = 1 then (bloom.collisions + 1) % U64 else bloom.collisions } := by
  unfold bloomdisk_add at h
  split at h
  · simp at h
  · simp only [Except.ok.injEq, Prod.mk.injEq] at h
    obtain ⟨hr, hb, -⟩ := h
    rw [← hb, ← hr]

theorem add_not_ready (XXH64 : List Nat → Nat → Nat) (bloom : bloomdisk) (fs : FS)
    (buffer : List Nat) (hready : bloom.ready = 0) :
    bloomdisk_add XXH64 bloom fs buffer
      = .ok (-1, { bloom with current_entries := (bloom.current_entries + 1) % U64 }, fs) := by
  have h := add_of_check_add XXH64 bloom fs fs buffer (-1)
    (by simp only [bloomdisk_check_add, hready, if_true])
  rw [h]
  rfl

theorem run_adds_current_entries (XXH64 : List Nat → Nat → Nat) (bufs : List (List Nat)) :
    ∀ (bloom b2 : bloomdisk) (fs fs2 : FS) (rs : List Int),
      run_adds XXH64 bloom fs bufs = .ok (rs, b2, fs2) →
      b2.current_entries % U64 = (bloom.current_entries + bufs.length) % U64 := by
  induction bufs with
  | nil =>
    intro bloom b2 fs fs2 rs h
    simp only [run_adds, Except.ok.injEq, Prod.mk.injEq] at h
    rw [← h.2.1]
    rfl
  | cons buffer rest ih =>
    intro bloom b2 fs fs2 rs h
    rw [run_adds] at h
    split at h
    · simp at h
    · rename_i r b1 fs1 hadd
      split at h
      · simp at h
      · rename_i rs1 b3 fs3 hrun
        simp only [Except.ok.injEq, Prod.mk.injEq] at h
        rw [← h.2.1, ih b1 b3 fs1 fs3 rs1 hrun, add_result_handle XXH64 bloom b1 fs fs1 buffer r hadd]
        simp only [List.length_cons, U64]
        omega

/-- C14 (evaluation at the failing input): `bloomdisk_add` on the zeroed handle, which is not
ready, returns -1 and nevertheless counts the call: it leaves `current_entries = 1`, not 0. -/
theorem add_on_zero_handle_counts :
    bloomdisk.zero.ready = 0 ∧ bloomdisk.zero.current_entries = 0
    ∧ bloomdisk_add sample_hash bloomdisk.zero fs_empty [1, 2, 3]
        = .ok (-1, { bloomdisk.zero with current_entries := 1 }, fs_empty) := by
  refine ⟨rfl, rfl, ?_⟩
  rw [add_not_ready sample_hash bloomdisk.zero fs_empty [1, 2, 3] rfl]
  rfl

/-! ## check writes nothing -/

theorem test_bit_read_only (fs fs1 : FS) (fd : Option FILE) (x : Nat) (r : Int)
    (h : bloomdisk_test_bit_set_bit fs fd x 0 = .ok (r, fs1)) : fs1 = fs := by
  unfold bloomdisk_test_bit_set_bit at h
  split at h
  · simp at h
  · simp only at h
    split at h
    · simp at h
    · split at h
      · simp at h
      · split_ifs at h <;> simp_all

theorem check_loop_read_only (bloom : bloomdisk) (a b : Nat) (n : Nat) :
    ∀ i hits fs fs1 r, check_add_loop bloom a b 0 n i hits fs = .ok (r, fs1) → fs1 = fs := by
  induction n with
  | zero =>
    intro i hits fs fs1 r h
    simp only [check_add_loop, Except.ok.injEq, Prod.mk.injEq] at h
    exact h.2.symm
  | succ n ih =>
    intro i hits fs fs1 r h
    rw [check_add_loop] at h
    by_cases hb : bloom.bits = 0
    · simp [hb] at h
    · simp only [hb, if_false] at h
      split at h
      · simp at h
      · rename_i r0 fs0 heng
        have h0 := test_bit_read_only fs fs0 _ _ r0 heng
        subst h0
        by_cases hr : r0 ≠ 0
        · rw [if_pos hr] at h
          exact ih _ _ _ _ _ h
        · rw [if_neg hr] at h
          simp only [if_true, Except.ok.injEq, Prod.mk.injEq] at h
          exact h.2.symm

theorem check_read_only (XXH64 : List Nat → Nat → Nat) (bloom b1 : bloomdisk) (fs fs1 : FS)
    (buffer : List Nat) (r : Int)
    (h : bloomdisk_check XXH64 bloom fs buffer = .ok (r, b1, fs1)) :
    b1 = bloom ∧ fs1 = fs := by
  refine ⟨check_keeps_handle XXH64 bloom b1 fs fs1 buffer r h, ?_⟩
  unfold bloomdisk_check at h
  split at h
  · simp at h
  · rename_i r0 fs0 hca
    simp only [Except.ok.injEq, Prod.mk.injEq] at h
    rw [← h.2.2]
    unfold bloomdisk_check_add at hca
    split_ifs at hca
    · simp only [Except.ok.injEq, Prod.mk.injEq] at hca
      exact hca.2.symm
    · exact check_loop_read_only bloom _ _ _ _ _ _ _ _ hca

/-- C16: `bloomdisk_check` is read-only. Whenever it returns, the handle and every file
(data file, metadata file) are as before; it returns -1 on a handle that is not ready, and it
returns 0 or 1 on a ready handle whose data file covers the bit range. -/
theorem check_is_read_only (XXH64 : List Nat → Nat → Nat) (bloom : bloomdisk) (fs : FS)
    (buffer : List Nat) :
    (∀ r b1 fs1, bloomdisk_check XXH64 bloom fs buffer = .ok (r, b1, fs1) →
      b1 = bloom ∧ fs1 = fs)
    ∧ (bloom.ready = 0 → bloomdisk_check XXH64 bloom fs buffer = .ok (-1, bloom, fs))
    ∧ (∀ f data, bloom.ready ≠ 0 → bloom.bits ≠ 0 → bloom.fd_data = some f →
        fs f.path = some data → (bloom.bits + 7) / 8 ≤ data.length →
        ∃ r, (r = 0 ∨ r = 1) ∧ bloomdisk_check XXH64 bloom fs buffer = .ok (r, bloom, fs)) := by
  refine ⟨fun r b1 fs1 h => check_read_only XXH64 bloom b1 fs fs1 buffer r h, ?_, ?_⟩
  · intro hready
    simp [bloomdisk_check, bloomdisk_check_add, hready]
  · intro f data hready hbits hfd hfile hlen
    refine ⟨_, ?_, check_spec XXH64 bloom fs f data buffer hready hbits hfd hfile hlen⟩
    split
    · exact Or.inr rfl
    · exact Or.inl rfl

/-- Witness of C16: a check on the reopened filter `t1` and a check on the zeroed handle. -/
theorem check_is_read_only_witness :
    (bloomdisk.zero.ready = 0
      ∧ bloomdisk_check sample_hash bloomdisk.zero sample_fs [1, 2, 3]
          = .ok (-1, bloomdisk.zero, sample_fs))
    ∧ (sample_bloom.ready ≠ 0 ∧ sample_bloom.bits ≠ 0
      ∧ sample_bloom.fd_data = some ⟨"t1.dat", false⟩
      ∧ sample_fs "t1.dat" = some (List.replicate 3595 0)
      ∧ (sample_bloom.bits + 7) / 8 ≤ (List.replicate 3595 0).length
      ∧ ∃ r, (r = 0 ∨ r = 1)
          ∧ bloomdisk_check sample_hash sample_bloom sample_fs [1, 2, 3]
              = .ok (r, sample_bloom, sample_fs)) :=
  ⟨⟨rfl, (check_is_read_only sample_hash bloomdisk.zero sample_fs [1, 2, 3]).2.1 rfl⟩,
   by decide, by decide, rfl, sample_fs_data, sample_bloom_covered,
   (check_is_read_only sample_hash sample_bloom sample_fs [1, 2, 3]).2.2
     ⟨"t1.dat", false⟩ (List.replicate 3595 0) (by decide) (by decide) rfl sample_fs_data
     sample_bloom_covered⟩

/-! ## Bits the engine finds set after an add -/

theorem engine_bit_in_file (data : List Nat) (y : Nat) (h : engine_bit data y = true) :
    byte_of_bit y < data.length := by
  by_contra hlt
  have hnone : data[byte_of_bit y]? = none := List.getElem?_eq_none (by omega)
  have : engine_bit data y = false := by
    simp [engine_bit, List.getD_eq_getElem?_getD, hnone]
  rw [this] at h
  exact absurd h (by decide)

theorem engine_bit_congr (data d1 : List Nat) (y : Nat)
    (h : d1[byte_of_bit y]? = data[byte_of_bit y]?) : engine_bit d1 y = engine_bit data y := by
  simp only [engine_bit, List.getD_eq_getElem?_getD, h]

/-- One add on a ready handle, in either stream mode: it completes, every bit that the engine
found set before is still found set, and a bit of the file as it was before the call is found
set afterwards only if it was set before or is the bit of a probed position. -/
theorem add_bits (XXH64 : List Nat → Nat → Nat) (bloom : bloomdisk) (fs : FS) (f : FILE)
    (data buffer : List Nat) (hready : bloom.ready ≠ 0) (hbits : bloom.bits ≠ 0)
    (hfd : bloom.fd_data = some f) (hfile : fs f.path = some data)
    (hlen : (bloom.bits + 7) / 8 ≤ data.length) :
    ∃ r b1 fs1 d1, bloomdisk_add XXH64 bloom fs buffer = .ok (r, b1, fs1)
      ∧ fs1 f.path = some d1
      ∧ (∀ y, engine_bit data y = true → engine_bit d1 y = true)
      ∧ (∀ y, byte_of_bit y < data.length → engine_bit d1 y = true →
          engine_bit data y = true
            ∨ ∃ x, x ∈ probes XXH64 bloom buffer ∧ engine_same_bit x y = true) := by
  by_cases happ : f.append = true
  · obtain ⟨fs1, hres, hg⟩ :=
      check_add_one_spec XXH64 bloom fs f data buffer hready hbits hfd hfile hlen
    obtain ⟨d1, hd1, -, hk1⟩ := hg.2 data hfile
    refine ⟨_, _, fs1, d1, add_of_check_add XXH64 bloom fs fs1 buffer _ hres, hd1, ?_, ?_⟩
    · intro y hy
      rw [engine_bit_congr data d1 y (hk1 happ _ (engine_bit_in_file data y hy))]
      exact hy
    · intro y hin hy
      rw [engine_bit_congr data d1 y (hk1 happ _ hin)] at hy
      exact Or.inl hy
  · obtain ⟨r, fs1, d1, hadd, hd1, -, -, hset⟩ :=
      add_in_place XXH64 bloom fs f data buffer hready hbits hfd
        (Bool.not_eq_true _ |>.mp happ) hfile hlen
    exact ⟨r, _, fs1, d1, hadd, hd1, fun y hy => (hset y).mpr (Or.inl hy),
      fun y _ hy => (hset y).mp hy⟩

theorem fwrite_other_file (fs : FS) (f : FILE) (pos : Nat) (bs : List Nat) (p : String)
    (hp : p ≠ f.path) : (fwrite fs f pos bs).1 p = fs p := by
  unfold fwrite
  split
  · rfl
  · split_ifs <;> exact FS.put_get_ne _ _ _ _ hp

/-- The writes of a save touch the file of the metadata stream only. -/
theorem write_metadata_other_file (bloom : bloomdisk) (fd : FILE) (fs : FS) (p : String)
    (hp : p ≠ fd.path) : (write_metadata bloom fd fs) p = fs p := by
  unfold write_metadata
  simp only [fwrite_other_file _ fd _ _ p hp]

/-! ## Length of the data file -/

/-- The loop of an add on an append-mode stream whose file starts with `ceil(bits / 8)` zero
bytes: every probe finds its bit clear and appends one byte, so the file grows by one byte
per probe and the result is 0 when there is at least one probe. -/
theorem add_loop_appends (bloom : bloomdisk) (a b : Nat) (f : FILE)
    (hbits : bloom.bits ≠ 0) (hfd : bloom.fd_data = some f) (happ : f.append = true)
    (n : Nat) :
    ∀ i hits fs data, fs f.path = some data → (bloom.bits + 7) / 8 ≤ data.length →
      (∀ k, k < (bloom.bits + 7) / 8 → data[k]? = some 0) →
      ∃ fs1 d1, check_add_loop bloom a b 1 n i hits fs
          = .ok (if hits = bloom.hashes then 1 else 0, fs1)
        ∧ fs1 f.path = some d1 ∧ d1.length = data.length + n
        ∧ ∀ p, p ≠ f.path → fs1 p = fs p := by
  induction n with
  | zero =>
    intro i hits fs data hfile _ _
    exact ⟨fs, data, by simp only [check_add_loop], hfile, rfl, fun _ _ => rfl⟩
  | succ n ih =>
    intro i hits fs data hfile hlen hzero
    have hin := byte_of_bit_lt (probe_lt a b i hbits)
    have hb : byte_of_bit (probe a b bloom.bits i) = probe a b bloom.bits i / 8 % 2 ^ 32 := by
      simp [byte_of_bit, shiftRight_three, U32]
    have hc := hzero _ hin
    rw [hb] at hc
    have heng := test_bit_addressing fs f data (probe a b bloom.bits i) 0 1 hfile hc
    rw [if_neg (by simp), if_pos (by decide), fwrite_append_pair fs f _ data _ happ hfile]
      at heng
    obtain ⟨fs1, d1, hloop, hd1, hl1, hfr⟩ :=
      ih (i + 1) hits _ (data ++ [(0 ||| 2 ^ (probe a b bloom.bits i % 8)) % 256])
        (FS.put_get _ _ _) (by rw [List.length_append]; omega)
        (fun k hk => by
          rw [List.getElem?_append_left (lt_of_lt_of_le hk hlen)]
          exact hzero k hk)
    refine ⟨fs1, d1, ?_, hd1, ?_, fun p hp => ?_⟩
    · rw [check_add_loop]
      simp only [hbits, if_false, hfd, heng]
      simpa using hloop
    · rw [hl1, List.length_append, List.length_singleton]
      omega
    · rw [hfr p hp, FS.put_get_ne _ _ _ _ hp]

/-- C17 (evaluation at the failing input): after `bloomdisk_init(&bloom, 1000, 0.000001,
"t1")` in a directory without files the data file has `bytes = 3595` bytes; after one
`bloomdisk_add`, for every hash function and every buffer, it has 3615 bytes: each of the 20
probes appended its byte behind the file. -/
theorem fresh_add_extends_data_file (XXH64 : List Nat → Nat → Nat) (buffer : List Nat) :
    bloomdisk_init env_ok fp_sample fs_empty 1000 (.fin (1 / 1000000)) "t1"
      = (1, sample_init.2.1, sample_init.2.2)
    ∧ sample_init.2.1.bytes = 3595
    ∧ sample_init.2.2 "t1.dat" = some (List.replicate 3595 0)
    ∧ ∃ b1 fs1 d1, bloomdisk_add XXH64 sample_init.2.1 sample_init.2.2 buffer
          = .ok (0, b1, fs1)
        ∧ b1.bytes = 3595
        ∧ fs1 "t1.dat" = some d1
        ∧ d1.length = 3615 := by
  obtain ⟨hready, -, hfd, -, hdat⟩ := sample_init_state
  obtain ⟨hb, hk, hby⟩ := sample_init_handle
  refine ⟨sample_init_eq, hby, hdat, ?_⟩
  obtain ⟨fs1, d1, hloop, hd1, hl1, -⟩ :=
    add_loop_appends sample_init.2.1 (XXH64 buffer 0x59f2815b16f81798 % U64)
      (XXH64 buffer (XXH64 buffer 0x59f2815b16f81798 % U64) % U64) ⟨"t1.dat", true⟩
      (by rw [hb]; decide) hfd rfl sample_init.2.1.hashes 0 0 sample_init.2.2
      (List.replicate 3595 0) hdat (by rw [hb, List.length_replicate])
      (fun k hk1 => by
        rw [hb] at hk1
        rw [List.getElem?_replicate, if_pos (by omega)])
  rw [if_neg (by rw [hk]; decide)] at hloop
  have hca : bloomdisk_check_add XXH64 sample_init.2.1 sample_init.2.2 buffer 1
      = .ok (0, fs1) := by
    rw [check_add_ready XXH64 _ _ buffer 1 (by rw [hready]; decide), hloop]
  refine ⟨_, fs1, d1, add_of_check_add XXH64 _ _ fs1 buffer 0 hca, hby, hd1, ?_⟩
  rw [hl1, List.length_replicate, hk]

/-! ## Probe positions -/

theorem snprintf69_length (s : String) : (snprintf69 s).length ≤ 68 := by
  simp only [snprintf69, String.length, List.length_take]
  exact Nat.min_le_left _ _

theorem snprintf69_short (s : String) (h : s.length ≤ 68) : snprintf69 s = s := by
  apply String.ext
  simp only [snprintf69]
  exact List.take_of_length_le h

theorem snprintf69_suffix (base : String) (c1 c2 c3 : Char) :
    (snprintf69 (base ++ ⟨['.', c1, c2, c3]⟩)).data
      = base.data.take 68 ++ ['.', c1, c2, c3].take (68 - base.data.length) := by
  simp only [snprintf69, String.data_append, List.take_append_eq_append_take]

/-- The two stored file names are different exactly for base names of at most 66
characters. -/
theorem filenames_differ_iff (base : String) :
    snprintf69 (base ++ ".dat") ≠ snprintf69 (base ++ ".blm") ↔ base.length ≤ 66 := by
  have hd := snprintf69_suffix base 'd' 'a' 't'
  have hb := snprintf69_suffix base 'b' 'l' 'm'
  have hlen : base.length = base.data.length := rfl
  constructor
  · intro hne
    by_contra hlong
    apply hne
    apply String.ext
    show (snprintf69 (base ++ ⟨['.', 'd', 'a', 't']⟩)).data
      = (snprintf69 (base ++ ⟨['.', 'b', 'l', 'm']⟩)).data
    rw [hd, hb]
    have h2 : 68 - base.data.length = 0 ∨ 68 - base.data.length = 1 := by omega
    rcases h2 with h2 | h2 <;> rw [h2] <;> rfl
  · intro hshort heq
    have h1 : (snprintf69 (base ++ ⟨['.', 'd', 'a', 't']⟩)).data
        = (snprintf69 (base ++ ⟨['.', 'b', 'l', 'm']⟩)).data := congrArg String.data heq
    rw [hd, hb] at h1
    have h2 := List.append_cancel_left h1
    obtain ⟨n, hn⟩ : ∃ n, 68 - base.data.length = n + 2 := ⟨68 - base.data.length - 2, by omega⟩
    rw [hn] at h2
    simp at h2

/-- C19 (counterexample): `bloomdisk_init(&bloom, 1000, 0.000001, base)` with a base name of
67 characters, in a directory without files, returns 1, and the metadata file name and the
data file name it stores are the same string of 68 characters, the base name followed by a
dot; neither is the base name followed by its suffix. -/
theorem long_base_names_coincide :
    long_base.length = 67
    ∧ (bloomdisk_init env_ok fp_sample fs_empty 1000 (.fin (1 / 1000000)) long_base).1 = 1
    ∧ (bloomdisk_init env_ok fp_sample fs_empty 1000 (.fin (1 / 1000000)) long_base).2.1.filename_struct
        = long_base ++ "."
    ∧ (bloomdisk_init env_ok fp_sample fs_empty 1000 (.fin (1 / 1000000)) long_base).2.1.filename_data
        = long_base ++ "."
    ∧ long_base ++ "." ≠ long_base ++ ".blm"
    ∧ long_base ++ "." ≠ long_base ++ ".dat" := by
  obtain ⟨-, -, -, -, hs, hd⟩ :=
    init_accepted_sizing env_ok fp_sample fs_empty 1000 (.fin (1 / 1000000)) long_base
      sample_accepted
  refine ⟨rfl, ?_, ?_, ?_, by decide, by decide⟩
  · exact init_fresh_returns_one env_ok fp_sample fs_empty 1000 (.fin (1 / 1000000)) long_base
      sample_accepted rfl (fun _ => rfl) rfl (fun _ => rfl)
  · rw [hs]
    decide
  · rw [hd]
    decide

/-- C19 (amended): for every call of `bloomdisk_init` that passes the validation, the stored
names are `base` followed by `.blm` and `base` followed by `.dat`, each cut to its first 68
characters; the two stored names are different exactly when `base` has at most 66 characters,
and for a `base` of at most 64 characters they are exactly `base.blm` and `base.dat`. -/
theorem file_names_are_cut_to_68_characters (env : Env) (fp : FloatOps) (fs : FS)
    (entries : Nat) (error : LongDouble) (base : String)
    (h : params_rejected entries error = false) :
    (bloomdisk_init env fp fs entries error base).2.1.filename_struct
        = ⟨(base ++ ".blm").data.take 68⟩
    ∧ (bloomdisk_init env fp fs entries error base).2.1.filename_data
        = ⟨(base ++ ".dat").data.take 68⟩
    ∧ (bloomdisk_init env fp fs entries error base).2.1.filename_struct.length ≤ 68
    ∧ (bloomdisk_init env fp fs entries error base).2.1.filename_data.length ≤ 68
    ∧ ((bloomdisk_init env fp fs entries error base).2.1.filename_data
          ≠ (bloomdisk_init env fp fs entries error base).2.1.filename_struct
        ↔ base.length ≤ 66)
    ∧ (base.length ≤ 64 →
        (bloomdisk_init env fp fs entries error base).2.1.filename_struct = base ++ ".blm"
        ∧ (bloomdisk_init env fp fs entries error base).2.1.filename_data = base ++ ".dat") := by
  obtain ⟨-, -, -, -, hs, hd⟩ := init_accepted_sizing env fp fs entries error base h
  rw [hs, hd]
  refine ⟨rfl, rfl, snprintf69_length _, snprintf69_length _, filenames_differ_iff base,
    fun hlen => ⟨snprintf69_short _ ?_, snprintf69_short _ ?_⟩⟩
  · rw [String.length_append]
    have : ".blm".length = 4 := rfl
    omega
  · rw [String.length_append]
    have : ".dat".length = 4 := rfl
    omega

/-- Witness of C19: the base name `t1`. -/
theorem file_names_are_cut_to_68_characters_witness :
    params_rejected 1000 (.fin (1 / 1000000)) = false ∧ "t1".length ≤ 64
    ∧ sample_init.2.1.filename_struct = "t1.blm"
    ∧ sample_init.2.1.filename_data = "t1.dat" :=
  ⟨sample_accepted, by decide,
   (file_names_are_cut_to_68_characters env_ok fp_sample fs_empty 1000 (.fin (1 / 1000000))
      "t1" sample_accepted).2.2.2.2.2 (by decide)⟩

/-! ## check and add in terms of the bits of the data file -/

/-- Bit `x` is set in the file exactly when bit `x mod 8` of the byte at offset `x / 8` is 1. -/
theorem bit_is_set_eq (data : List Nat) (x : Nat) :
    bit_is_set data x = (data.getD (x / 8) 0).testBit (x % 8) := by
  unfold bit_is_set
  rw [shiftRight_three, Nat.one_shiftLeft]
  by_cases h : (data.getD (x / 8) 0).testBit (x % 8) = true
  · rw [h, decide_eq_true ((and_two_pow_ne_zero _ _).mpr h)]
  · rw [Bool.not_eq_true _ |>.mp h]
    exact decide_eq_false (fun hn => h ((and_two_pow_ne_zero _ _).mp hn))

/-- For a bit index below `2^35` the engine tests the bit of the file with that index. -/
theorem engine_bit_eq_bit_is_set (data : List Nat) (x : Nat) (h : x < 2 ^ 35) :
    engine_bit data x = bit_is_set data x := by
  rw [engine_bit_eq, bit_is_set_eq, byte_of_bit_small x h, shiftRight_three]

theorem probes_lt (XXH64 : List Nat → Nat → Nat) (bloom : bloomdisk) (buffer : List Nat)
    (hbits : bloom.bits ≠ 0) (x : Nat) (hx : x ∈ probes XXH64 bloom buffer) :
    x < bloom.bits := by
  simp only [probes, List.mem_map, List.mem_range] at hx
  obtain ⟨j, -, rfl⟩ := hx
  exact probe_lt _ _ _ hbits

theorem all_probed_engine_bits (XXH64 : List Nat → Nat → Nat) (bloom : bloomdisk)
    (data buffer : List Nat) (hbits : bloom.bits ≠ 0) (hsmall : bloom.bits ≤ 2 ^ 35) :
    (∀ x, x ∈ probes XXH64 bloom buffer → engine_bit data x = true)
      ↔ ∀ x, x ∈ probes XXH64 bloom buffer → bit_is_set data x = true := by
  constructor
  · intro h x hx
    rw [← engine_bit_eq_bit_is_set data x
      (lt_of_lt_of_le (probes_lt XXH64 bloom buffer hbits x hx) hsmall)]
    exact h x hx
  · intro h x hx
    rw [engine_bit_eq_bit_is_set data x
      (lt_of_lt_of_le (probes_lt XXH64 bloom buffer hbits x hx) hsmall)]
    exact h x hx

theorem result_iff (P : Prop) [Decidable P] (data : List Nat) (ps : List Nat)
    (hP : P ↔ ∀ x, x ∈ ps → bit_is_set data x = true) :
    ((if P then (1 : Int) else 0) = 1 ↔ ∀ x, x ∈ ps → bit_is_set data x = true)
    ∧ ((if P then (1 : Int) else 0) = 0 ↔ ∃ x, x ∈ ps ∧ bit_is_set data x = false) := by
  by_cases h : P
  · rw [if_pos h]
    refine ⟨⟨fun _ => hP.mp h, fun _ => rfl⟩, ⟨fun h0 => absurd h0 (by decide), ?_⟩⟩
    rintro ⟨x, hx, hf⟩
    rw [hP.mp h x hx] at hf
    exact absurd hf (by decide)
  · rw [if_neg h]
    refine ⟨⟨fun h0 => absurd h0 (by decide), fun hall => absurd (hP.mpr hall) h⟩,
      ⟨fun _ => ?_, fun _ => rfl⟩⟩
    by_contra hne
    apply h
    apply hP.mpr
    intro x hx
    by_contra hb
    exact hne ⟨x, hx, Bool.not_eq_true _ |>.mp hb⟩

/-- On a ready handle of a filter of at most `2^35` bits whose data file covers the bit range,
`bloomdisk_check` returns 1 if every one of the `hashes` probed bit positions of the buffer is
set in the data file, and 0 otherwise; handle and files are unchanged. -/
theorem check_returns_one_iff_all_probed_bits_set (XXH64 : List Nat → Nat → Nat)
    (bloom : bloomdisk) (fs : FS) (f : FILE) (data buffer : List Nat)
    (hready : bloom.ready ≠ 0) (hbits : bloom.bits ≠ 0) (hsmall : bloom.bits ≤ 2 ^ 35)
    (hfd : bloom.fd_data = some f) (hfile : fs f.path = some data)
    (hlen : (bloom.bits + 7) / 8 ≤ data.length) :
    ∃ r, bloomdisk_check XXH64 bloom fs buffer = .ok (r, bloom, fs)
      ∧ (r = 1 ↔ ∀ x, x ∈ probes XXH64 bloom buffer → bit_is_set data x = true)
      ∧ (r = 0 ↔ ∃ x, x ∈ probes XXH64 bloom buffer ∧ bit_is_set data x = false) :=
  ⟨_, check_spec XXH64 bloom fs f data buffer hready hbits hfd hfile hlen,
    result_iff _ data _ (all_probed_engine_bits XXH64 bloom data buffer hbits hsmall)⟩

/-- On a ready handle of a filter of at most `2^35` bits whose data file covers the bit range,
`bloomdisk_add` returns 1 exactly when every probed bit position of the buffer was set in
the data file as it was before the call, and 0 otherwise, whether or not two probes land on
the same bit. -/
theorem add_returns_one_iff_all_probed_bits_were_set (XXH64 : List Nat → Nat → Nat)
    (bloom : bloomdisk) (fs : FS) (f : FILE) (data buffer : List Nat)
    (hready : bloom.ready ≠ 0) (hbits : bloom.bits ≠ 0) (hsmall : bloom.bits ≤ 2 ^ 35)
    (hfd : bloom.fd_data = some f) (hfile : fs f.path = some data)
    (hlen : (bloom.bits + 7) / 8 ≤ data.length) :
    ∃ r bloom1 fs1, bloomdisk_add XXH64 bloom fs buffer = .ok (r, bloom1, fs1)
      ∧ (r = 1 ↔ ∀ x, x ∈ probes XXH64 bloom buffer → bit_is_set data x = true)
      ∧ (r = 0 ↔ ∃ x, x ∈ probes XXH64 bloom buffer ∧ bit_is_set data x = false) := by
  obtain ⟨fs1, hres, -⟩ :=
    check_add_one_spec XXH64 bloom fs f data buffer hready hbits hfd hfile hlen
  exact ⟨_, _, fs1, add_of_check_add XXH64 bloom fs fs1 buffer _ hres,
    result_iff _ data _ (all_probed_engine_bits XXH64 bloom data buffer hbits hsmall)⟩

/-! ## A filter of more than `2^35` bits -/

theorem check_of_check_add (XXH64 : List Nat → Nat → Nat) (bloom : bloomdisk) (fs fs1 : FS)
    (buffer : List Nat) (r : Int)
    (h : bloomdisk_check_add XXH64 bloom fs buffer 0 = .ok (r, fs1)) :
    bloomdisk_check XXH64 bloom fs buffer = .ok (r, bloom, fs1) := by
  simp only [bloomdisk_check, h]

theorem big_fs_data : big_fs "big.dat" = some big_data := by
  unfold big_fs FS.put
  exact if_pos rfl

theorem big_data_length : big_data.length = 2 ^ 32 + 1 := by
  unfold big_data
  rw [List.length_cons, List.length_replicate]

theorem big_data_bit_clear : bit_is_set big_data (2 ^ 35) = false := by
  rw [bit_is_set_eq, big_data, List.getD_eq_getElem?_getD,
    show (2 : Nat) ^ 35 / 8 = (2 ^ 32 - 1) + 1 by decide, List.getElem?_cons_succ,
    List.getElem?_replicate, if_pos (by decide)]
  decide

theorem big_probes (buffer : List Nat) : probes high_hash big_bloom buffer = [2 ^ 35] := by
  show (List.range 1).map (probe (2 ^ 35 % U64) (2 ^ 35 % U64) (2 ^ 35 + 8)) = [2 ^ 35]
  decide

/-- The probing of `big_bloom` for any buffer, with or without setting: the one probe is bit
`2^35`, the engine reads byte 0, finds the bit set and writes nothing. -/
theorem big_check_add (buffer : List Nat) (add : Int) :
    bloomdisk_check_add high_hash big_bloom big_fs buffer add = .ok (1, big_fs) := by
  rw [check_add_ready high_hash big_bloom big_fs buffer add (by decide)]
  show check_add_loop big_bloom (2 ^ 35 % U64) (2 ^ 35 % U64) add (0 + 1) 0 0 big_fs = _
  rw [check_add_loop, if_neg (by decide),
    show big_bloom.fd_data = some ⟨"big.dat", false⟩ from rfl,
    test_bit_addressing big_fs ⟨"big.dat", false⟩ big_data _ 1 add big_fs_data
      (by rw [show probe (2 ^ 35 % U64) (2 ^ 35 % U64) big_bloom.bits 0 / 8 % 2 ^ 32 = 0
            by decide, big_data, List.getElem?_cons_zero]),
    if_pos (by decide)]
  simp only [ne_eq, one_ne_zero, not_false_eq_true, if_true, check_add_loop]
  rfl

/-- C2 (evaluation at the failing input): on the ready handle of a filter of `2^35 + 8` bits
whose data file has `2^32 + 1` bytes, with bit 0 set and every other bit clear, a buffer whose
one probed position is bit `2^35` is reported present: `bloomdisk_check` returns 1 although
the probed bit is clear in the data file. -/
theorem check_returns_one_on_clear_bit (buffer : List Nat) :
    big_bloom.ready = 1 ∧ big_bloom.bits = 2 ^ 35 + 8 ∧ big_bloom.hashes = 1
    ∧ big_bloom.fd_data = some ⟨"big.dat", false⟩
    ∧ big_fs "big.dat" = some big_data
    ∧ big_data.length = big_bloom.bytes
    ∧ probes high_hash big_bloom buffer = [2 ^ 35]
    ∧ bit_is_set big_data (2 ^ 35) = false
    ∧ bloomdisk_check high_hash big_bloom big_fs buffer = .ok (1, big_bloom, big_fs) := by
  have hlen : big_data.length = big_bloom.bytes := by
    rw [big_data_length]
    rfl
  exact ⟨rfl, rfl, rfl, rfl, big_fs_data, hlen, big_probes buffer, big_data_bit_clear,
    check_of_check_add high_hash big_bloom big_fs big_fs buffer 1 (big_check_add buffer 0)⟩

/-- C3 (evaluation at the failing input): on the same handle and data file, `bloomdisk_add` of
a buffer whose one probed position is bit `2^35` returns 1 and counts a collision although
the probed bit was clear in the data file before the call; the data file is left as it was,
so the bit is still clear afterwards. -/
theorem add_reports_collision_on_clear_bit (buffer : List Nat) :
    probes high_hash big_bloom buffer = [2 ^ 35]
    ∧ big_fs "big.dat" = some big_data
    ∧ bit_is_set big_data (2 ^ 35) = false
    ∧ bloomdisk_add high_hash big_bloom big_fs buffer
        = .ok (1, { big_bloom with current_entries := 1, collisions := 1 }, big_fs) := by
  refine ⟨big_probes buffer, big_fs_data, big_data_bit_clear, ?_⟩
  rw [add_of_check_add high_hash big_bloom big_fs big_fs buffer 1 (big_check_add buffer 1)]
  rfl

/-! ## Set bits of the data file stay set -/

/-- One call of the bit engine, in either stream mode, keeps every set bit of every byte of
the data file. -/
theorem test_bit_keeps_set_bits (fs : FS) (f : FILE) (data : List Nat) (x : Nat)
    (set_bit : Int) (hfile : fs f.path = some data) (hx : byte_of_bit x < data.length) :
    ∃ r fs1 d1, bloomdisk_test_bit_set_bit fs (some f) x set_bit = .ok (r, fs1)
      ∧ fs1 f.path = some d1 ∧ data.length ≤ d1.length
      ∧ ∀ k i, i < 8 → (data.getD k 0).testBit i = true → (d1.getD k 0).testBit i = true := by
  obtain ⟨c, hc⟩ : ∃ c, data[byte_of_bit x]? = some c :=
    ⟨_, List.getElem?_eq_getElem hx⟩
  have hget : data.getD (byte_of_bit x) 0 = c := by
    simp [List.getD_eq_getElem?_getD, hc]
  by_cases hset : c &&& mask_of_bit x ≠ 0
  · exact ⟨1, fs, data, by simp [bloomdisk_test_bit_set_bit, hfile, hc, hset], hfile,
      le_refl _, fun _ _ _ h => h⟩
  · by_cases hs : set_bit = 0
    · exact ⟨0, fs, data, by simp [bloomdisk_test_bit_set_bit, hfile, hc, hset, hs], hfile,
        le_refl _, fun _ _ _ h => h⟩
    · by_cases happ : f.append = true
      · refine ⟨0, fs.put f.path (data ++ [(c ||| mask_of_bit x) % 256]), _, ?_,
          FS.put_get _ _ _, by simp, fun k i _ h => ?_⟩
        · simp [bloomdisk_test_bit_set_bit, hfile, hc, hset, hs, fwrite, happ]
        · have hk : k < data.length := by
            by_contra hn
            rw [List.getD_eq_default _ _ (by omega)] at h
            simp at h
          rw [List.getD_append _ _ _ _ hk]
          exact h
      · refine ⟨0, fs.put f.path (overwrite data (byte_of_bit x) [(c ||| mask_of_bit x) % 256]),
          _, ?_, FS.put_get _ _ _, by rw [overwrite_one_length _ _ _ hx], fun k i hi h => ?_⟩
        · simp [bloomdisk_test_bit_set_bit, hfile, hc, hset, hs, fwrite, happ]
        · rw [overwrite_one_getD _ _ _ _ hx]
          by_cases hk : k = byte_of_bit x
          · rw [if_pos hk, written_byte_testBit c x i hi]
            rw [hk, hget] at h
            simp [h]
          · rw [if_neg hk]
            exact h

/-- The loop of an add, in either stream mode, runs to completion and keeps every set bit of
every byte of the data file. -/
theorem add_loop_keeps_set_bits (bloom : bloomdisk) (a b : Nat) (f : FILE)
    (hbits : bloom.bits ≠ 0) (hfd : bloom.fd_data = some f) (n : Nat) :
    ∀ i hits fs data, fs f.path = some data → (bloom.bits + 7) / 8 ≤ data.length →
      ∃ r fs1 d1, check_add_loop bloom a b 1 n i hits fs = .ok (r, fs1)
        ∧ fs1 f.path = some d1 ∧ data.length ≤ d1.length
        ∧ ∀ k j, j < 8 → (data.getD k 0).testBit j = true →
            (d1.getD k 0).testBit j = true := by
  induction n with
  | zero =>
    intro i hits fs data hfile _
    exact ⟨if hits = bloom.hashes then 1 else 0, fs, data, by simp only [check_add_loop],
      hfile, le_refl _, fun _ _ _ h => h⟩
  | succ n ih =>
    intro i hits fs data hfile hlen
    have hx : byte_of_bit (probe a b bloom.bits i) < data.length :=
      lt_of_lt_of_le (byte_of_bit_lt (probe_lt a b i hbits)) hlen
    obtain ⟨r0, fs0, d0, hres, hd0, hl0, hm0⟩ :=
      test_bit_keeps_set_bits fs f data _ 1 hfile hx
    have key : ∀ hits2, ∃ r fs2 d2,
        check_add_loop bloom a b 1 n (i + 1) hits2 fs0 = .ok (r, fs2)
        ∧ fs2 f.path = some d2 ∧ data.length ≤ d2.length
        ∧ ∀ k j, j < 8 → (data.getD k 0).testBit j = true →
            (d2.getD k 0).testBit j = true := by
      intro hits2
      obtain ⟨r, fs2, d2, hloop, hd2, hl2, hm2⟩ :=
        ih (i + 1) hits2 fs0 d0 hd0 (le_trans hlen hl0)
      exact ⟨r, fs2, d2, hloop, hd2, le_trans hl0 hl2,
        fun k j hj h => hm2 k j hj (hm0 k j hj h)⟩
    by_cases hr : r0 ≠ 0
    · obtain ⟨r, fs2, d2, hloop, rest⟩ := key (hits + 1)
      refine ⟨r, fs2, d2, ?_, rest⟩
      rw [check_add_loop]
      simp only [hbits, if_false, hfd, hres]
      rw [if_pos hr]
      exact hloop
    · obtain ⟨r, fs2, d2, hloop, rest⟩ := key hits
      refine ⟨r, fs2, d2, ?_, rest⟩
      rw [check_add_loop]
      simp only [hbits, if_false, hfd, hres]
      rw [if_neg hr, if_neg (by decide)]
      exact hloop

/-- No operation clears a bit: on a ready handle whose data file covers the bit range and
whose metadata stream is on another file, in either stream mode and for every filter size,
`bloomdisk_check` and `bloomdisk_save` leave the data file as it is, and after a
`bloomdisk_add` every bit of the data file that was set is still set. -/
theorem set_bits_stay_set (XXH64 : List Nat → Nat → Nat) (bloom : bloomdisk) (fs : FS)
    (f g : FILE) (data buffer : List Nat) (hready : bloom.ready ≠ 0) (hbits : bloom.bits ≠ 0)
    (hfd : bloom.fd_data = some f) (hfile : fs f.path = some data)
    (hlen : (bloom.bits + 7) / 8 ≤ data.length)
    (hstruct : bloom.fd_struct = some g) (hpaths : f.path ≠ g.path) :
    (∃ r, bloomdisk_check XXH64 bloom fs buffer = .ok (r, bloom, fs))
    ∧ (∃ r b1 fs1 d1, bloomdisk_add XXH64 bloom fs buffer = .ok (r, b1, fs1)
        ∧ fs1 f.path = some d1 ∧ data.length ≤ d1.length
        ∧ ∀ y, bit_is_set data y = true → bit_is_set d1 y = true)
    ∧ (∃ fs1, bloomdisk_save bloom fs = .ok (bloom, fs1) ∧ fs1 f.path = some data) := by
  refine ⟨⟨_, check_spec XXH64 bloom fs f data buffer hready hbits hfd hfile hlen⟩, ?_, ?_⟩
  · obtain ⟨r, fs1, d1, hloop, hd1, hl1, hm⟩ :=
      add_loop_keeps_set_bits bloom (XXH64 buffer 0x59f2815b16f81798 % U64)
        (XXH64 buffer (XXH64 buffer 0x59f2815b16f81798 % U64) % U64) f hbits hfd
        bloom.hashes 0 0 fs data hfile hlen
    refine ⟨r, _, fs1, d1, add_of_check_add XXH64 bloom fs fs1 buffer r ?_, hd1, hl1,
      fun y hy => ?_⟩
    · rw [check_add_ready XXH64 bloom fs buffer 1 hready, hloop]
    · rw [bit_is_set_eq] at hy ⊢
      exact hm _ _ (Nat.mod_lt _ (by decide)) hy
  · refine ⟨write_metadata bloom g fs, ?_, ?_⟩
    · simp only [bloomdisk_save, hready, ne_eq, not_false_eq_true, if_true, hstruct]
    · rw [write_metadata_other_file bloom g fs f.path hpaths, hfile]

/-! ## The bits an add changes -/

/-- A bit index whose byte lies beyond the end of the file is not set. -/
theorem bit_is_set_beyond (data : List Nat) (y : Nat) (h : data.length ≤ y / 8) :
    bit_is_set data y = false := by
  rw [bit_is_set_eq, List.getD_eq_default _ _ h]
  exact Nat.zero_testBit _

/-- For bit indices below `2^35` the engine addresses the same bit only for equal indices. -/
theorem engine_same_bit_iff (x y : Nat) (hx : x < 2 ^ 35) (hy : y < 2 ^ 35) :
    engine_same_bit x y = true ↔ y = x := by
  simp only [engine_same_bit, Bool.and_eq_true, decide_eq_true_eq, byte_of_bit_small x hx,
    byte_of_bit_small y hy, shiftRight_three]
  omega

/-- One add through a data stream that is not in append mode, on a data file of at most `2^32`
bytes (a filter of at most `2^35` bits): the length of the file is kept, and afterwards the
set bits of the file are the bits that were set before and the probed positions of the
buffer, nothing else. -/
theorem add_in_place_sets_probed_bits (XXH64 : List Nat → Nat → Nat) (bloom : bloomdisk)
    (fs : FS) (f : FILE) (data buffer : List Nat) (hready : bloom.ready ≠ 0)
    (hbits : bloom.bits ≠ 0) (hfd : bloom.fd_data = some f) (hmode : f.append = false)
    (hfile : fs f.path = some data) (hlen : (bloom.bits + 7) / 8 ≤ data.length)
    (hsmall : data.length ≤ 2 ^ 32) :
    ∃ r b1 fs1 d1, bloomdisk_add XXH64 bloom fs buffer = .ok (r, b1, fs1)
      ∧ fs1 f.path = some d1 ∧ d1.length = data.length
      ∧ ∀ y, bit_is_set d1 y = true ↔
          bit_is_set data y = true ∨ y ∈ probes XXH64 bloom buffer := by
  obtain ⟨r, fs1, d1, hadd, hd1, hl1, -, hset⟩ :=
    add_in_place XXH64 bloom fs f data buffer hready hbits hfd hmode hfile hlen
  refine ⟨r, _, fs1, d1, hadd, hd1, hl1, fun y => ?_⟩
  have hprobe : ∀ x, x ∈ probes XXH64 bloom buffer → x < 8 * data.length := by
    intro x hx
    have := probes_lt XXH64 bloom buffer hbits x hx
    omega
  by_cases hy : y < 8 * data.length
  · have hy35 : y < 2 ^ 35 := by omega
    rw [← engine_bit_eq_bit_is_set d1 y hy35, ← engine_bit_eq_bit_is_set data y hy35, hset y]
    constructor
    · rintro (h | ⟨x, hx, h⟩)
      · exact Or.inl h
      · have hx35 : x < 2 ^ 35 := by have := hprobe x hx; omega
        rw [(engine_same_bit_iff x y hx35 hy35).mp h]
        exact Or.inr hx
    · rintro (h | h)
      · exact Or.inl h
      · exact Or.inr ⟨y, h, engine_same_bit_self y⟩
  · rw [bit_is_set_beyond d1 y (by omega), bit_is_set_beyond data y (by omega)]
    constructor
    · intro h
      exact absurd h (by decide)
    · rintro (h | h)
      · exact h
      · exact absurd (hprobe y h) hy

/-- The loop of an add on an append-mode stream whose file starts with `ceil(bits / 8)` zero
bytes: the file afterwards is the file before followed by one byte per probe, the byte
`(0 | mask) mod 256` of that probe. -/
theorem add_loop_appended_bytes (bloom : bloomdisk) (a b : Nat) (f : FILE)
    (hbits : bloom.bits ≠ 0) (hfd : bloom.fd_data = some f) (happ : f.append = true)
    (n : Nat) :
    ∀ i hits fs data, fs f.path = some data → (bloom.bits + 7) / 8 ≤ data.length →
      (∀ k, k < (bloom.bits + 7) / 8 → data[k]? = some 0) →
      ∃ fs1, check_add_loop bloom a b 1 n i hits fs
          = .ok (if hits = bloom.hashes then 1 else 0, fs1)
        ∧ fs1 f.path = some (data ++ (List.range' i n).map
            (fun j => (0 ||| 2 ^ (probe a b bloom.bits j % 8)) % 256)) := by
  induction n with
  | zero =>
    intro i hits fs data hfile _ _
    refine ⟨fs, by simp only [check_add_loop], ?_⟩
    rw [hfile]
    simp
  | succ n ih =>
    intro i hits fs data hfile hlen hzero
    have hin := byte_of_bit_lt (probe_lt a b i hbits)
    have hb : byte_of_bit (probe a b bloom.bits i) = probe a b bloom.bits i / 8 % 2 ^ 32 := by
      simp [byte_of_bit, shiftRight_three, U32]
    have hc := hzero _ hin
    rw [hb] at hc
    have heng := test_bit_addressing fs f data (probe a b bloom.bits i) 0 1 hfile hc
    rw [if_neg (by simp), if_pos (by decide), fwrite_append_pair fs f _ data _ happ hfile]
      at heng
    obtain ⟨fs1, hloop, hd1⟩ :=
      ih (i + 1) hits _ (data ++ [(0 ||| 2 ^ (probe a b bloom.bits i % 8)) % 256])
        (FS.put_get _ _ _) (by rw [List.length_append]; omega)
        (fun k hk => by
          rw [List.getElem?_append_left (lt_of_lt_of_le hk hlen)]
          exact hzero k hk)
    refine ⟨fs1, ?_, ?_⟩
    · rw [check_add_loop]
      simp only [hbits, if_false, hfd, heng]
      simpa using hloop
    · rw [hd1, List.range'_succ, List.map_cons, List.append_assoc, List.singleton_append]

/-- C15 (evaluation at the failing input): on the filter `t1` just created by
`bloomdisk_init(&bloom, 1000, 0.000001, "t1")`, one `bloomdisk_add`, for every hash function
and every buffer, leaves every probed bit of the buffer clear and sets a bit of the data
file that is not a probed position: bit `x_0 mod 8` of the byte with offset 3595, appended
behind the bit array. -/
theorem fresh_add_sets_a_bit_that_is_not_probed (XXH64 : List Nat → Nat → Nat)
    (buffer : List Nat) :
    bloomdisk_init env_ok fp_sample fs_empty 1000 (.fin (1 / 1000000)) "t1"
      = (1, sample_init.2.1, sample_init.2.2)
    ∧ sample_init.2.2 "t1.dat" = some (List.replicate 3595 0)
    ∧ ∃ b1 fs1 d1 y, bloomdisk_add XXH64 sample_init.2.1 sample_init.2.2 buffer
          = .ok (0, b1, fs1)
        ∧ fs1 "t1.dat" = some d1
        ∧ (∀ x, x ∈ probes XXH64 sample_init.2.1 buffer → bit_is_set d1 x = false)
        ∧ y ∉ probes XXH64 sample_init.2.1 buffer
        ∧ bit_is_set (List.replicate 3595 0) y = false
        ∧ bit_is_set d1 y = true := by
  obtain ⟨hready, -, hfd, -, hdat⟩ := sample_init_state
  obtain ⟨hb, hk, -⟩ := sample_init_handle
  have hbits : sample_init.2.1.bits ≠ 0 := by rw [hb]; decide
  refine ⟨sample_init_eq, hdat, ?_⟩
  obtain ⟨fs1, hloop, hd1⟩ :=
    add_loop_appended_bytes sample_init.2.1 (XXH64 buffer 0x59f2815b16f81798 % U64)
      (XXH64 buffer (XXH64 buffer 0x59f2815b16f81798 % U64) % U64) ⟨"t1.dat", true⟩
      hbits hfd rfl sample_init.2.1.hashes 0 0 sample_init.2.2
      (List.replicate 3595 0) hdat (by rw [hb, List.length_replicate])
      (fun k hk1 => by
        rw [hb] at hk1
        rw [List.getElem?_replicate, if_pos (by omega)])
  rw [if_neg (by rw [hk]; decide)] at hloop
  have hca : bloomdisk_check_add XXH64 sample_init.2.1 sample_init.2.2 buffer 1
      = .ok (0, fs1) := by
    rw [check_add_ready XXH64 _ _ buffer 1 (by rw [hready]; decide), hloop]
  rw [hk, hb, show List.range' 0 20 = 0 :: List.range' 1 19 from rfl, List.map_cons] at hd1
  have hx0 : probe (XXH64 buffer 0x59f2815b16f81798 % U64)
      (XXH64 buffer (XXH64 buffer 0x59f2815b16f81798 % U64) % U64) 28755 0 % 8 < 8 :=
    Nat.mod_lt _ (by decide)
  have hplt : ∀ x, x ∈ probes XXH64 sample_init.2.1 buffer → x < 28755 := by
    intro x hx
    have := probes_lt XXH64 sample_init.2.1 buffer hbits x hx
    rwa [hb] at this
  refine ⟨_, fs1, _, 28760 + probe (XXH64 buffer 0x59f2815b16f81798 % U64)
      (XXH64 buffer (XXH64 buffer 0x59f2815b16f81798 % U64) % U64) 28755 0 % 8,
    add_of_check_add XXH64 _ _ fs1 buffer 0 hca, hd1, fun x hx => ?_, fun hy => ?_, ?_, ?_⟩
  · have hx8 : x / 8 < 3595 := by have := hplt x hx; omega
    rw [bit_is_set_eq, List.getD_append _ _ _ _ (by rw [List.length_replicate]; exact hx8),
      List.getD_eq_getElem?_getD, List.getElem?_replicate, if_pos hx8]
    exact Nat.zero_testBit _
  · have := hplt _ hy
    omega
  · exact bit_is_set_beyond _ _ (by rw [List.length_replicate]; omega)
  · rw [bit_is_set_eq, List.getD_append_right _ _ _ _ (by rw [List.length_replicate]; omega),
      List.length_replicate,
      show (28760 + probe (XXH64 buffer 0x59f2815b16f81798 % U64)
        (XXH64 buffer (XXH64 buffer 0x59f2815b16f81798 % U64) % U64) 28755 0 % 8) / 8 - 3595
          = 0 by omega,
      show (28760 + probe (XXH64 buffer 0x59f2815b16f81798 % U64)
        (XXH64 buffer (XXH64 buffer 0x59f2815b16f81798 % U64) % U64) 28755 0 % 8) % 8
          = probe (XXH64 buffer 0x59f2815b16f81798 % U64)
        (XXH64 buffer (XXH64 buffer 0x59f2815b16f81798 % U64) % U64) 28755 0 % 8 by omega,
      List.getD_cons_zero, ← mask_of_bit_eq, written_byte_testBit 0 _ _ hx0]
    simp

end Bloomdisk
